import Mathlib

/-!
# WiFiSpi: the SPI link layer of `src/utility/espspi_proxy.h`

A shallow embedding of the class `EspSpiProxy` (frame transport, flow-control
polling and the byte-stream multiplexer) together with theorems about it.

## Conventions of the embedding

* Machine integers are natural numbers; a conversion to `uint8_t` is written
  `% 256`, a conversion to `uint32_t` is written `% 2 ^ 32`.
* The hardware is a `World`: the bytes the peer puts on MISO (one per SPI
  transfer, indexed by the number of transfers made so far), the readings of
  the millisecond clock (one per call of `millis()`, indexed by the number of
  calls made so far), and the trace of everything the host did on its pins.
* The two polling loops of the flow controller and the frame-poll loop of
  `readByte` are `do ... while` loops whose exit depends on the peer and on the
  clock.  They are given an iteration budget; `Run.spin` is the outcome of a
  loop that is still polling when the budget is used up, and it keeps the world
  reached so far.
* `WARN` and `WARN2` come from `debug.h` and only print; they are left out.
-/

namespace WiFiSpi

/-! ## Constants (lines 45-71) -/

abbrev CMD_WRITESTATUS : Nat := 0x01
abbrev CMD_WRITEDATA : Nat := 0x02
abbrev CMD_READDATA : Nat := 0x03
abbrev CMD_READSTATUS : Nat := 0x04

abbrev MESSAGE_FINISHED : Nat := 0xDF
abbrev MESSAGE_CONTINUES : Nat := 0xDC

abbrev SPISLAVE_RX_BUSY : Nat := 0
abbrev SPISLAVE_RX_READY : Nat := 1

abbrev SPISLAVE_TX_NODATA : Nat := 0
abbrev SPISLAVE_TX_READY : Nat := 1
abbrev SPISLAVE_TX_PREPARING_DATA : Nat := 2

abbrev SLAVE_RX_READY_TIMEOUT : Nat := 3000
abbrev SLAVE_TX_READY_TIMEOUT : Nat := 3000

abbrev SS_PULSE_DELAY_MICROSECONDS : Nat := 50

/-! ## The hardware -/

/-- One observable action of the host. -/
inductive Event where
  | pinMode (pin : Nat)
  | digitalWrite (pin : Nat) (high : Bool)
  | delayMicroseconds (us : Nat)
  | transfer (out : Nat)
  | yield
  deriving DecidableEq, Repr

/-- The environment of the proxy: peer, clock and the trace of host actions. -/
structure World where
  /-- Byte put on MISO by the peer during the n-th SPI transfer. -/
  miso : Nat → Nat
  /-- Reading of the millisecond clock at the n-th call of millis. -/
  clock : Nat → Nat
  /-- Number of SPI transfers made so far. -/
  nxfer : Nat
  /-- Number of calls of millis made so far. -/
  ticks : Nat
  /-- Host actions so far, oldest first. -/
  trace : List Event

/-- Outcome of a call that contains a polling loop. -/
inductive Run (α : Type) where
  | ret (val : α) (w : World)
  | spin (w : World)

/-- World reached by a run, returned or not. -/
def Run.world {α : Type} : Run α → World
  | .ret _ w => w
  | .spin w => w

/-- Call of `spi_obj->transfer(out)`: sends one byte, returns the byte clocked in. -/
def transfer (out : Nat) (w : World) : Nat × World :=
  (w.miso w.nxfer % 256,
   { w with nxfer := w.nxfer + 1, trace := w.trace ++ [Event.transfer (out % 256)] })

/-- Call of `millis()`: a 32-bit reading of the clock. -/
def millis (w : World) : Nat × World :=
  (w.clock w.ticks % 2 ^ 32, { w with ticks := w.ticks + 1 })

def pinMode (pin : Nat) (w : World) : World :=
  { w with trace := w.trace ++ [Event.pinMode pin] }

def digitalWrite (pin : Nat) (high : Bool) (w : World) : World :=
  { w with trace := w.trace ++ [Event.digitalWrite pin high] }

def delayMicroseconds (us : Nat) (w : World) : World :=
  { w with trace := w.trace ++ [Event.delayMicroseconds us] }

def yield (w : World) : World :=
  { w with trace := w.trace ++ [Event.yield] }

/-! ## The object (lines 74-117) -/

/-- Fields of `EspSpiProxy`; `spi_obj` is the `World`. -/
structure EspSpiProxy where
  _ss_pin : Nat
  buffer : List Nat
  buflen : Nat
  bufpos : Nat

/-- The constructor (lines 104-108) applied to the zero-initialised global
`espSpiProxy`: `_ss_pin = -1` as a `uint8_t`, `buflen = 0`. -/
def EspSpiProxy.ctor : EspSpiProxy :=
  { _ss_pin := 255, buffer := List.replicate 32 0, buflen := 0, bufpos := 0 }

/-- Method `begin` (lines 110-117). -/
def EspSpiProxy.begin (pin : Nat) (p : EspSpiProxy) (w : World) : EspSpiProxy × World :=
  let p1 := { p with _ss_pin := pin % 256 }
  (p1, digitalWrite p1._ss_pin false (pinMode p1._ss_pin w))

/-- Method `_pulseSS` (lines 84-101); the test `_ss_pin >= 0` is on a `uint8_t`. -/
def _pulseSS (p : EspSpiProxy) (start : Bool) (w : World) : World :=
  if 0 ≤ p._ss_pin then
    if start then
      w |> digitalWrite p._ss_pin true |> delayMicroseconds 1
        |> digitalWrite p._ss_pin false |> delayMicroseconds 15
    else
      w |> digitalWrite p._ss_pin true |> delayMicroseconds 1
        |> digitalWrite p._ss_pin false
  else w

/-! ## FrameTransport (lines 119-172) -/

/-- Method `readStatus` (lines 119-129); the four transfers are taken in the
order in which they are written. -/
def readStatus (p : EspSpiProxy) (w : World) : Nat × World :=
  let w0 := _pulseSS p true w
  let c := transfer CMD_READSTATUS w0
  let r0 := transfer 0 c.2
  let r1 := transfer 0 r0.2
  let r2 := transfer 0 r1.2
  let r3 := transfer 0 r2.2
  let status := (r0.1 ||| (r1.1 <<< 8) ||| (r2.1 <<< 16) ||| (r3.1 <<< 24)) % 2 ^ 32
  (status, _pulseSS p false r3.2)

/-- Method `writeStatus` (lines 131-142). -/
def writeStatus (p : EspSpiProxy) (status : Nat) (w : World) : World :=
  let w0 := _pulseSS p true w
  let c := transfer CMD_WRITESTATUS w0
  let s0 := transfer (status &&& 0xFF) c.2
  let s1 := transfer ((status >>> 8) &&& 0xFF) s0.2
  let s2 := transfer ((status >>> 16) &&& 0xFF) s1.2
  let s3 := transfer ((status >>> 24) &&& 0xFF) s2.2
  _pulseSS p false s3.2

/-- Body of the loop of `readData` (line 151): `buf[i] = spi_obj->transfer(0)`. -/
def readData.step (acc : List Nat × World) (i : Nat) : List Nat × World :=
  let r := transfer 0 acc.2
  (acc.1.set i r.1, r.2)

/-- Method `readData` (lines 144-155); returns the array after the 32 stores. -/
def readData (p : EspSpiProxy) (buf : List Nat) (w : World) : List Nat × World :=
  let w0 := _pulseSS p true w
  let c := transfer CMD_READDATA w0
  let d := transfer 0x00 c.2
  let r := (List.range 32).foldl readData.step (buf, d.2)
  (r.1, _pulseSS p false r.2)

/-- First loop of `writeData` (lines 164-166): `while(len-- && i < 32)`.
Returns the final `i`. -/
def writeData.send (data : List Nat) : Nat → Nat → World → Nat × World
  | 0, i, w => (i, w)
  | len + 1, i, w =>
    if i < 32 then writeData.send data len (i + 1) (transfer (data.getD i 0) w).2
    else (i, w)

/-- Second loop of `writeData` (lines 167-169): `while(i++ < 32)`.  The first
argument bounds the number of rounds; 32 rounds are enough from any `i`. -/
def writeData.pad : Nat → Nat → World → World
  | 0, _, w => w
  | n + 1, i, w =>
    if i < 32 then writeData.pad n (i + 1) (transfer 0 w).2
    else w

/-- Method `writeData` (lines 157-172). -/
def writeData (p : EspSpiProxy) (data : List Nat) (len : Nat) (w : World) : World :=
  let w0 := _pulseSS p true w
  let c := transfer CMD_WRITEDATA w0
  let d := transfer 0x00 c.2
  let s := writeData.send data len 0 d.2
  let w1 := writeData.pad 32 s.1 s.2
  _pulseSS p false w1

/-! ## FlowController (lines 239-285) -/

/-- The loop of `waitForSlaveRxReady` (lines 244-252), entered with `endTime`. -/
def waitForSlaveRxReady.loop (p : EspSpiProxy) (endTime : Nat) : Nat → World → Run Nat
  | 0, w => Run.spin w
  | fuel + 1, w =>
    let r := readStatus p w
    if r.1 >>> 28 = SPISLAVE_RX_READY then Run.ret (r.1 >>> 28) r.2
    else
      let m := millis (yield r.2)
      if m.1 &&& 0x0fffffff < endTime then waitForSlaveRxReady.loop p endTime fuel m.2
      else Run.ret (r.1 >>> 28) m.2

/-- Method `waitForSlaveRxReady` (lines 239-258). -/
def waitForSlaveRxReady (fuel : Nat) (p : EspSpiProxy) (w : World) : Run Nat :=
  let m := millis w
  let endTime := ((m.1 &&& 0x0fffffff) + SLAVE_RX_READY_TIMEOUT) % 2 ^ 32
  waitForSlaveRxReady.loop p endTime fuel m.2

/-- The loop of `waitForSlaveTxReady` (lines 271-279), entered with `endTime`. -/
def waitForSlaveTxReady.loop (p : EspSpiProxy) (endTime : Nat) : Nat → World → Run Nat
  | 0, w => Run.spin w
  | fuel + 1, w =>
    let r := readStatus p w
    if (r.1 >>> 24) &&& 0x0f = SPISLAVE_TX_READY then Run.ret ((r.1 >>> 24) &&& 0x0f) r.2
    else
      let m := millis (yield r.2)
      if m.1 &&& 0x0fffffff < endTime then waitForSlaveTxReady.loop p endTime fuel m.2
      else Run.ret ((r.1 >>> 24) &&& 0x0f) m.2

/-- Method `waitForSlaveTxReady` (lines 266-285); line 268 uses the constant
`SLAVE_RX_READY_TIMEOUT`. -/
def waitForSlaveTxReady (fuel : Nat) (p : EspSpiProxy) (w : World) : Run Nat :=
  let m := millis w
  let endTime := ((m.1 &&& 0x0fffffff) + SLAVE_RX_READY_TIMEOUT) % 2 ^ 32
  waitForSlaveTxReady.loop p endTime fuel m.2

/-! ## StreamMultiplexer (lines 175-233) -/

/-- Method `flush` (lines 175-192). -/
def flush (fuel : Nat) (indicator : Nat) (p : EspSpiProxy) (w : World) : Run EspSpiProxy :=
  if p.buflen = 0 then Run.ret p w
  else
    let p1 := { p with buffer := p.buffer.set 0 (indicator % 256) }
    match waitForSlaveRxReady fuel p1 w with
    | Run.spin w1 => Run.spin w1
    | Run.ret st w1 =>
      let w2 := if st = SPISLAVE_RX_READY then writeData p1 p1.buffer (p1.buflen + 1) w1 else w1
      Run.ret { p1 with buflen := 0 } w2

/-- Line 201 of `writeByte`: `buffer[++buflen] = b`. -/
def writeByte.store (b : Nat) (p : EspSpiProxy) : EspSpiProxy :=
  let n := (p.buflen + 1) % 256
  { p with buflen := n, buffer := p.buffer.set n (b % 256) }

/-- Method `writeByte` (lines 194-202). -/
def writeByte (fuel : Nat) (b : Nat) (p : EspSpiProxy) (w : World) : Run EspSpiProxy :=
  let p1 := { p with bufpos := 0 }
  if 31 ≤ p1.buflen then
    match flush fuel MESSAGE_CONTINUES p1 w with
    | Run.spin w1 => Run.spin w1
    | Run.ret p2 w1 => Run.ret (writeByte.store b p2) w1
  else Run.ret (writeByte.store b p1) w

/-- The loop of `readByte` (lines 223-225), entered with `endTime`; `millis`
is called only when the indicator of the fetched frame is not valid. -/
def readByte.poll (endTime : Nat) : Nat → EspSpiProxy → World → Run EspSpiProxy
  | 0, _, w => Run.spin w
  | fuel + 1, p, w =>
    let r := readData p p.buffer w
    let p1 := { p with buffer := r.1 }
    if p1.buffer.getD 0 0 ≠ MESSAGE_FINISHED ∧ p1.buffer.getD 0 0 ≠ MESSAGE_CONTINUES then
      let m := millis r.2
      if m.1 < endTime then readByte.poll endTime fuel p1 m.2
      else Run.ret p1 m.2
    else Run.ret p1 r.2

/-- Line 232 of `readByte`: `return buffer[bufpos++]`. -/
def readByte.next (p : EspSpiProxy) : Nat × EspSpiProxy :=
  (p.buffer.getD p.bufpos 0, { p with bufpos := (p.bufpos + 1) % 256 })

/-- Lines 219-232 of `readByte`: fetch a frame when the cursor is 0, then
return the byte under the cursor. -/
def readByte.fetch (fuel : Nat) (p : EspSpiProxy) (w : World) : Run (Nat × EspSpiProxy) :=
  if p.bufpos = 0 then
    let m := millis w
    let endTime := (m.1 + 1000) % 2 ^ 32
    match readByte.poll endTime fuel p m.2 with
    | Run.spin w1 => Run.spin w1
    | Run.ret p1 w1 =>
      if p1.buffer.getD 0 0 ≠ MESSAGE_FINISHED ∧ p1.buffer.getD 0 0 ≠ MESSAGE_CONTINUES then
        Run.ret (0, p1) w1
      else Run.ret (readByte.next { p1 with bufpos := 1 }) w1
  else Run.ret (readByte.next p) w

/-- Method `readByte` (lines 204-233). -/
def readByte (fuel : Nat) (p : EspSpiProxy) (w : World) : Run (Nat × EspSpiProxy) :=
  let p1 := { p with buflen := 0 }
  if 32 ≤ p1.bufpos then
    if p1.buffer.getD 0 0 ≠ MESSAGE_CONTINUES then Run.ret (0, p1) w
    else
      let p2 := { p1 with bufpos := 0 }
      match waitForSlaveTxReady fuel p2 w with
      | Run.spin w1 => Run.spin w1
      | Run.ret _ w1 => readByte.fetch fuel p2 w1
  else readByte.fetch fuel p1 w

/-! ## Vocabulary of the statements -/

/-- The world after `k` more transfers that left the events `evs`. -/
def World.after (w : World) (k : Nat) (evs : List Event) : World :=
  { w with nxfer := w.nxfer + k, trace := w.trace ++ evs }

/-- The world after one more reading of the clock. -/
def World.tick (w : World) : World :=
  { w with ticks := w.ticks + 1 }

/-- Events of a select-line pulse on `pin`. -/
def pulseEvents (pin : Nat) (start : Bool) : List Event :=
  if start then
    [Event.digitalWrite pin true, Event.delayMicroseconds 1,
     Event.digitalWrite pin false, Event.delayMicroseconds 15]
  else
    [Event.digitalWrite pin true, Event.delayMicroseconds 1, Event.digitalWrite pin false]

/-- Events of one READSTATUS transaction: command 0x04 and four dummy bytes. -/
def statusEvents (pin : Nat) : List Event :=
  pulseEvents pin true
    ++ [Event.transfer 4, Event.transfer 0, Event.transfer 0, Event.transfer 0, Event.transfer 0]
    ++ pulseEvents pin false

/-- Events of one WRITESTATUS transaction sending the bytes `bs`. -/
def writeStatusEvents (pin : Nat) (bs : List Nat) : List Event :=
  pulseEvents pin true ++ Event.transfer 1 :: bs.map Event.transfer ++ pulseEvents pin false

/-- Events of one WRITEDATA transaction carrying `frame`: command 0x02, one
dummy byte, then the bytes of the frame. -/
def writeDataEvents (pin : Nat) (frame : List Nat) : List Event :=
  pulseEvents pin true
    ++ Event.transfer 2 :: Event.transfer 0 :: frame.map Event.transfer
    ++ pulseEvents pin false

/-- Events of one READDATA transaction: command 0x03, one dummy byte, 32 dummy bytes. -/
def readDataEvents (pin : Nat) : List Event :=
  pulseEvents pin true
    ++ Event.transfer 3 :: Event.transfer 0 :: List.replicate 32 (Event.transfer 0)
    ++ pulseEvents pin false

/-- The word made of the four bytes `b0 b1 b2 b3`, least significant first. -/
def wordOfBytes (b0 b1 b2 b3 : Nat) : Nat :=
  b0 + 2 ^ 8 * b1 + 2 ^ 16 * b2 + 2 ^ 24 * b3

/-- The status word that the peer `miso` gives to a READSTATUS transaction
whose command byte is transfer number `n`. -/
def statusAt (miso : Nat → Nat) (n : Nat) : Nat :=
  wordOfBytes (miso (n + 1) % 256) (miso (n + 2) % 256) (miso (n + 3) % 256) (miso (n + 4) % 256)

/-- The frame that the peer `miso` gives to a READDATA transaction whose
command byte is transfer number `n`. -/
def frameAt (miso : Nat → Nat) (n : Nat) : List Nat :=
  (List.range 32).map (fun i => miso (n + 2 + i) % 256)

/-- The receive-state field of a status word: bits 31..28. -/
def rxField (status : Nat) : Nat := status >>> 28

/-- The world after `j` polls of the status that each found the peer not
ready and the clock inside the window: `j` READSTATUS transactions, each
followed by `yield()` and one reading of the clock. -/
def World.polled (w : World) (pin : Nat) (j : Nat) : World :=
  { w with
    nxfer := w.nxfer + 5 * j
    ticks := w.ticks + j
    trace := w.trace ++ (List.replicate j (statusEvents pin ++ [Event.yield])).flatten }

/-- The array holds 32 `uint8_t` and the other fields are `uint8_t`. -/
def EspSpiProxy.WF (p : EspSpiProxy) : Prop :=
  p.buffer.length = 32 ∧ (∀ x ∈ p.buffer, x < 256) ∧ p._ss_pin < 256
    ∧ p.buflen < 256 ∧ p.bufpos < 256

instance (p : EspSpiProxy) : Decidable p.WF := by
  unfold EspSpiProxy.WF; infer_instance

/-- The 32 bytes of a frame: the indicator, the payload, zero padding. -/
def frameOf (indicator : Nat) (payload : List Nat) : List Nat :=
  indicator :: payload ++ List.replicate (31 - payload.length) 0

/-- The bytes waiting in the transmit buffer: `buffer[1 .. buflen]`. -/
def EspSpiProxy.pending (p : EspSpiProxy) : List Nat :=
  (p.buffer.drop 1).take p.buflen

/-- The peer reports receive-ready whenever its status is read. -/
def AlwaysRxReady (miso : Nat → Nat) : Prop :=
  ∀ n, rxField (statusAt miso n) = 1

/-- The world after the frames `fs` have been sent, each one after a single
successful poll of the status: per frame one reading of the clock, one
READSTATUS transaction and one WRITEDATA transaction. -/
def World.sent (w : World) (pin : Nat) (fs : List (List Nat)) : World :=
  { w with
    nxfer := w.nxfer + 39 * fs.length
    ticks := w.ticks + fs.length
    trace := w.trace ++ fs.flatMap (fun f => statusEvents pin ++ writeDataEvents pin f) }

/-- The `k`-th run of at most 31 bytes of `bs`. -/
def chunk (bs : List Nat) (k : Nat) : List Nat :=
  (bs.drop (31 * k)).take 31

/-- Number of frames of a message of `n` bytes: `n / 31` rounded up. -/
def nframes (n : Nat) : Nat := (n + 30) / 31

/-- The frames of the message `bs`: every frame but the last is tagged
CONTINUES, the last is tagged FINISHED. -/
def messageFrames (bs : List Nat) : List (List Nat) :=
  (List.range (nframes bs.length)).map (fun k =>
    frameOf (if k + 1 = nframes bs.length then MESSAGE_FINISHED else MESSAGE_CONTINUES)
      (chunk bs k))

/-- Calls `writeByte` on each byte of `bs` in order. -/
def writeBytes (fuel : Nat) : List Nat → EspSpiProxy → World → Run EspSpiProxy
  | [], p, w => Run.ret p w
  | b :: bs, p, w =>
    match writeByte fuel b p w with
    | Run.spin w1 => Run.spin w1
    | Run.ret p1 w1 => writeBytes fuel bs p1 w1

/-- Calls `writeByte` on each byte of `bs` in order, then `flush(MESSAGE_FINISHED)`. -/
def writeMessage (fuel : Nat) (bs : List Nat) (p : EspSpiProxy) (w : World) : Run EspSpiProxy :=
  match writeBytes fuel bs p w with
  | Run.spin w1 => Run.spin w1
  | Run.ret p1 w1 => flush fuel MESSAGE_FINISHED p1 w1

/-- The transmit-state field of a status word: bits 27..24. -/
def txField (status : Nat) : Nat := (status >>> 24) &&& 0x0f

/-- The world after `k` further frames of a message have been fetched, each
one after a single successful poll of the status: per frame two readings of
the clock, one READSTATUS transaction and one READDATA transaction. -/
def World.fetched (w : World) (pin : Nat) (k : Nat) : World :=
  { w with
    nxfer := w.nxfer + 39 * k
    ticks := w.ticks + 2 * k
    trace := w.trace ++ (List.replicate k (statusEvents pin ++ readDataEvents pin)).flatten }

/-- Calls `readByte` `n` times and collects the bytes returned. -/
def readBytes (fuel : Nat) : Nat → EspSpiProxy → World → Run (List Nat × EspSpiProxy)
  | 0, p, w => Run.ret ([], p) w
  | n + 1, p, w =>
    match readByte fuel p w with
    | Run.spin w1 => Run.spin w1
    | Run.ret r w1 =>
      match readBytes fuel n r.2 w1 with
      | Run.spin w2 => Run.spin w2
      | Run.ret rs w2 => Run.ret (r.1 :: rs.1, rs.2) w2

/-- The indicator byte `b` of a frame is neither FINISHED nor CONTINUES. -/
@[reducible] def badIndicator (b : Nat) : Prop :=
  b ≠ MESSAGE_FINISHED ∧ b ≠ MESSAGE_CONTINUES

/-- The world after `j` rounds of the frame-poll loop of `readByte` that each
fetched a frame with a bad indicator and then read the clock: `j` READDATA
transactions and `j` readings of the clock. -/
def World.refetched (w : World) (pin : Nat) (j : Nat) : World :=
  { w with
    nxfer := w.nxfer + 34 * j
    ticks := w.ticks + j
    trace := w.trace ++ (List.replicate j (readDataEvents pin)).flatten }

/-! ## Sequences of calls -/

/-- A call of one of the three methods of the byte stream. -/
inductive Op where
  | writeByte (b : Nat)
  | flush (indicator : Nat)
  | readByte
  deriving DecidableEq, Repr

/-- One call, with the budget `fuel` for its loops; the value is the byte
returned when the call is `readByte`. -/
def runOp (fuel : Nat) : Op → EspSpiProxy → World → Run (Option Nat × EspSpiProxy)
  | Op.writeByte b, p, w =>
    match writeByte fuel b p w with
    | Run.spin w1 => Run.spin w1
    | Run.ret p1 w1 => Run.ret (none, p1) w1
  | Op.flush indicator, p, w =>
    match flush fuel indicator p w with
    | Run.spin w1 => Run.spin w1
    | Run.ret p1 w1 => Run.ret (none, p1) w1
  | Op.readByte, p, w =>
    match readByte fuel p w with
    | Run.spin w1 => Run.spin w1
    | Run.ret r w1 => Run.ret (some r.1, r.2) w1

/-- A sequence of calls, each with its own budget; collects the bytes
returned by the calls of `readByte`. -/
def runCalls : List (Nat × Op) → EspSpiProxy → World → Run (List Nat × EspSpiProxy)
  | [], p, w => Run.ret ([], p) w
  | c :: rest, p, w =>
    match runOp c.1 c.2 p w with
    | Run.spin w1 => Run.spin w1
    | Run.ret r w1 =>
      match runCalls rest r.2 w1 with
      | Run.spin w2 => Run.spin w2
      | Run.ret rs w2 => Run.ret (r.1.toList ++ rs.1, rs.2) w2

/-- An initial state: a 32-byte array and both cursors 0, as after the
constructor and after `begin`. -/
def EspSpiProxy.Initial (p : EspSpiProxy) : Prop :=
  p.buffer.length = 32 ∧ p.buflen = 0 ∧ p.bufpos = 0

instance (p : EspSpiProxy) : Decidable p.Initial := by
  unfold EspSpiProxy.Initial; infer_instance

/-- The invariant of the two cursors. -/
def EspSpiProxy.Inv (p : EspSpiProxy) : Prop :=
  p.buffer.length = 32 ∧ p.buflen ≤ 31 ∧ p.bufpos ≤ 32 ∧ (p.buflen = 0 ∨ p.bufpos = 0)

/-! ## Indexes into the array -/

/-- Indexes of `data` read by `writeData(data, len)`: `data[i++]` is read
while `len-- && i < 32` (lines 164-166). -/
def writeData.indexes (len : Nat) : List Nat :=
  List.range (min len 32)

/-- Indexes of `buf` written by `readData(buf)` (lines 150-152). -/
def readData.indexes : List Nat :=
  List.range 32

/-- Indexes of `buffer` used by `flush`: `buffer[0]` (line 182) and, when
`writeData(buffer, buflen+1)` is called (line 188), those it reads. -/
def flush.indexes (fuel : Nat) (p : EspSpiProxy) (w : World) : List Nat :=
  if p.buflen = 0 then []
  else
    match waitForSlaveRxReady fuel p w with
    | Run.spin _ => [0]
    | Run.ret st _ =>
      if st = SPISLAVE_RX_READY then 0 :: writeData.indexes (p.buflen + 1) else [0]

/-- Indexes of `buffer` used by `writeByte`: those of the `flush` it may
make (line 199), then the index of `buffer[++buflen]` (line 201). -/
def writeByte.indexes (fuel : Nat) (p : EspSpiProxy) (w : World) : List Nat :=
  let p1 := { p with bufpos := 0 }
  if 31 ≤ p1.buflen then
    flush.indexes fuel p1 w
      ++ match flush fuel MESSAGE_CONTINUES p1 w with
         | Run.spin _ => []
         | Run.ret p2 _ => [(p2.buflen + 1) % 256]
  else [(p1.buflen + 1) % 256]

/-- Indexes of `buffer` used by the loop of `readByte` (lines 223-225): those
written by `readData(buffer)`, then `buffer[0]` in the condition. -/
def readByte.poll.indexes (endTime : Nat) : Nat → EspSpiProxy → World → List Nat
  | 0, _, _ => []
  | fuel + 1, p, w =>
    let r := readData p p.buffer w
    let p1 := { p with buffer := r.1 }
    readData.indexes ++ 0 ::
      (if p1.buffer.getD 0 0 ≠ MESSAGE_FINISHED ∧ p1.buffer.getD 0 0 ≠ MESSAGE_CONTINUES then
        let m := millis r.2
        if m.1 < endTime then readByte.poll.indexes endTime fuel p1 m.2 else []
      else [])

/-- Indexes of `buffer` used by lines 219-232 of `readByte`: those of the
loop, `buffer[0]` on line 227, and the index of `buffer[bufpos++]` (line 232). -/
def readByte.fetch.indexes (fuel : Nat) (p : EspSpiProxy) (w : World) : List Nat :=
  if p.bufpos = 0 then
    let m := millis w
    let endTime := (m.1 + 1000) % 2 ^ 32
    readByte.poll.indexes endTime fuel p m.2
      ++ match readByte.poll endTime fuel p m.2 with
         | Run.spin _ => []
         | Run.ret p1 _ =>
           0 :: (if p1.buffer.getD 0 0 ≠ MESSAGE_FINISHED
                    ∧ p1.buffer.getD 0 0 ≠ MESSAGE_CONTINUES then []
                 else [1])
  else [p.bufpos]

/-- Indexes of `buffer` used by `readByte`: `buffer[0]` on line 210 when the
cursor is at the end, then those of lines 219-232 unless it returns on line 211. -/
def readByte.indexes (fuel : Nat) (p : EspSpiProxy) (w : World) : List Nat :=
  let p1 := { p with buflen := 0 }
  if 32 ≤ p1.bufpos then
    0 :: (if p1.buffer.getD 0 0 ≠ MESSAGE_CONTINUES then []
          else
            let p2 := { p1 with bufpos := 0 }
            match waitForSlaveTxReady fuel p2 w with
            | Run.spin _ => []
            | Run.ret _ w1 => readByte.fetch.indexes fuel p2 w1)
  else readByte.fetch.indexes fuel p1 w

/-! ## The data model with two buffers

The data model of the specification has a transmit buffer, written by
`writeByte` and `flush`, and a receive buffer, written by `readData`.  The
definitions of this section follow it: they are the methods of the
multiplexer over two separate 32-byte arrays. -/

/-- The state of the multiplexer with a transmit array and a receive array. -/
structure SplitProxy where
  _ss_pin : Nat
  txbuf : List Nat
  rxbuf : List Nat
  buflen : Nat
  bufpos : Nat

/-- The object handed to the transport, which uses its pin only. -/
def SplitProxy.link (q : SplitProxy) : EspSpiProxy :=
  { _ss_pin := q._ss_pin, buffer := q.txbuf, buflen := q.buflen, bufpos := q.bufpos }

/-- `flush` over the transmit array. -/
def SplitProxy.flush (fuel : Nat) (indicator : Nat) (q : SplitProxy) (w : World) :
    Run SplitProxy :=
  if q.buflen = 0 then Run.ret q w
  else
    let q1 := { q with txbuf := q.txbuf.set 0 (indicator % 256) }
    match waitForSlaveRxReady fuel q1.link w with
    | Run.spin w1 => Run.spin w1
    | Run.ret st w1 =>
      let w2 :=
        if st = SPISLAVE_RX_READY then writeData q1.link q1.txbuf (q1.buflen + 1) w1 else w1
      Run.ret { q1 with buflen := 0 } w2

/-- The store of `writeByte` into the transmit array. -/
def SplitProxy.store (b : Nat) (q : SplitProxy) : SplitProxy :=
  let n := (q.buflen + 1) % 256
  { q with buflen := n, txbuf := q.txbuf.set n (b % 256) }

/-- `writeByte` over the transmit array. -/
def SplitProxy.writeByte (fuel : Nat) (b : Nat) (q : SplitProxy) (w : World) : Run SplitProxy :=
  let q1 := { q with bufpos := 0 }
  if 31 ≤ q1.buflen then
    match SplitProxy.flush fuel MESSAGE_CONTINUES q1 w with
    | Run.spin w1 => Run.spin w1
    | Run.ret q2 w1 => Run.ret (SplitProxy.store b q2) w1
  else Run.ret (SplitProxy.store b q1) w

/-- The frame-poll loop of `readByte` over the receive array. -/
def SplitProxy.poll (endTime : Nat) : Nat → SplitProxy → World → Run SplitProxy
  | 0, _, w => Run.spin w
  | fuel + 1, q, w =>
    let r := readData q.link q.rxbuf w
    let q1 := { q with rxbuf := r.1 }
    if q1.rxbuf.getD 0 0 ≠ MESSAGE_FINISHED ∧ q1.rxbuf.getD 0 0 ≠ MESSAGE_CONTINUES then
      let m := millis r.2
      if m.1 < endTime then SplitProxy.poll endTime fuel q1 m.2
      else Run.ret q1 m.2
    else Run.ret q1 r.2

/-- The byte under the receive cursor, and the cursor moved on. -/
def SplitProxy.next (q : SplitProxy) : Nat × SplitProxy :=
  (q.rxbuf.getD q.bufpos 0, { q with bufpos := (q.bufpos + 1) % 256 })

/-- The second half of `readByte` over the receive array. -/
def SplitProxy.fetch (fuel : Nat) (q : SplitProxy) (w : World) : Run (Nat × SplitProxy) :=
  if q.bufpos = 0 then
    let m := millis w
    let endTime := (m.1 + 1000) % 2 ^ 32
    match SplitProxy.poll endTime fuel q m.2 with
    | Run.spin w1 => Run.spin w1
    | Run.ret q1 w1 =>
      if q1.rxbuf.getD 0 0 ≠ MESSAGE_FINISHED ∧ q1.rxbuf.getD 0 0 ≠ MESSAGE_CONTINUES then
        Run.ret (0, q1) w1
      else Run.ret (SplitProxy.next { q1 with bufpos := 1 }) w1
  else Run.ret (SplitProxy.next q) w

/-- `readByte` over the receive array. -/
def SplitProxy.readByte (fuel : Nat) (q : SplitProxy) (w : World) : Run (Nat × SplitProxy) :=
  let q1 := { q with buflen := 0 }
  if 32 ≤ q1.bufpos then
    if q1.rxbuf.getD 0 0 ≠ MESSAGE_CONTINUES then Run.ret (0, q1) w
    else
      let q2 := { q1 with bufpos := 0 }
      match waitForSlaveTxReady fuel q2.link w with
      | Run.spin w1 => Run.spin w1
      | Run.ret _ w1 => SplitProxy.fetch fuel q2 w1
  else SplitProxy.fetch fuel q1 w

/-- One call on the model with two buffers. -/
def SplitProxy.runOp (fuel : Nat) : Op → SplitProxy → World → Run (Option Nat × SplitProxy)
  | Op.writeByte b, q, w =>
    match SplitProxy.writeByte fuel b q w with
    | Run.spin w1 => Run.spin w1
    | Run.ret q1 w1 => Run.ret (none, q1) w1
  | Op.flush indicator, q, w =>
    match SplitProxy.flush fuel indicator q w with
    | Run.spin w1 => Run.spin w1
    | Run.ret q1 w1 => Run.ret (none, q1) w1
  | Op.readByte, q, w =>
    match SplitProxy.readByte fuel q w with
    | Run.spin w1 => Run.spin w1
    | Run.ret r w1 => Run.ret (some r.1, r.2) w1

/-- A sequence of calls on the model with two buffers. -/
def SplitProxy.runCalls : List (Nat × Op) → SplitProxy → World → Run (List Nat × SplitProxy)
  | [], q, w => Run.ret ([], q) w
  | c :: rest, q, w =>
    match SplitProxy.runOp c.1 c.2 q w with
    | Run.spin w1 => Run.spin w1
    | Run.ret r w1 =>
      match SplitProxy.runCalls rest r.2 w1 with
      | Run.spin w2 => Run.spin w2
      | Run.ret rs w2 => Run.ret (r.1.toList ++ rs.1, rs.2) w2

/-- The initial state of the model with two buffers for the pin `pin`. -/
def SplitProxy.ctor (pin : Nat) : SplitProxy :=
  { _ss_pin := pin, txbuf := List.replicate 32 0, rxbuf := List.replicate 32 0, buflen := 0,
    bufpos := 0 }

/-- What a run shows: whether it returned, the value it returned without the
state of the object, and the world. -/
def Run.observe {α β : Type} : Run (α × β) → Run α
  | Run.ret r w => Run.ret r.1 w
  | Run.spin w => Run.spin w

/-- The state with one array and the state with two arrays agree: same pin
and cursors, the bytes waiting to be sent are the same, and the frame being
read is the same. -/
def Sim (p : EspSpiProxy) (q : SplitProxy) : Prop :=
  q._ss_pin = p._ss_pin ∧ q.buflen = p.buflen ∧ q.bufpos = p.bufpos
    ∧ p.buffer.length = 32 ∧ q.txbuf.length = 32 ∧ q.rxbuf.length = 32
    ∧ p.buflen ≤ 31 ∧ (p.buflen = 0 ∨ p.bufpos = 0)
    ∧ (∀ i, 1 ≤ i → i ≤ p.buflen → q.txbuf.getD i 0 = p.buffer.getD i 0)
    ∧ (p.bufpos ≠ 0 → q.rxbuf = p.buffer)

/-! ## Concrete inputs -/

/-- A peer that answers every transfer with 0x10, so that every status word
is 0x10101010 (receive-ready); the clock advances by 1 ms per reading. -/
def readyWorld : World :=
  { miso := fun _ => 0x10, clock := fun k => k, nxfer := 0, ticks := 0, trace := [] }

/-- A peer that answers every transfer with 0 (receiver busy, no data); the
clock advances by 5000 ms per reading. -/
def busyWorld : World :=
  { miso := fun _ => 0, clock := fun k => 5000 * k, nxfer := 0, ticks := 0, trace := [] }

/-- A peer that answers every transfer with 0 (receiver busy); the clock
reads 0x0FFFF448 = 0x0FFFFFFF - 2999 at first and advances by 1 ms per reading. -/
def stuckWorld : World :=
  { miso := fun _ => 0, clock := fun k => 0x0FFFF448 + k, nxfer := 0, ticks := 0, trace := [] }

/-- A peer that serves two frames to two READDATA transactions separated by
one READSTATUS transaction: transfer 2 is the indicator CONTINUES of the first
frame, transfer 38 is the high byte of a transmit-ready status word, transfer
41 is the indicator FINISHED of the second frame; every other byte is its own
transfer number. -/
def twoFrameWorld : World :=
  { miso := fun n => if n = 2 then 0xDC else if n = 38 then 0x01 else if n = 41 then 0xDF else n
    clock := fun k => k, nxfer := 0, ticks := 0, trace := [] }

/-- A peer that echoes the four bytes of the status word 0x12345678, least
significant first, after the command byte. -/
def echoWorld : World :=
  { miso := fun n => [0, 0x78, 0x56, 0x34, 0x12].getD n 0
    clock := fun k => k, nxfer := 0, ticks := 0, trace := [] }

/-- The proxy after `writeByte(0x41)` on a fresh object: one byte waiting. -/
def loadedProxy : EspSpiProxy :=
  { _ss_pin := 255, buffer := 0 :: 0x41 :: List.replicate 30 0, buflen := 1, bufpos := 0 }

/-- The proxy after one `readByte` from `twoFrameWorld`: the first frame is in
the array and the receive cursor is at 2. -/
def halfReadProxy : EspSpiProxy :=
  { _ss_pin := 255, buffer := frameAt twoFrameWorld.miso 0, buflen := 0, bufpos := 2 }

/-- The proxy after a frame tagged FINISHED has been read to its end. -/
def doneProxy : EspSpiProxy :=
  { _ss_pin := 255, buffer := 0xDF :: List.replicate 31 7, buflen := 0, bufpos := 32 }

/-- A peer that answers every transfer with 0 (no valid indicator); the clock
reads 0xFFFFFC17 = 2^32 - 1001 at first and advances by 3 ms per reading. -/
def lateWorld : World :=
  { miso := fun _ => 0, clock := fun k => 0xFFFFFC17 + 3 * k, nxfer := 0, ticks := 0, trace := [] }

/-- The clock of `lateWorld` with a peer whose first 350 frames have the
indicator 0 and whose next frame is tagged FINISHED and carries 0x55 as its
byte 1: transfer 11902 = 34 * 350 + 2 is the indicator of that frame and
transfer 11903 its byte 1; every other byte is 0. -/
def lateFrameWorld : World :=
  { miso := fun n => if n = 11902 then 0xDF else if n = 11903 then 0x55 else 0
    clock := fun k => 0xFFFFFC17 + 3 * k, nxfer := 0, ticks := 0, trace := [] }

/-- A proxy in the middle of a frame tagged CONTINUES whose data bytes are all
0x77: the receive cursor is at 2, thirty bytes are unread. -/
def staleProxy : EspSpiProxy :=
  { _ss_pin := 255, buffer := 0xDC :: List.replicate 31 0x77, buflen := 0, bufpos := 2 }

/-- A peer that answers every transfer with 0x01, so that every status word
is 0x01010101: transmit-state READY, receive-state BUSY. -/
def txReadyWorld : World :=
  { miso := fun _ => 0x01, clock := fun k => k, nxfer := 0, ticks := 0, trace := [] }

/-- The world `w` with another peer. -/
def World.withMiso (w : World) (miso : Nat → Nat) : World :=
  { w with miso := miso }

/-- The same outcome in another world. -/
def Run.mapWorld {α : Type} (f : World → World) : Run α → Run α
  | Run.ret v w => Run.ret v (f w)
  | Run.spin w => Run.spin (f w)

/-! ## Basic facts -/

@[simp] theorem World.after_miso (w : World) (k : Nat) (evs : List Event) :
    (w.after k evs).miso = w.miso := rfl
@[simp] theorem World.after_clock (w : World) (k : Nat) (evs : List Event) :
    (w.after k evs).clock = w.clock := rfl
@[simp] theorem World.after_nxfer (w : World) (k : Nat) (evs : List Event) :
    (w.after k evs).nxfer = w.nxfer + k := rfl
@[simp] theorem World.after_ticks (w : World) (k : Nat) (evs : List Event) :
    (w.after k evs).ticks = w.ticks := rfl
@[simp] theorem World.after_trace (w : World) (k : Nat) (evs : List Event) :
    (w.after k evs).trace = w.trace ++ evs := rfl
@[simp] theorem World.tick_miso (w : World) : w.tick.miso = w.miso := rfl
@[simp] theorem World.tick_clock (w : World) : w.tick.clock = w.clock := rfl
@[simp] theorem World.tick_nxfer (w : World) : w.tick.nxfer = w.nxfer := rfl
@[simp] theorem World.tick_ticks (w : World) : w.tick.ticks = w.ticks + 1 := rfl
@[simp] theorem World.tick_trace (w : World) : w.tick.trace = w.trace := rfl

theorem World.after_after (w : World) (a b : Nat) (e f : List Event) :
    (w.after a e).after b f = w.after (a + b) (e ++ f) := by
  simp [World.after, Nat.add_assoc]

theorem World.after_zero_nil (w : World) : w.after 0 [] = w := by
  simp [World.after]

theorem World.tick_after (w : World) (a : Nat) (e : List Event) :
    (w.after a e).tick = w.tick.after a e := rfl

theorem millis_eq (w : World) : millis w = (w.clock w.ticks % 2 ^ 32, w.tick) := rfl

theorem transfer_eq (out : Nat) (w : World) :
    transfer out w = (w.miso w.nxfer % 256, w.after 1 [Event.transfer (out % 256)]) := rfl

theorem yield_eq (w : World) : yield w = w.after 0 [Event.yield] := rfl

theorem pulseSS_eq (p : EspSpiProxy) (start : Bool) (w : World) :
    _pulseSS p start w = w.after 0 (pulseEvents p._ss_pin start) := by
  cases start <;>
    simp [_pulseSS, pulseEvents, digitalWrite, delayMicroseconds, World.after]

theorem or_bytes (b0 b1 b2 b3 : Nat) (h0 : b0 < 256) (h1 : b1 < 256) (h2 : b2 < 256)
    (h3 : b3 < 256) :
    (b0 ||| (b1 <<< 8) ||| (b2 <<< 16) ||| (b3 <<< 24)) % 2 ^ 32 = wordOfBytes b0 b1 b2 b3 := by
  have e1 : 2 ^ 8 * b1 + b0 = 2 ^ 8 * b1 ||| b0 :=
    Nat.mul_add_lt_is_or (by omega) b1
  have e2 : 2 ^ 16 * b2 + (2 ^ 8 * b1 + b0) = 2 ^ 16 * b2 ||| (2 ^ 8 * b1 + b0) :=
    Nat.mul_add_lt_is_or (by omega) b2
  have e3 : 2 ^ 24 * b3 + (2 ^ 16 * b2 + (2 ^ 8 * b1 + b0))
      = 2 ^ 24 * b3 ||| (2 ^ 16 * b2 + (2 ^ 8 * b1 + b0)) :=
    Nat.mul_add_lt_is_or (by omega) b3
  have e : b0 ||| (b1 <<< 8) ||| (b2 <<< 16) ||| (b3 <<< 24)
      = 2 ^ 24 * b3 + (2 ^ 16 * b2 + (2 ^ 8 * b1 + b0)) := by
    rw [e3, e2, e1, Nat.shiftLeft_eq, Nat.shiftLeft_eq, Nat.shiftLeft_eq,
      Nat.mul_comm b1, Nat.mul_comm b2, Nat.mul_comm b3,
      Nat.or_comm b0, Nat.or_comm _ (2 ^ 16 * b2), Nat.or_comm _ (2 ^ 24 * b3)]
  rw [e, wordOfBytes]
  omega

theorem readStatus_eq (p : EspSpiProxy) (w : World) :
    readStatus p w = (statusAt w.miso w.nxfer, w.after 5 (statusEvents p._ss_pin)) := by
  simp only [readStatus, pulseSS_eq, transfer_eq, World.after_after, World.after_miso,
    World.after_nxfer, statusAt]
  rw [or_bytes _ _ _ _ (Nat.mod_lt _ (by norm_num)) (Nat.mod_lt _ (by norm_num))
    (Nat.mod_lt _ (by norm_num)) (Nat.mod_lt _ (by norm_num))]
  simp [statusEvents, CMD_READSTATUS]

theorem and_ff (x : Nat) : x &&& 0xFF = x % 256 :=
  Nat.and_pow_two_sub_one_eq_mod x 8

theorem writeStatus_eq (p : EspSpiProxy) (status : Nat) (w : World) :
    writeStatus p status w
      = w.after 5 (writeStatusEvents p._ss_pin
          [status &&& 0xFF, (status >>> 8) &&& 0xFF, (status >>> 16) &&& 0xFF,
           (status >>> 24) &&& 0xFF]) := by
  simp only [writeStatus, pulseSS_eq, transfer_eq, World.after_after]
  simp [writeStatusEvents, CMD_WRITESTATUS, and_ff]

theorem readData_fold (f : Nat → Nat) (n : Nat) :
    ∀ (buf : List Nat) (w : World), n ≤ buf.length → (∀ i, f i = w.miso (w.nxfer + i) % 256) →
      (List.range n).foldl readData.step (buf, w)
        = ((List.range n).map f ++ buf.drop n,
           w.after n (List.replicate n (Event.transfer 0))) := by
  induction n with
  | zero => intro buf w _ _; simp [World.after_zero_nil]
  | succ n ih =>
    intro buf w hn hf
    rw [List.range_succ, List.foldl_append, ih buf w (by omega) hf]
    simp only [List.foldl_cons, List.foldl_nil, readData.step, transfer_eq, World.after_after,
      World.after_miso, World.after_nxfer, ← hf n]
    congr 1
    · rw [List.set_append]
      simp only [List.length_map, List.length_range, Nat.lt_irrefl, if_false, Nat.sub_self,
        List.map_append, List.map_cons, List.map_nil, List.append_assoc]
      rw [List.drop_eq_getElem_cons (by omega : n < buf.length), List.set_cons_zero]
      rfl
    · congr 1
      simp [List.replicate_succ', Nat.zero_mod]

theorem readData_eq (p : EspSpiProxy) (buf : List Nat) (w : World) (h : buf.length = 32) :
    readData p buf w = (frameAt w.miso w.nxfer, w.after 34 (readDataEvents p._ss_pin)) := by
  simp only [readData, pulseSS_eq, transfer_eq, World.after_after]
  rw [readData_fold (fun i => w.miso (w.nxfer + 2 + i) % 256) 32 buf _ (by omega)
    (by intro i; simp [Nat.add_assoc])]
  simp only [World.after_after]
  rw [List.drop_of_length_le (by omega)]
  simp [frameAt, readDataEvents, CMD_READDATA]

theorem writeData_send_eq (data : List Nat) (len : Nat) :
    ∀ (i : Nat) (w : World),
      writeData.send data len i w
        = (i + min len (32 - i),
           w.after (min len (32 - i))
             ((List.range' i (min len (32 - i))).map
               (fun j => Event.transfer (data.getD j 0 % 256)))) := by
  induction len with
  | zero => intro i w; simp [writeData.send, World.after_zero_nil]
  | succ len ih =>
    intro i w
    by_cases hi : i < 32
    · have hm : min (len + 1) (32 - i) = min len (32 - (i + 1)) + 1 := by omega
      rw [writeData.send, if_pos hi, ih, transfer_eq, World.after_after, hm,
        List.range'_succ]
      simp only [List.map_cons, List.singleton_append]
      congr 1
      · omega
      · congr 1; omega
    · have hm : min (len + 1) (32 - i) = 0 := by omega
      rw [writeData.send, if_neg hi, hm]
      simp [World.after_zero_nil]

theorem writeData_pad_eq (n : Nat) :
    ∀ (i : Nat) (w : World), 32 - i ≤ n →
      writeData.pad n i w = w.after (32 - i) (List.replicate (32 - i) (Event.transfer 0)) := by
  induction n with
  | zero =>
    intro i w h
    have h0 : 32 - i = 0 := by omega
    simp [writeData.pad, h0, World.after_zero_nil]
  | succ n ih =>
    intro i w h
    by_cases hi : i < 32
    · have hm : 32 - i = (32 - (i + 1)) + 1 := by omega
      rw [writeData.pad, if_pos hi, ih _ _ (by omega), transfer_eq, World.after_after, hm,
        List.replicate_succ]
      simp only [List.singleton_append, Nat.zero_mod]
      congr 1
      omega
    · have h0 : 32 - i = 0 := by omega
      simp [writeData.pad, hi, h0, World.after_zero_nil]

/-- The 32 bytes that `writeData(data, len)` sends after the command and the dummy byte. -/
theorem writeData_eq (p : EspSpiProxy) (data : List Nat) (len : Nat) (w : World) :
    writeData p data len w
      = w.after 34 (writeDataEvents p._ss_pin
          ((List.range (min len 32)).map (fun j => data.getD j 0 % 256)
            ++ List.replicate (32 - min len 32) 0)) := by
  simp only [writeData, pulseSS_eq, transfer_eq, World.after_after, writeData_send_eq]
  rw [writeData_pad_eq 32 _ _ (by omega)]
  simp only [World.after_after, Nat.sub_zero, Nat.zero_add]
  congr 1
  · omega
  · simp [writeDataEvents, CMD_WRITEDATA, List.range_eq_range', Function.comp_def]

/-! ## The polling loop of `waitForSlaveRxReady` -/

theorem World.polled_zero (w : World) (pin : Nat) : w.polled pin 0 = w := by
  simp [World.polled]

theorem World.polled_succ (w : World) (pin : Nat) (j : Nat) :
    (((w.after 5 (statusEvents pin)).after 0 [Event.yield]).tick).polled pin j
      = w.polled pin (j + 1) := by
  simp only [World.polled, World.after, World.tick, List.replicate_succ, List.flatten_cons,
    List.append_assoc]
  congr 1 <;> omega

/-- One round of the loop of `waitForSlaveRxReady`. -/
theorem rx_loop_succ (p : EspSpiProxy) (endTime fuel : Nat) (w : World) :
    waitForSlaveRxReady.loop p endTime (fuel + 1) w
      = if rxField (statusAt w.miso w.nxfer) = 1 then
          Run.ret (rxField (statusAt w.miso w.nxfer)) (w.after 5 (statusEvents p._ss_pin))
        else if (w.clock w.ticks % 2 ^ 32) &&& 0x0fffffff < endTime then
          waitForSlaveRxReady.loop p endTime fuel (w.polled p._ss_pin 1)
        else Run.ret (rxField (statusAt w.miso w.nxfer)) (w.polled p._ss_pin 1) := by
  rw [waitForSlaveRxReady.loop]
  simp only [readStatus_eq, yield_eq, millis_eq, rxField, SPISLAVE_RX_READY,
    World.after_clock, World.after_ticks, ← World.polled_succ w p._ss_pin 0, World.polled_zero]

/-- While the peer is not ready and the clock is inside the window, the loop goes on. -/
theorem rx_loop_skip (p : EspSpiProxy) (endTime : Nat) (j : Nat) :
    ∀ (fuel : Nat) (w : World),
      (∀ i, i < j → rxField (statusAt w.miso (w.nxfer + 5 * i)) ≠ 1
        ∧ (w.clock (w.ticks + i) % 2 ^ 32) &&& 0x0fffffff < endTime) →
      waitForSlaveRxReady.loop p endTime (j + fuel) w
        = waitForSlaveRxReady.loop p endTime fuel (w.polled p._ss_pin j) := by
  induction j with
  | zero => intro fuel w _; simp [World.polled_zero]
  | succ j ih =>
    intro fuel w h
    have h0 := h 0 (by omega)
    simp only [Nat.mul_zero, Nat.add_zero] at h0
    rw [show j + 1 + fuel = (j + fuel) + 1 by omega, rx_loop_succ, if_neg h0.1, if_pos h0.2,
      ih]
    · congr 1
      simp only [World.polled, List.replicate_succ, List.flatten_cons, List.flatten_nil,
        List.append_nil, List.append_assoc, List.replicate_zero]
      congr 1 <;> omega
    · intro i hi
      have := h (i + 1) (by omega)
      simp only [World.polled] at *
      rw [show w.nxfer + 5 * 1 + 5 * i = w.nxfer + 5 * (i + 1) by omega,
        show w.ticks + 1 + i = w.ticks + (i + 1) by omega]
      exact this

/-- What the loop of `waitForSlaveRxReady` has done when it stops or is cut. -/
theorem rx_loop_sound (p : EspSpiProxy) (endTime : Nat) (fuel : Nat) :
    ∀ (w : World),
      (∀ v w1, waitForSlaveRxReady.loop p endTime fuel w = Run.ret v w1 →
        ∃ j, j < fuel
          ∧ (∀ i, i < j → rxField (statusAt w.miso (w.nxfer + 5 * i)) ≠ 1)
          ∧ v = rxField (statusAt w.miso (w.nxfer + 5 * j))
          ∧ ((v = 1 ∧ w1 = (w.polled p._ss_pin j).after 5 (statusEvents p._ss_pin))
              ∨ (v ≠ 1 ∧ w1 = w.polled p._ss_pin (j + 1))))
      ∧ (∀ w1, waitForSlaveRxReady.loop p endTime fuel w = Run.spin w1 →
          (∀ i, i < fuel → rxField (statusAt w.miso (w.nxfer + 5 * i)) ≠ 1)
          ∧ w1 = w.polled p._ss_pin fuel) := by
  induction fuel with
  | zero =>
    intro w
    refine ⟨?_, ?_⟩
    · intro v w1 h; simp [waitForSlaveRxReady.loop] at h
    · intro w1 h
      simp only [waitForSlaveRxReady.loop, Run.spin.injEq] at h
      exact ⟨by intro i hi; omega, by rw [← h, World.polled_zero]⟩
  | succ fuel ih =>
    intro w
    rw [rx_loop_succ]
    by_cases hr : rxField (statusAt w.miso w.nxfer) = 1
    · rw [if_pos hr]
      refine ⟨?_, ?_⟩
      · intro v w1 h
        simp only [Run.ret.injEq] at h
        refine ⟨0, by omega, by intro i hi; omega, by simpa using h.1.symm, Or.inl ⟨?_, ?_⟩⟩
        · rw [← h.1]; exact hr
        · rw [World.polled_zero]; exact h.2.symm
      · intro w1 h; simp at h
    · rw [if_neg hr]
      have shift : ∀ i, (w.polled p._ss_pin 1).nxfer + 5 * i = w.nxfer + 5 * (i + 1) := by
        intro i; simp only [World.polled]; omega
      have pol : ∀ j, (w.polled p._ss_pin 1).polled p._ss_pin j = w.polled p._ss_pin (j + 1) := by
        intro j
        simp only [World.polled, List.replicate_succ, List.flatten_cons, List.flatten_nil,
          List.append_nil, List.append_assoc, List.replicate_zero]
        congr 1 <;> omega
      by_cases hc : (w.clock w.ticks % 2 ^ 32) &&& 0x0fffffff < endTime
      · rw [if_pos hc]
        obtain ⟨ih1, ih2⟩ := ih (w.polled p._ss_pin 1)
        refine ⟨?_, ?_⟩
        · intro v w1 h
          obtain ⟨j, hj, hn, hv, hw⟩ := ih1 v w1 h
          refine ⟨j + 1, by omega, ?_, ?_, ?_⟩
          · intro i hi
            cases i with
            | zero => simpa using hr
            | succ i =>
              have := hn i (by omega)
              rwa [shift] at this
          · rw [hv, shift]; rfl
          · rw [pol, pol] at hw; exact hw
        · intro w1 h
          obtain ⟨hn, hw⟩ := ih2 w1 h
          refine ⟨?_, by rw [hw, pol]⟩
          intro i hi
          cases i with
          | zero => simpa using hr
          | succ i =>
            have := hn i (by omega)
            rwa [shift] at this
      · rw [if_neg hc]
        refine ⟨?_, ?_⟩
        · intro v w1 h
          simp only [Run.ret.injEq] at h
          refine ⟨0, by omega, by intro i hi; omega, by simpa using h.1.symm, Or.inr ⟨?_, ?_⟩⟩
          · rw [← h.1]; exact hr
          · exact h.2.symm
        · intro w1 h; simp at h

theorem waitForSlaveRxReady_eq (fuel : Nat) (p : EspSpiProxy) (w : World) :
    waitForSlaveRxReady fuel p w
      = waitForSlaveRxReady.loop p
          (((w.clock w.ticks % 2 ^ 32) &&& 0x0fffffff) + 3000) fuel w.tick := by
  have hlt : ((w.clock w.ticks % 2 ^ 32) &&& 0x0fffffff) + 3000 < 2 ^ 32 := by
    have : (w.clock w.ticks % 2 ^ 32) &&& 0x0fffffff ≤ 0x0fffffff := Nat.and_le_right
    omega
  simp only [waitForSlaveRxReady, millis_eq, SLAVE_RX_READY_TIMEOUT, Nat.mod_eq_of_lt hlt]

/-! ## `flush` -/

theorem take_eq_map_range (l : List Nat) (n : Nat) (h : n ≤ l.length) (hb : ∀ x ∈ l, x < 256) :
    (List.range n).map (fun j => l.getD j 0 % 256) = l.take n := by
  apply List.ext_getElem
  · simp [h]
  · intro i h1 h2
    simp only [List.length_map, List.length_range] at h1
    have hi : i < l.length := by omega
    simp only [List.getElem_map, List.getElem_range, List.getElem_take,
      List.getD_eq_getElem?_getD, List.getElem?_eq_getElem hi, Option.getD_some]
    exact Nat.mod_eq_of_lt (hb _ (List.getElem_mem hi))

theorem frame_of_buffer (buf : List Nat) (x n : Nat) (hlen : buf.length = 32)
    (hb : ∀ y ∈ buf, y < 256) (hx : x < 256) (hn : n ≤ 31) :
    (List.range (min (n + 1) 32)).map (fun j => (buf.set 0 x).getD j 0 % 256)
        ++ List.replicate (32 - min (n + 1) 32) 0
      = frameOf x ((buf.drop 1).take n) := by
  have hb2 : ∀ y ∈ buf.set 0 x, y < 256 := by
    intro y hy
    rcases List.mem_or_eq_of_mem_set hy with h | h
    · exact hb y h
    · rw [h]; exact hx
  rw [take_eq_map_range _ _ (by rw [List.length_set, hlen]; omega) hb2]
  match buf, hlen with
  | b :: rest, hlen =>
    have hm : min (n + 1) 32 = n + 1 := by omega
    simp only [List.length_cons] at hlen
    simp only [hm, List.set_cons_zero, List.take_succ_cons, List.drop_succ_cons, List.drop_zero,
      frameOf, List.length_take, List.cons_append]
    rw [Nat.min_eq_left (by omega : n ≤ rest.length),
      show 32 - (n + 1) = 31 - n by omega]

/-- What `flush` does, in terms of the outcome of the wait for the receiver. -/
theorem flush_eq (fuel indicator : Nat) (p : EspSpiProxy) (w : World) (hwf : p.WF)
    (h1 : p.buflen ≠ 0) (h31 : p.buflen ≤ 31) :
    flush fuel indicator p w
      = match waitForSlaveRxReady fuel p w with
        | Run.spin w1 => Run.spin w1
        | Run.ret st w1 =>
          Run.ret { p with buffer := p.buffer.set 0 (indicator % 256), buflen := 0 }
            (if st = 1 then
              w1.after 34 (writeDataEvents p._ss_pin (frameOf (indicator % 256) p.pending))
            else w1) := by
  have hw : ∀ q : EspSpiProxy, q._ss_pin = p._ss_pin →
      waitForSlaveRxReady fuel q w = waitForSlaveRxReady fuel p w := by
    intro q hq
    simp only [waitForSlaveRxReady]
    generalize ((millis w).1 &&& 0x0fffffff) + SLAVE_RX_READY_TIMEOUT = e
    generalize (millis w).2 = w0
    induction fuel generalizing w0 with
    | zero => rfl
    | succ fuel ih => simp only [waitForSlaveRxReady.loop, readStatus_eq, hq, ih]
  simp only [flush, if_neg h1]
  rw [hw { p with buffer := p.buffer.set 0 (indicator % 256) } rfl]
  generalize waitForSlaveRxReady fuel p w = r
  cases r with
  | spin w1 => rfl
  | ret st w1 =>
    simp only [SPISLAVE_RX_READY, writeData_eq,
      frame_of_buffer p.buffer _ p.buflen hwf.1 hwf.2.1 (Nat.mod_lt _ (by norm_num)) h31,
      EspSpiProxy.pending]

/-! ## Writing a message to a peer that is always ready -/

theorem World.sent_nil (w : World) (pin : Nat) : w.sent pin [] = w := by
  simp [World.sent]

theorem World.sent_sent (w : World) (pin : Nat) (fs gs : List (List Nat)) :
    (w.sent pin fs).sent pin gs = w.sent pin (fs ++ gs) := by
  simp only [World.sent, List.length_append, List.flatMap_append, List.append_assoc]
  congr 1 <;> omega

theorem World.sent_one (w : World) (pin : Nat) (f : List Nat) :
    (w.tick.after 5 (statusEvents pin)).after 34 (writeDataEvents pin f) = w.sent pin [f] := by
  simp [World.sent, World.after, World.tick, List.flatMap]

theorem wait_ready (fuel : Nat) (p : EspSpiProxy) (w : World)
    (h : rxField (statusAt w.miso w.nxfer) = 1) :
    waitForSlaveRxReady (fuel + 1) p w = Run.ret 1 (w.tick.after 5 (statusEvents p._ss_pin)) := by
  rw [waitForSlaveRxReady_eq, rx_loop_succ, if_pos (by simpa using h)]
  simp only [World.tick_miso, World.tick_nxfer, h]

theorem flush_ready (fuel indicator : Nat) (p : EspSpiProxy) (w : World) (hwf : p.WF)
    (h1 : p.buflen ≠ 0) (h31 : p.buflen ≤ 31) (hr : rxField (statusAt w.miso w.nxfer) = 1) :
    flush (fuel + 1) indicator p w
      = Run.ret { p with buffer := p.buffer.set 0 (indicator % 256), buflen := 0 }
          (w.sent p._ss_pin [frameOf (indicator % 256) p.pending]) := by
  rw [flush_eq _ _ _ _ hwf h1 h31, wait_ready _ _ _ hr]
  simp only [if_true, World.sent_one]

theorem pending_length (p : EspSpiProxy) (hwf : p.WF) (h31 : p.buflen ≤ 31) :
    p.pending.length = p.buflen := by
  simp only [EspSpiProxy.pending, List.length_take, List.length_drop, hwf.1]
  omega

theorem store_spec (b : Nat) (p : EspSpiProxy) (hwf : p.WF) (h : p.buflen < 31) (hb : b < 256) :
    (writeByte.store b p).WF ∧ (writeByte.store b p)._ss_pin = p._ss_pin
      ∧ (writeByte.store b p).buflen = p.buflen + 1
      ∧ (writeByte.store b p).bufpos = p.bufpos
      ∧ (writeByte.store b p).pending = p.pending ++ [b] := by
  obtain ⟨hlen, hbytes, hpin, hbl, hbp⟩ := hwf
  have hm : (p.buflen + 1) % 256 = p.buflen + 1 := Nat.mod_eq_of_lt (by omega)
  have hbm : b % 256 = b := Nat.mod_eq_of_lt hb
  refine ⟨⟨?_, ?_, hpin, ?_, hbp⟩, rfl, ?_, rfl, ?_⟩
  · simp [writeByte.store, hlen]
  · intro x hx
    simp only [writeByte.store] at hx
    rcases List.mem_or_eq_of_mem_set hx with h1 | h1
    · exact hbytes x h1
    · rw [h1]; exact Nat.mod_lt _ (by norm_num)
  · simp only [writeByte.store, hm]; omega
  · simp only [writeByte.store, hm]
  · simp only [EspSpiProxy.pending, writeByte.store, hm, hbm]
    apply List.ext_getElem
    · simp only [List.length_take, List.length_drop, List.length_set, List.length_append,
        List.length_singleton, hlen]
      omega
    · intro i h1 h2
      simp only [List.length_take, List.length_drop, List.length_set, hlen] at h1
      simp only [List.getElem_take, List.getElem_drop, List.getElem_set]
      by_cases hi : i < p.buflen
      · rw [List.getElem_append_left (by
          simp only [List.length_take, List.length_drop, hlen]; omega)]
        simp only [List.getElem_take, List.getElem_drop]
        rw [if_neg (by omega)]
      · have hi2 : i = p.buflen := by omega
        subst hi2
        rw [List.getElem_append_right (by
          simp only [List.length_take, List.length_drop, hlen]; omega)]
        simp only [List.getElem_singleton]
        rw [if_pos (by omega)]

theorem writeByte_room (fuel b : Nat) (p : EspSpiProxy) (w : World) (h : p.buflen < 31) :
    writeByte fuel b p w = Run.ret (writeByte.store b { p with bufpos := 0 }) w := by
  simp only [writeByte, if_neg (by omega : ¬ 31 ≤ p.buflen)]

theorem writeByte_full (fuel b : Nat) (p : EspSpiProxy) (w : World) (hwf : p.WF)
    (h : p.buflen = 31) (hr : rxField (statusAt w.miso w.nxfer) = 1) :
    writeByte (fuel + 1) b p w
      = Run.ret (writeByte.store b
          { p with bufpos := 0, buffer := p.buffer.set 0 MESSAGE_CONTINUES, buflen := 0 })
          (w.sent p._ss_pin [frameOf MESSAGE_CONTINUES p.pending]) := by
  have hwf0 : ({ p with bufpos := 0 } : EspSpiProxy).WF :=
    ⟨hwf.1, hwf.2.1, hwf.2.2.1, hwf.2.2.2.1, by norm_num⟩
  simp only [writeByte, if_pos (by omega : 31 ≤ p.buflen)]
  rw [flush_ready fuel MESSAGE_CONTINUES { p with bufpos := 0 } w hwf0
    (by simp only; omega) (by simp only; omega) hr]
  rfl

theorem chunk_shift (l r : List Nat) (k : Nat) (h : l.length = 31) :
    chunk (l ++ r) (k + 1) = chunk r k := by
  simp only [chunk]
  rw [show 31 * (k + 1) = l.length + 31 * k by omega, ← List.drop_drop,
    List.drop_left]

theorem chunk_zero (l r : List Nat) (h : l.length = 31) : chunk (l ++ r) 0 = l := by
  simp only [chunk, Nat.mul_zero, List.drop_zero]
  rw [← h, List.take_left]

/-- The state and the world after `writeByte` has been called on each byte of
`bs`, for a peer that is always ready: with `total` the bytes that were waiting
followed by `bs`, all runs of 31 bytes of `total` but the last have been sent,
tagged CONTINUES, and the last run is waiting. -/
theorem writeBytes_eq (fuel : Nat) (bs : List Nat) :
    ∀ (p : EspSpiProxy) (w : World), p.WF → p.buflen ≤ 31 → AlwaysRxReady w.miso →
      (∀ b ∈ bs, b < 256) →
      ∃ p1, writeBytes (fuel + 1) bs p w
          = Run.ret p1 (w.sent p._ss_pin
              ((List.range (((p.pending ++ bs).length - 1) / 31)).map
                (fun k => frameOf MESSAGE_CONTINUES (chunk (p.pending ++ bs) k))))
        ∧ p1.WF ∧ p1._ss_pin = p._ss_pin
        ∧ p1.buflen = (p.pending ++ bs).length - 31 * (((p.pending ++ bs).length - 1) / 31)
        ∧ p1.pending = (p.pending ++ bs).drop (31 * (((p.pending ++ bs).length - 1) / 31)) := by
  induction bs with
  | nil =>
    intro p w hwf h31 _ _
    have hl := pending_length p hwf h31
    have hm : (p.pending.length - 1) / 31 = 0 := by
      rw [hl]; exact Nat.div_eq_of_lt (by omega)
    refine ⟨p, ?_, hwf, rfl, ?_, ?_⟩
    · simp only [writeBytes, List.append_nil, hm, List.range_zero, List.map_nil, World.sent_nil]
    · simp only [List.append_nil, hm, hl]; omega
    · simp only [List.append_nil, hm, Nat.mul_zero, List.drop_zero]
  | cons b bs ih =>
    intro p w hwf h31 hr hb
    have hl := pending_length p hwf h31
    have hb0 : b < 256 := hb b (List.mem_cons_self _ _)
    have hbs : ∀ x ∈ bs, x < 256 := fun x hx => hb x (List.mem_cons_of_mem _ hx)
    by_cases hfull : p.buflen < 31
    · have hwf0 : ({ p with bufpos := 0 } : EspSpiProxy).WF :=
        ⟨hwf.1, hwf.2.1, hwf.2.2.1, hwf.2.2.2.1, by norm_num⟩
      obtain ⟨s1, s2, s3, _, s5⟩ := store_spec b { p with bufpos := 0 } hwf0 hfull hb0
      obtain ⟨p1, e1, e2, e3, e4, e5⟩ :=
        ih (writeByte.store b { p with bufpos := 0 }) w s1 (by rw [s3]; simp only; omega) hr hbs
      have hp : (writeByte.store b { p with bufpos := 0 }).pending ++ bs
          = p.pending ++ b :: bs := by
        rw [s5]; simp [EspSpiProxy.pending]
      rw [hp, s2] at e1
      rw [hp] at e4 e5
      refine ⟨p1, ?_, e2, by rw [e3, s2], e4, e5⟩
      simp only [writeBytes, writeByte_room _ _ _ _ hfull]
      exact e1
    · have h31e : p.buflen = 31 := by omega
      have hpl : p.pending.length = 31 := by rw [hl, h31e]
      have hwf1 : ({ p with bufpos := 0, buffer := p.buffer.set 0 MESSAGE_CONTINUES, buflen := 0 } : EspSpiProxy).WF := by
        refine ⟨by simp [hwf.1], ?_, hwf.2.2.1, by norm_num, by norm_num⟩
        intro x hx
        rcases List.mem_or_eq_of_mem_set hx with h1 | h1
        · exact hwf.2.1 x h1
        · rw [h1]; norm_num
      obtain ⟨s1, s2, s3, _, s5⟩ := store_spec b _ hwf1 (by norm_num) hb0
      have hr1 : AlwaysRxReady
          (w.sent p._ss_pin [frameOf MESSAGE_CONTINUES p.pending]).miso := hr
      obtain ⟨p1, e1, e2, e3, e4, e5⟩ := ih _ _ s1 (by rw [s3]; norm_num) hr1 hbs
      have hp : (writeByte.store b { p with bufpos := 0, buffer := p.buffer.set 0 MESSAGE_CONTINUES, buflen := 0 }).pending ++ bs
          = b :: bs := by
        rw [s5]; simp [EspSpiProxy.pending]
      rw [hp, s2, World.sent_sent] at e1
      rw [hp] at e4 e5
      have hlen1 : (p.pending ++ b :: bs).length = 31 + (bs.length + 1) := by
        simp [hpl]
      have hm : ((p.pending ++ b :: bs).length - 1) / 31 = ((b :: bs).length - 1) / 31 + 1 := by
        rw [hlen1]; simp only [List.length_cons]; omega
      refine ⟨p1, ?_, e2, by rw [e3, s2], ?_, ?_⟩
      · simp only [writeBytes, writeByte_full _ _ _ _ hwf h31e (hr _)]
        rw [e1, hm, List.range_succ_eq_map, List.map_cons, List.map_map, chunk_zero _ _ hpl]
        simp only [List.singleton_append, Function.comp_def, chunk_shift _ _ _ hpl]
      · rw [e4, hm, hlen1]; simp only [List.length_cons]; omega
      · rw [e5, hm, show 31 * (((b :: bs).length - 1) / 31 + 1)
            = p.pending.length + 31 * (((b :: bs).length - 1) / 31) by omega,
          ← List.drop_drop, List.drop_left]

theorem flatMap_chunk (bs : List Nat) (n : Nat) :
    (List.range n).flatMap (chunk bs) = bs.take (31 * n) := by
  induction n with
  | zero => simp
  | succ n ih =>
    rw [List.range_succ, List.flatMap_append, ih]
    simp only [List.flatMap_cons, List.flatMap_nil, List.append_nil, chunk]
    rw [show 31 * (n + 1) = 31 * n + 31 by omega, List.take_add]

/-- Writing a non-empty message to a peer that is always ready. -/
theorem writeMessage_eq (fuel : Nat) (bs : List Nat) (p : EspSpiProxy) (w : World)
    (hwf : p.WF) (h0 : p.buflen = 0) (hr : AlwaysRxReady w.miso) (hb : ∀ b ∈ bs, b < 256)
    (hne : bs ≠ []) :
    ∃ p1, writeMessage (fuel + 1) bs p w = Run.ret p1 (w.sent p._ss_pin (messageFrames bs))
      ∧ p1.buflen = 0 := by
  obtain ⟨p1, e1, e2, e3, e4, e5⟩ := writeBytes_eq fuel bs p w hwf (by omega) hr hb
  have hp : p.pending = [] := by simp [EspSpiProxy.pending, h0]
  rw [hp] at e1 e4 e5
  simp only [List.nil_append] at e1 e4 e5
  have hlen : 0 < bs.length := List.length_pos.mpr hne
  have hn : nframes bs.length = (bs.length - 1) / 31 + 1 := by
    simp only [nframes]; omega
  have hlast : chunk bs ((bs.length - 1) / 31) = bs.drop (31 * ((bs.length - 1) / 31)) := by
    simp only [chunk]
    rw [List.take_of_length_le]
    simp only [List.length_drop]; omega
  refine ⟨{ p1 with buffer := p1.buffer.set 0 (MESSAGE_FINISHED % 256), buflen := 0 }, ?_, rfl⟩
  obtain ⟨w1, hw1⟩ : ∃ w1, w1 = w.sent p._ss_pin
      (List.map (fun k => frameOf MESSAGE_CONTINUES (chunk bs k))
        (List.range ((bs.length - 1) / 31))) := ⟨_, rfl⟩
  rw [← hw1] at e1
  have hr1 : rxField (statusAt w1.miso w1.nxfer) = 1 := by rw [hw1]; exact hr _
  simp only [writeMessage, e1]
  rw [flush_ready fuel MESSAGE_FINISHED p1 w1 e2 (by rw [e4]; omega) (by rw [e4]; omega) hr1,
    hw1, e3, World.sent_sent, e5]
  congr 2
  simp only [messageFrames, hn, List.range_succ, List.map_append, List.map_cons, List.map_nil,
    if_true, hlast]
  congr 1
  apply List.map_congr_left
  intro k hk
  rw [List.mem_range] at hk
  rw [if_neg (by omega)]

/-! ## Reading a message -/

theorem frameAt_length (miso : Nat → Nat) (n : Nat) : (frameAt miso n).length = 32 := by
  simp [frameAt]

theorem frameAt_lt (miso : Nat → Nat) (n : Nat) : ∀ x ∈ frameAt miso n, x < 256 := by
  intro x hx
  simp only [frameAt, List.mem_map] at hx
  obtain ⟨i, _, rfl⟩ := hx
  exact Nat.mod_lt _ (by norm_num)

theorem wait_tx_ready (fuel : Nat) (p : EspSpiProxy) (w : World)
    (h : txField (statusAt w.miso w.nxfer) = 1) :
    waitForSlaveTxReady (fuel + 1) p w = Run.ret 1 (w.tick.after 5 (statusEvents p._ss_pin)) := by
  simp only [txField] at h
  simp only [waitForSlaveTxReady, waitForSlaveTxReady.loop, millis_eq, readStatus_eq,
    World.tick_miso, World.tick_nxfer, h, SPISLAVE_TX_READY, if_true]

theorem poll_valid (endTime fuel : Nat) (p : EspSpiProxy) (w : World) (hlen : p.buffer.length = 32)
    (hv : (frameAt w.miso w.nxfer).getD 0 0 = MESSAGE_FINISHED
      ∨ (frameAt w.miso w.nxfer).getD 0 0 = MESSAGE_CONTINUES) :
    readByte.poll endTime (fuel + 1) p w
      = Run.ret { p with buffer := frameAt w.miso w.nxfer }
          (w.after 34 (readDataEvents p._ss_pin)) := by
  have hn : ¬ ((frameAt w.miso w.nxfer).getD 0 0 ≠ MESSAGE_FINISHED
      ∧ (frameAt w.miso w.nxfer).getD 0 0 ≠ MESSAGE_CONTINUES) := by
    rcases hv with h | h
    · exact fun hh => hh.1 h
    · exact fun hh => hh.2 h
  rw [readByte.poll, readData_eq p p.buffer w hlen]
  exact if_neg hn

theorem fetch_valid (fuel : Nat) (p : EspSpiProxy) (w : World) (hlen : p.buffer.length = 32)
    (hpos : p.bufpos = 0)
    (hv : (frameAt w.miso w.nxfer).getD 0 0 = MESSAGE_FINISHED
      ∨ (frameAt w.miso w.nxfer).getD 0 0 = MESSAGE_CONTINUES) :
    readByte.fetch (fuel + 1) p w
      = Run.ret ((frameAt w.miso w.nxfer).getD 1 0,
            { p with buffer := frameAt w.miso w.nxfer, bufpos := 2 })
          (w.tick.after 34 (readDataEvents p._ss_pin)) := by
  have hn : ¬ ((frameAt w.miso w.nxfer).getD 0 0 ≠ MESSAGE_FINISHED
      ∧ (frameAt w.miso w.nxfer).getD 0 0 ≠ MESSAGE_CONTINUES) := by
    rcases hv with h | h
    · exact fun hh => hh.1 h
    · exact fun hh => hh.2 h
  rw [readByte.fetch, if_pos hpos]
  simp only [millis_eq]
  rw [poll_valid _ fuel p w.tick hlen hv]
  simp only [World.tick_miso, World.tick_nxfer]
  rw [if_neg hn]
  rfl

theorem readBytes_succ (fuel n : Nat) (p : EspSpiProxy) (w : World) :
    readBytes fuel (n + 1) p w
      = match readByte fuel p w with
        | Run.spin w1 => Run.spin w1
        | Run.ret r w1 =>
          match readBytes fuel n r.2 w1 with
          | Run.spin w2 => Run.spin w2
          | Run.ret rs w2 => Run.ret (r.1 :: rs.1, rs.2) w2 := rfl

/-- Reading inside a fetched frame makes no transfer. -/
theorem readBytes_inside (fuel : Nat) (n : Nat) :
    ∀ (p : EspSpiProxy) (w : World), p.buffer.length = 32 → p.buflen = 0 → 1 ≤ p.bufpos →
      p.bufpos + n ≤ 32 →
      readBytes fuel n p w
        = Run.ret ((p.buffer.drop p.bufpos).take n, { p with bufpos := p.bufpos + n }) w := by
  induction n with
  | zero => intro p w _ _ _ _; rfl
  | succ n ih =>
    intro p w hlen h0 h1 h32
    have hm : (p.bufpos + 1) % 256 = p.bufpos + 1 := Nat.mod_eq_of_lt (by omega)
    have hr : readByte fuel p w
        = Run.ret (p.buffer.getD p.bufpos 0, { p with bufpos := p.bufpos + 1 }) w := by
      simp only [readByte, if_neg (by omega : ¬ 32 ≤ p.bufpos), readByte.fetch,
        if_neg (by omega : ¬ p.bufpos = 0), readByte.next, hm, h0]
    rw [readBytes_succ, hr]
    simp only
    rw [ih { p with bufpos := p.bufpos + 1 } w hlen h0 (by simp only; omega)
      (by simp only; omega)]
    simp only [Run.ret.injEq, Prod.mk.injEq, and_true]
    refine ⟨?_, by simp only [Nat.add_assoc, Nat.add_comm 1 n]⟩
    rw [List.drop_eq_getElem_cons (by omega : p.bufpos < p.buffer.length), List.take_succ_cons,
      List.getD_eq_getElem?_getD, List.getElem?_eq_getElem (by omega), Option.getD_some]

theorem readBytes_add (fuel : Nat) (a b : Nat) :
    ∀ (p : EspSpiProxy) (w : World),
      readBytes fuel (a + b) p w
        = match readBytes fuel a p w with
          | Run.spin w1 => Run.spin w1
          | Run.ret xs w1 =>
            match readBytes fuel b xs.2 w1 with
            | Run.spin w2 => Run.spin w2
            | Run.ret ys w2 => Run.ret (xs.1 ++ ys.1, ys.2) w2 := by
  induction a with
  | zero =>
    intro p w
    simp only [Nat.zero_add, readBytes, List.nil_append]
    cases readBytes fuel b p w <;> rfl
  | succ a ih =>
    intro p w
    rw [show a + 1 + b = (a + b) + 1 by omega]
    simp only [readBytes]
    cases readByte fuel p w with
    | spin w1 => rfl
    | ret r w1 =>
      simp only [ih]
      cases readBytes fuel a r.2 w1 with
      | spin w2 => rfl
      | ret xs w2 =>
        simp only
        cases readBytes fuel b xs.2 w2 <;> rfl

/-- The 31 reads that start with the fetch of a first frame. -/
theorem frame31_start (fuel : Nat) (p : EspSpiProxy) (w : World) (hlen : p.buffer.length = 32)
    (hpos : p.bufpos = 0)
    (hv : (frameAt w.miso w.nxfer).getD 0 0 = MESSAGE_FINISHED
      ∨ (frameAt w.miso w.nxfer).getD 0 0 = MESSAGE_CONTINUES) :
    readBytes (fuel + 1) 31 p w
      = Run.ret ((frameAt w.miso w.nxfer).drop 1,
            { p with buflen := 0, buffer := frameAt w.miso w.nxfer, bufpos := 32 })
          (w.tick.after 34 (readDataEvents p._ss_pin)) := by
  have hr : readByte (fuel + 1) p w
      = Run.ret ((frameAt w.miso w.nxfer).getD 1 0,
            { p with buflen := 0, buffer := frameAt w.miso w.nxfer, bufpos := 2 })
          (w.tick.after 34 (readDataEvents p._ss_pin)) := by
    simp only [readByte, hpos, if_neg (by omega : ¬ 32 ≤ 0)]
    exact fetch_valid fuel { p with buflen := 0, bufpos := 0 } w hlen rfl hv
  rw [show (31 : Nat) = 30 + 1 by rfl, readBytes_succ, hr]
  simp only
  rw [readBytes_inside _ 30 _ _ (frameAt_length _ _) rfl (by simp only; omega)
    (by simp only; omega)]
  simp only [Run.ret.injEq, Prod.mk.injEq, and_true]
  have h32 := frameAt_length w.miso w.nxfer
  rw [List.drop_eq_getElem_cons (by omega : 1 < (frameAt w.miso w.nxfer).length),
    List.getD_eq_getElem?_getD, List.getElem?_eq_getElem (by omega), Option.getD_some,
    List.take_of_length_le (by simp only [List.length_drop]; omega)]

/-- The 31 reads that start when a frame tagged CONTINUES has been used up. -/
theorem frame31_next (fuel : Nat) (p : EspSpiProxy) (w : World) (hlen : p.buffer.length = 32)
    (hpos : p.bufpos = 32) (hc : p.buffer.getD 0 0 = MESSAGE_CONTINUES)
    (ht : txField (statusAt w.miso w.nxfer) = 1)
    (hv : (frameAt w.miso (w.nxfer + 5)).getD 0 0 = MESSAGE_FINISHED
      ∨ (frameAt w.miso (w.nxfer + 5)).getD 0 0 = MESSAGE_CONTINUES) :
    readBytes (fuel + 1) 31 p w
      = Run.ret ((frameAt w.miso (w.nxfer + 5)).drop 1,
            { p with buflen := 0, buffer := frameAt w.miso (w.nxfer + 5), bufpos := 32 })
          (w.fetched p._ss_pin 1) := by
  have hr : readByte (fuel + 1) p w
      = Run.ret ((frameAt w.miso (w.nxfer + 5)).getD 1 0,
            { p with buflen := 0, buffer := frameAt w.miso (w.nxfer + 5), bufpos := 2 })
          (w.fetched p._ss_pin 1) := by
    simp only [readByte, hpos, if_pos (by omega : 32 ≤ 32), hc, ne_eq, not_true, if_false]
    rw [wait_tx_ready fuel _ w ht]
    simp only
    rw [fetch_valid fuel { p with buflen := 0, bufpos := 0 }
      (w.tick.after 5 (statusEvents p._ss_pin)) hlen rfl hv]
    simp only [World.after_miso, World.tick_miso, World.after_nxfer, World.tick_nxfer,
      Run.ret.injEq, true_and]
    simp [World.fetched, World.after, World.tick]
  rw [show (31 : Nat) = 30 + 1 by rfl, readBytes_succ, hr]
  simp only
  rw [readBytes_inside _ 30 _ _ (frameAt_length _ _) rfl (by simp only; omega)
    (by simp only; omega)]
  simp only [Run.ret.injEq, Prod.mk.injEq, and_true]
  have h32 := frameAt_length w.miso (w.nxfer + 5)
  rw [List.drop_eq_getElem_cons (by omega : 1 < (frameAt w.miso (w.nxfer + 5)).length),
    List.getD_eq_getElem?_getD, List.getElem?_eq_getElem (by omega), Option.getD_some,
    List.take_of_length_le (by simp only [List.length_drop]; omega)]

theorem World.fetched_zero (w : World) (pin : Nat) : w.fetched pin 0 = w := by
  simp [World.fetched]

theorem World.fetched_fetched (w : World) (pin : Nat) (a b : Nat) :
    (w.fetched pin a).fetched pin b = w.fetched pin (a + b) := by
  simp only [World.fetched, List.replicate_add, List.flatten_append, List.append_assoc]
  congr 1 <;> omega

/-- The reads of `k` further frames of a message, the last of which is
tagged FINISHED, from a peer that is transmit-ready when asked. -/
theorem frames_next (fuel : Nat) (k : Nat) :
    ∀ (p : EspSpiProxy) (w : World), p.buffer.length = 32 → p.bufpos = 32 → p.buflen = 0 →
      (0 < k → p.buffer.getD 0 0 = MESSAGE_CONTINUES) →
      (∀ j, j < k → txField (statusAt w.miso (w.nxfer + 39 * j)) = 1) →
      (∀ j, j < k → (frameAt w.miso (w.nxfer + 39 * j + 5)).getD 0 0
          = if j + 1 = k then MESSAGE_FINISHED else MESSAGE_CONTINUES) →
      ∃ p1, readBytes (fuel + 1) (31 * k) p w
          = Run.ret ((List.range k).flatMap
                (fun j => (frameAt w.miso (w.nxfer + 39 * j + 5)).drop 1), p1)
              (w.fetched p._ss_pin k)
        ∧ p1.bufpos = 32 ∧ p1._ss_pin = p._ss_pin ∧ p1.buflen = 0 ∧ p1.buffer.length = 32 := by
  induction k with
  | zero =>
    intro p w hlen hpos hbl _ _ _
    exact ⟨p, by simp [readBytes, World.fetched_zero], hpos, rfl, hbl, hlen⟩
  | succ k ih =>
    intro p w hlen hpos hbl hc ht hf
    have ht0 := ht 0 (by omega)
    have hf0 := hf 0 (by omega)
    simp only [Nat.mul_zero, Nat.add_zero] at ht0 hf0
    have hv0 : (frameAt w.miso (w.nxfer + 5)).getD 0 0 = MESSAGE_FINISHED
        ∨ (frameAt w.miso (w.nxfer + 5)).getD 0 0 = MESSAGE_CONTINUES := by
      rw [hf0]; split
      · exact Or.inl rfl
      · exact Or.inr rfl
    obtain ⟨p1, e1, e2, e3, e4, e5⟩ :=
      ih { p with buflen := 0, buffer := frameAt w.miso (w.nxfer + 5), bufpos := 32 }
        (w.fetched p._ss_pin 1) (frameAt_length _ _) rfl rfl
        (by
          intro hk
          show (frameAt w.miso (w.nxfer + 5)).getD 0 0 = MESSAGE_CONTINUES
          rw [hf0, if_neg (by omega)])
        (by
          intro j hj
          have := ht (j + 1) (by omega)
          simp only [World.fetched]
          rw [show w.nxfer + 39 * 1 + 39 * j = w.nxfer + 39 * (j + 1) by omega]
          exact this)
        (by
          intro j hj
          have := hf (j + 1) (by omega)
          simp only [World.fetched]
          rw [show w.nxfer + 39 * 1 + 39 * j + 5 = w.nxfer + 39 * (j + 1) + 5 by omega, this]
          by_cases hjk : j + 1 = k
          · rw [if_pos hjk, if_pos (by omega)]
          · rw [if_neg hjk, if_neg (by omega)])
    refine ⟨p1, ?_, e2, e3, e4, e5⟩
    rw [show 31 * (k + 1) = 31 + 31 * k by omega, readBytes_add,
      frame31_next fuel p w hlen hpos (hc (by omega)) ht0 hv0]
    simp only
    rw [e1, World.fetched_fetched, Nat.add_comm 1 k]
    simp only [Run.ret.injEq, Prod.mk.injEq, and_true]
    rw [List.range_succ_eq_map, List.flatMap_cons, Nat.mul_zero, Nat.add_zero]
    congr 1
    simp only [List.flatMap, List.map_map, Function.comp_def, World.fetched]
    congr 2
    funext j
    rw [show w.nxfer + 39 * 1 + 39 * j + 5 = w.nxfer + 39 * (j + 1) + 5 by omega]

/-! ## The frame-poll loop of `readByte` -/

/-- The loop of `readByte` makes READDATA transactions only and does not
touch the transmit cursor. -/
theorem poll_trace (endTime : Nat) (fuel : Nat) :
    ∀ (p : EspSpiProxy) (w : World), p.buffer.length = 32 →
      ∃ j, (readByte.poll endTime fuel p w).world.trace
            = w.trace ++ (List.replicate j (readDataEvents p._ss_pin)).flatten
        ∧ (readByte.poll endTime fuel p w).world.nxfer = w.nxfer + 34 * j
        ∧ ∀ p1 w1, readByte.poll endTime fuel p w = Run.ret p1 w1 →
            p1.buflen = p.buflen ∧ p1.buffer.length = 32 ∧ p1._ss_pin = p._ss_pin := by
  induction fuel with
  | zero =>
    intro p w _
    exact ⟨0, by simp [readByte.poll, Run.world], by simp [readByte.poll, Run.world],
      by intro p1 w1 h; simp [readByte.poll] at h⟩
  | succ fuel ih =>
    intro p w hlen
    rw [readByte.poll, readData_eq p p.buffer w hlen]
    by_cases hv : (frameAt w.miso w.nxfer).getD 0 0 ≠ MESSAGE_FINISHED
        ∧ (frameAt w.miso w.nxfer).getD 0 0 ≠ MESSAGE_CONTINUES
    · rw [show (if ({ p with buffer := (frameAt w.miso w.nxfer,
            w.after 34 (readDataEvents p._ss_pin)).1 } : EspSpiProxy).buffer.getD 0 0
              ≠ MESSAGE_FINISHED
            ∧ ({ p with buffer := (frameAt w.miso w.nxfer,
              w.after 34 (readDataEvents p._ss_pin)).1 } : EspSpiProxy).buffer.getD 0 0
              ≠ MESSAGE_CONTINUES then _ else _) = _ from if_pos hv]
      simp only [millis_eq]
      split
      · obtain ⟨j, h1, h2, h3⟩ :=
          ih { p with buffer := frameAt w.miso w.nxfer }
            (w.after 34 (readDataEvents p._ss_pin)).tick (frameAt_length _ _)
        refine ⟨j + 1, ?_, ?_, ?_⟩
        · rw [h1]
          simp [List.replicate_succ]
        · rw [h2]
          simp only [World.tick_nxfer, World.after_nxfer]
          omega
        · intro p1 w1 h
          exact h3 p1 w1 h
      · refine ⟨1, by simp [Run.world], by simp [Run.world], ?_⟩
        intro p1 w1 h
        simp only [Run.ret.injEq] at h
        rw [← h.1]
        exact ⟨rfl, frameAt_length _ _, rfl⟩
    · rw [show (if ({ p with buffer := (frameAt w.miso w.nxfer,
            w.after 34 (readDataEvents p._ss_pin)).1 } : EspSpiProxy).buffer.getD 0 0
              ≠ MESSAGE_FINISHED
            ∧ ({ p with buffer := (frameAt w.miso w.nxfer,
              w.after 34 (readDataEvents p._ss_pin)).1 } : EspSpiProxy).buffer.getD 0 0
              ≠ MESSAGE_CONTINUES then _ else _) = _ from if_neg hv]
      refine ⟨1, by simp [Run.world], by simp [Run.world], ?_⟩
      intro p1 w1 h
      simp only [Run.ret.injEq] at h
      rw [← h.1]
      exact ⟨rfl, frameAt_length _ _, rfl⟩

/-- With a peer that is never ready, a wait entered in the last 3000 ms of
the 28-bit masked range never leaves its loop. -/
theorem rx_wait_stuck (fuel : Nat) (p : EspSpiProxy) (w : World)
    (hbusy : ∀ n, rxField (statusAt w.miso n) ≠ 1)
    (hend : 0x0fffffff - 2999 ≤ (w.clock w.ticks % 2 ^ 32) &&& 0x0fffffff) :
    waitForSlaveRxReady fuel p w = Run.spin (w.tick.polled p._ss_pin fuel) := by
  rw [waitForSlaveRxReady_eq]
  have h := rx_loop_skip p (((w.clock w.ticks % 2 ^ 32) &&& 0x0fffffff) + 3000) fuel 0 w.tick
    (by
      intro i _
      refine ⟨hbusy _, ?_⟩
      have : (w.tick.clock (w.tick.ticks + i) % 2 ^ 32) &&& 0x0fffffff ≤ 0x0fffffff :=
        Nat.and_le_right
      omega)
  exact h.trans (by rw [waitForSlaveRxReady.loop])

theorem pad_as_range (f : Nat → Nat) (m : Nat) (hm : m ≤ 32) :
    (List.range m).map f ++ List.replicate (32 - m) 0
      = (List.range 32).map (fun i => if i < m then f i else 0) := by
  apply List.ext_getElem
  · simp only [List.length_append, List.length_map, List.length_range, List.length_replicate]
    omega
  · intro i h1 h2
    simp only [List.length_map, List.length_range] at h2
    by_cases hi : i < m
    · rw [List.getElem_append_left (by simpa using hi)]
      simp [hi]
    · rw [List.getElem_append_right (by simpa using hi)]
      simp [hi]

theorem frameOf_length (x : Nat) (l : List Nat) (h : l.length ≤ 31) : (frameOf x l).length = 32 := by
  simp only [frameOf, List.length_cons, List.length_append, List.length_replicate]
  omega

theorem chunk_length_le (bs : List Nat) (k : Nat) : (chunk bs k).length ≤ 31 := by
  simp only [chunk, List.length_take]
  omega

/-! ## The claims -/

/-- C1. For every non-empty sequence `bs` of bytes, from an empty transmit
buffer and with a peer that is always receive-ready, `writeByte` on each byte
of `bs` followed by `flush(MESSAGE_FINISHED)` returns, and what it has put on
the wire is, for each of the `ceil(|bs| / 31)` frames in order, one READSTATUS
transaction and one WRITEDATA transaction carrying the 32 bytes of the frame:
the indicator (0xDC for every frame but the last, 0xDF for the last), the
`k`-th run of at most 31 bytes of `bs`, and zero padding.  The runs put end to
end give back `bs`. -/
theorem writeMessage_frames (fuel : Nat) (bs : List Nat) (p : EspSpiProxy) (w : World)
    (hfuel : 0 < fuel) (hwf : p.WF) (hempty : p.buflen = 0) (hready : AlwaysRxReady w.miso)
    (hbytes : ∀ b ∈ bs, b < 256) (hne : bs ≠ []) :
    ∃ p1 w1, writeMessage fuel bs p w = Run.ret p1 w1
      ∧ w1.trace = w.trace ++ (messageFrames bs).flatMap
          (fun f => statusEvents p._ss_pin ++ writeDataEvents p._ss_pin f)
      ∧ w1.nxfer = w.nxfer + 39 * ((bs.length + 30) / 31)
      ∧ (messageFrames bs).length = (bs.length + 30) / 31
      ∧ (∀ f ∈ messageFrames bs, f.length = 32)
      ∧ (∀ k, k < (bs.length + 30) / 31 →
          (messageFrames bs)[k]?
            = some ((if k + 1 = (bs.length + 30) / 31 then 0xDF else 0xDC)
                :: chunk bs k ++ List.replicate (31 - (chunk bs k).length) 0))
      ∧ (List.range ((bs.length + 30) / 31)).flatMap (chunk bs) = bs
      ∧ p1.buflen = 0 := by
  obtain ⟨f, rfl⟩ := Nat.exists_eq_succ_of_ne_zero (by omega : fuel ≠ 0)
  obtain ⟨p1, e1, e2⟩ := writeMessage_eq f bs p w hwf hempty hready hbytes hne
  have hlen : (messageFrames bs).length = (bs.length + 30) / 31 := by
    simp [messageFrames, nframes]
  refine ⟨p1, _, e1, rfl, ?_, hlen, ?_, ?_, ?_, e2⟩
  · simp only [World.sent, hlen]
  · intro fr hfr
    simp only [messageFrames, List.mem_map] at hfr
    obtain ⟨k, _, rfl⟩ := hfr
    exact frameOf_length _ _ (chunk_length_le bs k)
  · intro k hk
    simp only [messageFrames, nframes, List.getElem?_map, List.getElem?_range hk, Option.map_some',
      frameOf, MESSAGE_FINISHED, MESSAGE_CONTINUES]
  · rw [flatMap_chunk, List.take_of_length_le (by omega)]

/-- A witness of C1: three bytes written to a fresh proxy, peer always ready. -/
theorem writeMessage_frames_witness :
    ∃ p1 w1, writeMessage 1 [1, 2, 3] EspSpiProxy.ctor readyWorld = Run.ret p1 w1
      ∧ w1.trace = readyWorld.trace ++ (messageFrames [1, 2, 3]).flatMap
          (fun f => statusEvents EspSpiProxy.ctor._ss_pin
            ++ writeDataEvents EspSpiProxy.ctor._ss_pin f)
      ∧ w1.nxfer = readyWorld.nxfer + 39 * (([1, 2, 3].length + 30) / 31)
      ∧ (messageFrames [1, 2, 3]).length = ([1, 2, 3].length + 30) / 31
      ∧ (∀ f ∈ messageFrames [1, 2, 3], f.length = 32)
      ∧ (∀ k, k < ([1, 2, 3].length + 30) / 31 →
          (messageFrames [1, 2, 3])[k]?
            = some ((if k + 1 = ([1, 2, 3].length + 30) / 31 then 0xDF else 0xDC)
                :: chunk [1, 2, 3] k ++ List.replicate (31 - (chunk [1, 2, 3] k).length) 0))
      ∧ (List.range (([1, 2, 3].length + 30) / 31)).flatMap (chunk [1, 2, 3]) = [1, 2, 3]
      ∧ p1.buflen = 0 :=
  writeMessage_frames 1 [1, 2, 3] EspSpiProxy.ctor readyWorld (by decide) (by decide) rfl
    (fun _ => (by decide : rxField (wordOfBytes 16 16 16 16) = 1)) (by decide) (by decide)

/-- C2, counterexample.  One byte is waiting, the peer is busy and the wait
ends in a soft timeout at the first check of the clock: `flush` returns, the
only transaction on the wire is one READSTATUS, no WRITEDATA command is sent,
and the byte is dropped. -/
theorem flush_after_timeout_sends_nothing :
    ∃ p1 w1, flush 1 MESSAGE_FINISHED loadedProxy busyWorld = Run.ret p1 w1
      ∧ p1.buflen = 0
      ∧ w1.trace = statusEvents 255 ++ [Event.yield]
      ∧ w1.nxfer = 5
      ∧ Event.transfer CMD_WRITEDATA ∉ w1.trace :=
  ⟨_, _, rfl, rfl, rfl, rfl, by decide⟩

/-- C2, amended.  With 1 to 31 bytes waiting, `flush(indicator)` sends the
frame only when the wait for the receiver ends on a status word that reports
READY: then it makes exactly one WRITEDATA transaction, carrying the indicator,
the waiting bytes and zero padding.  When the wait ends in a soft timeout, the
peer still not READY, it sends no frame.  In both cases the transmit cursor is
0 afterwards.  If the first status word read is READY, `flush` returns. -/
theorem flush_sends_only_when_ready (fuel indicator : Nat) (p : EspSpiProxy) (w : World)
    (hwf : p.WF) (h1 : 1 ≤ p.buflen) (h31 : p.buflen ≤ 31) :
    (0 < fuel → rxField (statusAt w.miso w.nxfer) = 1 →
      ∃ p1 w1, flush fuel indicator p w = Run.ret p1 w1 ∧ p1.buflen = 0
        ∧ w1.trace = w.trace ++ statusEvents p._ss_pin
            ++ writeDataEvents p._ss_pin
                (indicator % 256 :: p.pending ++ List.replicate (31 - p.buflen) 0))
    ∧ (∀ p1 w1, flush fuel indicator p w = Run.ret p1 w1 →
        p1.buflen = 0 ∧ ∃ j,
          (rxField (statusAt w.miso (w.nxfer + 5 * j)) = 1
            ∧ w1.trace = w.trace
                ++ (List.replicate j (statusEvents p._ss_pin ++ [Event.yield])).flatten
                ++ statusEvents p._ss_pin
                ++ writeDataEvents p._ss_pin
                    (indicator % 256 :: p.pending ++ List.replicate (31 - p.buflen) 0))
          ∨ (rxField (statusAt w.miso (w.nxfer + 5 * j)) ≠ 1
            ∧ w1.trace = w.trace
                ++ (List.replicate (j + 1) (statusEvents p._ss_pin ++ [Event.yield])).flatten)) := by
  have hfr : frameOf (indicator % 256) p.pending
      = indicator % 256 :: p.pending ++ List.replicate (31 - p.buflen) 0 := by
    rw [frameOf, pending_length p hwf h31]
  refine ⟨?_, ?_⟩
  · intro hfuel hr
    obtain ⟨f, rfl⟩ := Nat.exists_eq_succ_of_ne_zero (by omega : fuel ≠ 0)
    refine ⟨_, _, flush_ready f indicator p w hwf (by omega) h31 hr, rfl, ?_⟩
    simp [World.sent, List.flatMap, hfr]
  · intro p1 w1 h
    rw [flush_eq fuel indicator p w hwf (by omega) h31] at h
    cases hw : waitForSlaveRxReady fuel p w with
    | spin w0 => rw [hw] at h; simp at h
    | ret st w0 =>
      rw [hw] at h
      simp only [Run.ret.injEq] at h
      obtain ⟨hp, hw1⟩ := h
      refine ⟨by rw [← hp], ?_⟩
      rw [waitForSlaveRxReady_eq] at hw
      obtain ⟨j, _, _, hv, hcase⟩ := (rx_loop_sound p _ fuel w.tick).1 st w0 hw
      simp only [World.tick_miso, World.tick_nxfer] at hv
      refine ⟨j, ?_⟩
      rcases hcase with ⟨hst, hw0⟩ | ⟨hst, hw0⟩
      · left
        refine ⟨by rw [← hv]; exact hst, ?_⟩
        rw [← hw1, if_pos hst, hw0, hfr]
        simp [World.polled, World.after, World.tick]
      · right
        refine ⟨by rw [← hv]; exact hst, ?_⟩
        rw [← hw1, if_neg hst, hw0]
        simp [World.polled, World.tick]

/-- A witness of the amended C2: one byte waiting, peer always ready. -/
theorem flush_sends_only_when_ready_witness :
    ∃ p1 w1, flush 1 MESSAGE_FINISHED loadedProxy readyWorld = Run.ret p1 w1 ∧ p1.buflen = 0
      ∧ w1.trace = readyWorld.trace ++ statusEvents loadedProxy._ss_pin
          ++ writeDataEvents loadedProxy._ss_pin
              (MESSAGE_FINISHED % 256 :: loadedProxy.pending
                ++ List.replicate (31 - loadedProxy.buflen) 0) :=
  (flush_sends_only_when_ready 1 MESSAGE_FINISHED loadedProxy readyWorld
    (by decide) (by decide) (by decide)).1 (by decide) (by decide)

/-- C3, where the code departs from the claim.  The clock reads 0x0FFFF448 at
entry, which is 3000 ms before the end of the 28-bit masked range, and then
advances by 1 ms per reading; the peer is never ready.  `endTime` is
0x10000000, which no masked reading reaches: whatever the number of rounds
allowed, `waitForSlaveRxReady` is still polling after all of them. -/
theorem rx_wait_never_ends_at_mask_wrap (fuel : Nat) :
    waitForSlaveRxReady fuel EspSpiProxy.ctor stuckWorld
      = Run.spin (stuckWorld.tick.polled 255 fuel) :=
  rx_wait_stuck fuel EspSpiProxy.ctor stuckWorld
    (fun _ => (by decide : rxField (wordOfBytes 0 0 0 0) ≠ 1)) (by decide)

/-- C4. Let the peer serve `k >= 1` frames: the `j`-th READDATA transaction
(command byte at transfer `nxfer + 39 * j`) receives a frame whose indicator is
0xDC for `j < k - 1` and 0xDF for `j = k - 1`, and the READSTATUS transaction
made between two frames finds the peer transmit-ready.  Then, from receive
cursor 0, `31 * k` calls of `readByte` return, and the bytes they return are
bytes 1..31 of the first frame, then bytes 1..31 of the second frame, and so
on.  On the wire there are exactly `k` READDATA transactions, each but the
first preceded by one READSTATUS transaction. -/
theorem readBytes_frames (fuel k : Nat) (p : EspSpiProxy) (w : World)
    (hfuel : 0 < fuel) (hk : 1 ≤ k) (hwf : p.WF) (hpos : p.bufpos = 0)
    (hind : ∀ j, j < k → (frameAt w.miso (w.nxfer + 39 * j)).getD 0 0
        = if j + 1 = k then MESSAGE_FINISHED else MESSAGE_CONTINUES)
    (htx : ∀ j, j + 1 < k → txField (statusAt w.miso (w.nxfer + 39 * j + 34)) = 1) :
    ∃ p1 w1, readBytes fuel (31 * k) p w
        = Run.ret ((List.range k).flatMap
              (fun j => (frameAt w.miso (w.nxfer + 39 * j)).drop 1), p1) w1
      ∧ w1.trace = w.trace ++ readDataEvents p._ss_pin
          ++ (List.replicate (k - 1)
                (statusEvents p._ss_pin ++ readDataEvents p._ss_pin)).flatten
      ∧ w1.nxfer = w.nxfer + 34 + 39 * (k - 1)
      ∧ p1.bufpos = 32 := by
  obtain ⟨f, rfl⟩ := Nat.exists_eq_succ_of_ne_zero (by omega : fuel ≠ 0)
  obtain ⟨k, rfl⟩ := Nat.exists_eq_succ_of_ne_zero (by omega : k ≠ 0)
  have hf0 := hind 0 (by omega)
  simp only [Nat.mul_zero, Nat.add_zero] at hf0
  have hv0 : (frameAt w.miso w.nxfer).getD 0 0 = MESSAGE_FINISHED
      ∨ (frameAt w.miso w.nxfer).getD 0 0 = MESSAGE_CONTINUES := by
    rw [hf0]; split
    · exact Or.inl rfl
    · exact Or.inr rfl
  obtain ⟨p1, e1, e2, _, _, _⟩ :=
    frames_next f k
      { p with buflen := 0, buffer := frameAt w.miso w.nxfer, bufpos := 32 }
      (w.tick.after 34 (readDataEvents p._ss_pin)) (frameAt_length _ _) rfl rfl
      (by
        intro hk0
        show (frameAt w.miso w.nxfer).getD 0 0 = MESSAGE_CONTINUES
        rw [hf0, if_neg (by omega)])
      (by
        intro j hj
        have := htx j (by omega)
        simp only [World.after_miso, World.tick_miso, World.after_nxfer, World.tick_nxfer]
        rw [show w.nxfer + 34 + 39 * j = w.nxfer + 39 * j + 34 by omega]
        exact this)
      (by
        intro j hj
        have := hind (j + 1) (by omega)
        simp only [World.after_miso, World.tick_miso, World.after_nxfer, World.tick_nxfer]
        rw [show w.nxfer + 34 + 39 * j + 5 = w.nxfer + 39 * (j + 1) by omega, this]
        by_cases hjk : j + 1 = k
        · rw [if_pos hjk, if_pos (by omega)]
        · rw [if_neg hjk, if_neg (by omega)])
  refine ⟨p1, (w.tick.after 34 (readDataEvents p._ss_pin)).fetched p._ss_pin k,
    ?_, ?_, ?_, e2⟩
  · rw [show 31 * (k + 1) = 31 + 31 * k by omega, readBytes_add,
      frame31_start f p w hwf.1 hpos hv0]
    simp only
    rw [e1]
    simp only [Run.ret.injEq, Prod.mk.injEq, and_true]
    rw [List.range_succ_eq_map, List.flatMap_cons, Nat.mul_zero, Nat.add_zero]
    congr 1
    simp only [List.flatMap, List.map_map, Function.comp_def, World.after_miso,
      World.tick_miso, World.after_nxfer, World.tick_nxfer]
    congr 2
    funext j
    rw [show w.nxfer + 34 + 39 * j + 5 = w.nxfer + 39 * (j + 1) by omega]
  · simp [World.fetched, World.after, World.tick]
  · simp [World.fetched, World.after, World.tick]

/-- A witness of C4: two frames, the first tagged CONTINUES and the second
tagged FINISHED. -/
theorem readBytes_frames_witness :
    ∃ p1 w1, readBytes 1 (31 * 2) EspSpiProxy.ctor twoFrameWorld
        = Run.ret ((List.range 2).flatMap
              (fun j => (frameAt twoFrameWorld.miso (twoFrameWorld.nxfer + 39 * j)).drop 1), p1)
            w1
      ∧ w1.trace = twoFrameWorld.trace ++ readDataEvents EspSpiProxy.ctor._ss_pin
          ++ (List.replicate (2 - 1)
                (statusEvents EspSpiProxy.ctor._ss_pin
                  ++ readDataEvents EspSpiProxy.ctor._ss_pin)).flatten
      ∧ w1.nxfer = twoFrameWorld.nxfer + 34 + 39 * (2 - 1)
      ∧ p1.bufpos = 32 :=
  readBytes_frames 1 2 EspSpiProxy.ctor twoFrameWorld (by decide) (by decide) (by decide) rfl
    (by decide)
    (by
      intro j hj
      have hj0 : j = 0 := by omega
      subst hj0
      decide)

/-- C5. With fewer than 31 bytes waiting, `writeByte(b)` returns without
touching the wire.  The `readByte()` that follows, whether it returns or is
still polling, makes READDATA transactions only: the command byte 0x02 of
WRITEDATA is never sent.  When it returns, the transmit cursor is 0, and a
following `flush(MESSAGE_FINISHED)` returns at once with state and world
unchanged. -/
theorem write_then_read_drops_the_byte (fuel b : Nat) (p : EspSpiProxy) (w : World)
    (hwf : p.WF) (h : p.buflen < 31) :
    ∃ p1, writeByte fuel b p w = Run.ret p1 w
      ∧ (∃ j, (readByte fuel p1 w).world.trace
            = w.trace ++ (List.replicate j (readDataEvents p._ss_pin)).flatten
          ∧ Event.transfer CMD_WRITEDATA
              ∉ (List.replicate j (readDataEvents p._ss_pin)).flatten)
      ∧ (∀ v p2 w2, readByte fuel p1 w = Run.ret (v, p2) w2 →
          p2.buflen = 0
            ∧ ∀ fuel2, flush fuel2 MESSAGE_FINISHED p2 w2 = Run.ret p2 w2) := by
  refine ⟨_, writeByte_room fuel b p w h, ?_, ?_⟩
  · have hlen : ({ (writeByte.store b { p with bufpos := 0 }) with buflen := 0 }
        : EspSpiProxy).buffer.length = 32 := by
      simp [writeByte.store, hwf.1]
    obtain ⟨j, h1, _, _⟩ := poll_trace ((w.clock w.ticks % 2 ^ 32 + 1000) % 2 ^ 32) fuel
      { (writeByte.store b { p with bufpos := 0 }) with buflen := 0 } w.tick hlen
    refine ⟨j, ?_, ?_⟩
    · simp only [readByte, writeByte.store, if_neg (by omega : ¬ 32 ≤ 0), readByte.fetch,
        if_true, millis_eq]
      simp only [writeByte.store, World.tick_trace] at h1
      rw [← h1]
      split <;> rename_i heq
      · rw [heq]; rfl
      · rw [heq]; split <;> rfl
    · intro hmem
      rw [List.mem_flatten] at hmem
      obtain ⟨l, hl, he⟩ := hmem
      rw [List.eq_of_mem_replicate hl] at he
      simp [readDataEvents, pulseEvents, CMD_WRITEDATA] at he
  · intro v p2 w2 hret
    have hlen : ({ (writeByte.store b { p with bufpos := 0 }) with buflen := 0 }
        : EspSpiProxy).buffer.length = 32 := by
      simp [writeByte.store, hwf.1]
    obtain ⟨j, _, _, h3⟩ := poll_trace ((w.clock w.ticks % 2 ^ 32 + 1000) % 2 ^ 32) fuel
      { (writeByte.store b { p with bufpos := 0 }) with buflen := 0 } w.tick hlen
    have hb : p2.buflen = 0 := by
      simp only [readByte, writeByte.store, if_neg (by omega : ¬ 32 ≤ 0), readByte.fetch,
        if_true, millis_eq] at hret
      simp only [writeByte.store] at h3
      split at hret
      · simp at hret
      · rename_i p3 w3 heq
        have h4 := (h3 p3 w3 heq).1
        split at hret
        · simp only [Run.ret.injEq, Prod.mk.injEq] at hret
          rw [← hret.1.2]; exact h4
        · simp only [readByte.next, Run.ret.injEq, Prod.mk.injEq] at hret
          rw [← hret.1.2]; exact h4
    refine ⟨hb, ?_⟩
    intro fuel2
    rw [flush, if_pos hb]

/-- A witness of C5: a byte written to a fresh proxy, then a read from a peer
that serves a frame. -/
theorem write_then_read_drops_the_byte_witness :
    ∃ p1, writeByte 1 0x41 EspSpiProxy.ctor twoFrameWorld = Run.ret p1 twoFrameWorld
      ∧ (∃ j, (readByte 1 p1 twoFrameWorld).world.trace
            = twoFrameWorld.trace
                ++ (List.replicate j (readDataEvents EspSpiProxy.ctor._ss_pin)).flatten
          ∧ Event.transfer CMD_WRITEDATA
              ∉ (List.replicate j (readDataEvents EspSpiProxy.ctor._ss_pin)).flatten)
      ∧ (∀ v p2 w2, readByte 1 p1 twoFrameWorld = Run.ret (v, p2) w2 →
          p2.buflen = 0
            ∧ ∀ fuel2, flush fuel2 MESSAGE_FINISHED p2 w2 = Run.ret p2 w2) :=
  write_then_read_drops_the_byte 1 0x41 EspSpiProxy.ctor twoFrameWorld (by decide) (by decide)

/-- C6. For every array `data` and every `len`, `writeData(data, len)` makes
exactly 34 transfers between the two pulses: the command 0x02, the dummy byte
0x00, then 32 bytes of which byte `i` is `data[i]` (as a `uint8_t`) for
`i < min(len, 32)` and 0 from there on.  What is sent is the same for any two
arrays that agree below `min(len, 32)`: no element from there on is used. -/
theorem writeData_wire (p : EspSpiProxy) (data : List Nat) (len : Nat) (w : World) :
    (writeData p data len w).trace
        = w.trace ++ pulseEvents p._ss_pin true
          ++ Event.transfer 0x02 :: Event.transfer 0x00
              :: (List.range 32).map
                  (fun i => Event.transfer (if i < min len 32 then data.getD i 0 % 256 else 0))
          ++ pulseEvents p._ss_pin false
      ∧ (writeData p data len w).nxfer = w.nxfer + 34
      ∧ (writeData p data len w).miso = w.miso
      ∧ (writeData p data len w).ticks = w.ticks
      ∧ ∀ data2 : List Nat, (∀ i, i < min len 32 → data2.getD i 0 = data.getD i 0) →
          writeData p data2 len w = writeData p data len w := by
  refine ⟨?_, by rw [writeData_eq]; rfl, by rw [writeData_eq]; rfl, by rw [writeData_eq]; rfl,
    ?_⟩
  · rw [writeData_eq, pad_as_range _ _ (Nat.min_le_right len 32)]
    simp [writeDataEvents, Function.comp_def]
  · intro data2 h2
    rw [writeData_eq, writeData_eq]
    congr 3
    apply List.map_congr_left
    intro i hi
    rw [List.mem_range] at hi
    rw [h2 i hi]

/-- A witness of C6: two arrays that agree on their first two elements, `len = 2`. -/
theorem writeData_wire_witness :
    writeData EspSpiProxy.ctor [7, 8, 9] 2 readyWorld
      = writeData EspSpiProxy.ctor [7, 8] 2 readyWorld :=
  (writeData_wire EspSpiProxy.ctor [7, 8] 2 readyWorld).2.2.2.2 [7, 8, 9] (by decide)

/-- C7. From an empty transmit buffer and with a peer that is always
receive-ready: 31 bytes written and flushed with FINISHED make exactly one
frame, tagged FINISHED, with the 31 bytes; 32 bytes make exactly two frames, a
frame tagged CONTINUES with the first 31 bytes and then a frame tagged
FINISHED with the 32nd byte and 30 bytes of zero padding. -/
theorem writeMessage_31_and_32 (fuel : Nat) (p : EspSpiProxy) (w : World)
    (hfuel : 0 < fuel) (hwf : p.WF) (hempty : p.buflen = 0) (hready : AlwaysRxReady w.miso) :
    (∀ bs : List Nat, bs.length = 31 → (∀ b ∈ bs, b < 256) →
      ∃ p1 w1, writeMessage fuel bs p w = Run.ret p1 w1
        ∧ w1.trace = w.trace ++ statusEvents p._ss_pin
            ++ writeDataEvents p._ss_pin (MESSAGE_FINISHED :: bs))
    ∧ (∀ bs : List Nat, bs.length = 32 → (∀ b ∈ bs, b < 256) →
      ∃ p1 w1, writeMessage fuel bs p w = Run.ret p1 w1
        ∧ w1.trace = w.trace ++ statusEvents p._ss_pin
            ++ writeDataEvents p._ss_pin (MESSAGE_CONTINUES :: bs.take 31)
            ++ statusEvents p._ss_pin
            ++ writeDataEvents p._ss_pin
                (MESSAGE_FINISHED :: bs.drop 31 ++ List.replicate 30 0)) := by
  obtain ⟨f, rfl⟩ := Nat.exists_eq_succ_of_ne_zero (by omega : fuel ≠ 0)
  refine ⟨?_, ?_⟩
  · intro bs hl hb
    obtain ⟨p1, e1, _⟩ := writeMessage_eq f bs p w hwf hempty hready hb
      (by intro h; rw [h] at hl; simp at hl)
    refine ⟨p1, _, e1, ?_⟩
    have hc : chunk bs 0 = bs := by
      simp only [chunk, Nat.mul_zero, List.drop_zero]
      exact List.take_of_length_le (by omega)
    simp [World.sent, messageFrames, nframes, hl, List.range_succ, frameOf, hc]
  · intro bs hl hb
    obtain ⟨p1, e1, _⟩ := writeMessage_eq f bs p w hwf hempty hready hb
      (by intro h; rw [h] at hl; simp at hl)
    refine ⟨p1, _, e1, ?_⟩
    have hc0 : chunk bs 0 = bs.take 31 := by
      simp only [chunk, Nat.mul_zero, List.drop_zero]
    have hc1 : chunk bs 1 = bs.drop 31 := by
      simp only [chunk, Nat.mul_one]
      exact List.take_of_length_le (by simp only [List.length_drop]; omega)
    simp [World.sent, messageFrames, nframes, hl, List.range_succ, frameOf, hc0, hc1]

/-- A witness of C7: 31 bytes equal to 7 written to a fresh proxy. -/
theorem writeMessage_31_and_32_witness :
    ∃ p1 w1, writeMessage 1 (List.replicate 31 7) EspSpiProxy.ctor readyWorld = Run.ret p1 w1
      ∧ w1.trace = readyWorld.trace ++ statusEvents EspSpiProxy.ctor._ss_pin
          ++ writeDataEvents EspSpiProxy.ctor._ss_pin (MESSAGE_FINISHED :: List.replicate 31 7) :=
  (writeMessage_31_and_32 1 EspSpiProxy.ctor readyWorld (by decide) (by decide) rfl
    (fun _ => (by decide : rxField (wordOfBytes 16 16 16 16) = 1))).1
    (List.replicate 31 7) (by decide) (by decide)

/-- C8. With an empty transmit buffer, `flush(indicator)` returns at once:
the state (array, both cursors) and the world (no transfer, no reading of the
clock, no event) are unchanged. -/
theorem flush_empty_is_noop (fuel indicator : Nat) (p : EspSpiProxy) (w : World)
    (h : p.buflen = 0) :
    flush fuel indicator p w = Run.ret p w := by
  rw [flush, if_pos h]

/-- A witness of C8: a fresh proxy. -/
theorem flush_empty_is_noop_witness :
    flush 0 MESSAGE_FINISHED EspSpiProxy.ctor busyWorld = Run.ret EspSpiProxy.ctor busyWorld :=
  flush_empty_is_noop 0 MESSAGE_FINISHED EspSpiProxy.ctor busyWorld rfl

/-- C9. The wait for the receiver stops at the first status word whose bits
31..28 are 1.  (1) If the status word of poll number `j` is the first one that
is READY, and the clock was inside the window at the `j` checks before it, the
wait returns 1 after exactly `j + 1` READSTATUS transactions; for `j = 0`
this needs nothing of the clock.  (2) Whenever the wait returns, after
`j + 1` READSTATUS transactions say, none of the first `j` status words was
READY, and the value returned is bits 31..28 of the last status word read.
(3) When the wait is still polling, no status word read so far was READY. -/
theorem rx_wait_stops_at_first_ready (fuel : Nat) (p : EspSpiProxy) (w : World) :
    (∀ j, j < fuel →
      (∀ i, i < j → rxField (statusAt w.miso (w.nxfer + 5 * i)) ≠ 1
        ∧ (w.clock (w.ticks + 1 + i) % 2 ^ 32) &&& 0x0fffffff
            < ((w.clock w.ticks % 2 ^ 32) &&& 0x0fffffff) + 3000) →
      rxField (statusAt w.miso (w.nxfer + 5 * j)) = 1 →
      ∃ w1, waitForSlaveRxReady fuel p w = Run.ret 1 w1
        ∧ w1.nxfer = w.nxfer + 5 * (j + 1)
        ∧ w1.trace = w.trace
            ++ (List.replicate j (statusEvents p._ss_pin ++ [Event.yield])).flatten
            ++ statusEvents p._ss_pin)
    ∧ (∀ v w1, waitForSlaveRxReady fuel p w = Run.ret v w1 →
        ∃ j, j < fuel
          ∧ (∀ i, i < j → rxField (statusAt w.miso (w.nxfer + 5 * i)) ≠ 1)
          ∧ v = rxField (statusAt w.miso (w.nxfer + 5 * j))
          ∧ w1.nxfer = w.nxfer + 5 * (j + 1)
          ∧ w1.trace = w.trace
              ++ (List.replicate j (statusEvents p._ss_pin ++ [Event.yield])).flatten
              ++ statusEvents p._ss_pin ++ (if v = 1 then [] else [Event.yield]))
    ∧ (∀ w1, waitForSlaveRxReady fuel p w = Run.spin w1 →
        ∀ i, i < fuel → rxField (statusAt w.miso (w.nxfer + 5 * i)) ≠ 1) := by
  refine ⟨?_, ?_, ?_⟩
  · intro j hj hbefore hready
    obtain ⟨f, hf⟩ : ∃ f, fuel = j + (f + 1) := ⟨fuel - j - 1, by omega⟩
    refine ⟨(w.tick.polled p._ss_pin j).after 5 (statusEvents p._ss_pin), ?_, ?_, ?_⟩
    · rw [waitForSlaveRxReady_eq, hf, rx_loop_skip p _ j (f + 1) w.tick (by
        intro i hi
        simp only [World.tick_miso, World.tick_nxfer, World.tick_clock, World.tick_ticks]
        exact hbefore i hi)]
      have hr : rxField (statusAt (w.tick.polled p._ss_pin j).miso
          (w.tick.polled p._ss_pin j).nxfer) = 1 := hready
      rw [rx_loop_succ, if_pos hr, hr]
    · simp only [World.polled, World.after, World.tick]; omega
    · simp [World.polled, World.after, World.tick]
  · intro v w1 h
    rw [waitForSlaveRxReady_eq] at h
    obtain ⟨j, hj, hn, hv, hcase⟩ := (rx_loop_sound p _ fuel w.tick).1 v w1 h
    simp only [World.tick_miso, World.tick_nxfer] at hn hv
    refine ⟨j, hj, hn, hv, ?_⟩
    rcases hcase with ⟨hst, hw0⟩ | ⟨hst, hw0⟩
    · rw [hw0, if_pos hst]
      refine ⟨by simp only [World.polled, World.after, World.tick]; omega, ?_⟩
      simp [World.polled, World.after, World.tick]
    · rw [hw0, if_neg hst]
      refine ⟨by simp only [World.polled, World.tick], ?_⟩
      simp [World.polled, World.tick, List.replicate_succ']
  · intro w1 h
    rw [waitForSlaveRxReady_eq] at h
    have := ((rx_loop_sound p _ fuel w.tick).2 w1 h).1
    simpa only [World.tick_miso, World.tick_nxfer] using this

/-- A witness of C9: the first status word read is READY. -/
theorem rx_wait_stops_at_first_ready_witness :
    ∃ w1, waitForSlaveRxReady 1 EspSpiProxy.ctor readyWorld = Run.ret 1 w1
      ∧ w1.nxfer = readyWorld.nxfer + 5 * (0 + 1)
      ∧ w1.trace = readyWorld.trace
          ++ (List.replicate 0 (statusEvents EspSpiProxy.ctor._ss_pin ++ [Event.yield])).flatten
          ++ statusEvents EspSpiProxy.ctor._ss_pin :=
  (rx_wait_stops_at_first_ready 1 EspSpiProxy.ctor readyWorld).1 0 (by decide)
    (by intro i hi; omega) (by decide)

/-- C10. Status words travel least significant byte first.  `writeStatus(w)`
sends the command 0x01 and then the bytes `w & 0xFF`, `(w >> 8) & 0xFF`,
`(w >> 16) & 0xFF`, `(w >> 24) & 0xFF`; `readStatus` sends the command 0x04
and four dummy bytes and returns `b0 + 2^8 b1 + 2^16 b2 + 2^24 b3` for the four
bytes `b0 b1 b2 b3` clocked in after the command; so a peer that gives back
the four bytes that `writeStatus(w)` sends makes `readStatus` return `w`. -/
theorem status_word_lsb_first (p : EspSpiProxy) (w : World) (status : Nat)
    (hs : status < 2 ^ 32) :
    (writeStatus p status w).trace
        = w.trace ++ pulseEvents p._ss_pin true
          ++ [Event.transfer 0x01, Event.transfer (status &&& 0xFF),
              Event.transfer ((status >>> 8) &&& 0xFF),
              Event.transfer ((status >>> 16) &&& 0xFF),
              Event.transfer ((status >>> 24) &&& 0xFF)]
          ++ pulseEvents p._ss_pin false
      ∧ (readStatus p w).2.trace
        = w.trace ++ pulseEvents p._ss_pin true
          ++ [Event.transfer 0x04, Event.transfer 0, Event.transfer 0, Event.transfer 0,
              Event.transfer 0]
          ++ pulseEvents p._ss_pin false
      ∧ (∀ b0 b1 b2 b3 : Nat, b0 < 256 → b1 < 256 → b2 < 256 → b3 < 256 →
          w.miso (w.nxfer + 1) = b0 → w.miso (w.nxfer + 2) = b1 →
          w.miso (w.nxfer + 3) = b2 → w.miso (w.nxfer + 4) = b3 →
          (readStatus p w).1 = b0 + 2 ^ 8 * b1 + 2 ^ 16 * b2 + 2 ^ 24 * b3)
      ∧ (w.miso (w.nxfer + 1) = status &&& 0xFF →
          w.miso (w.nxfer + 2) = (status >>> 8) &&& 0xFF →
          w.miso (w.nxfer + 3) = (status >>> 16) &&& 0xFF →
          w.miso (w.nxfer + 4) = (status >>> 24) &&& 0xFF →
          (readStatus p w).1 = status) := by
  refine ⟨?_, ?_, ?_, ?_⟩
  · rw [writeStatus_eq]
    simp [writeStatusEvents]
  · rw [readStatus_eq]
    simp [statusEvents]
  · intro b0 b1 b2 b3 h0 h1 h2 h3 e0 e1 e2 e3
    rw [readStatus_eq]
    simp only [statusAt, wordOfBytes, e0, e1, e2, e3, Nat.mod_eq_of_lt h0, Nat.mod_eq_of_lt h1,
      Nat.mod_eq_of_lt h2, Nat.mod_eq_of_lt h3]
  · intro e0 e1 e2 e3
    rw [readStatus_eq]
    simp only [statusAt, wordOfBytes, e0, e1, e2, e3, and_ff, Nat.shiftRight_eq_div_pow]
    omega

/-- A witness of C10: the status word 0x12345678 and a peer that echoes its bytes. -/
theorem status_word_lsb_first_witness :
    (readStatus EspSpiProxy.ctor echoWorld).1 = 0x12345678 :=
  (status_word_lsb_first EspSpiProxy.ctor echoWorld 0x12345678 (by decide)).2.2.2
    (by decide) (by decide) (by decide) (by decide)

/-! ## The frame-poll loop of `readByte`, round by round -/

theorem World.refetched_zero (w : World) (pin : Nat) : w.refetched pin 0 = w := by
  simp [World.refetched]

theorem World.refetched_one (w : World) (pin : Nat) :
    (w.after 34 (readDataEvents pin)).tick = w.refetched pin 1 := by
  simp [World.refetched, World.after, World.tick]

theorem World.refetched_shift (w : World) (pin : Nat) (j : Nat) :
    (w.refetched pin 1).refetched pin j = w.refetched pin (j + 1) := by
  simp only [World.refetched, List.replicate_succ, List.flatten_cons, List.flatten_nil,
    List.append_nil, List.append_assoc, List.replicate_zero]
  congr 1 <;> omega

/-- One round of the loop of `readByte`. -/
theorem poll_succ (endTime fuel : Nat) (p : EspSpiProxy) (w : World)
    (hlen : p.buffer.length = 32) :
    readByte.poll endTime (fuel + 1) p w
      = if badIndicator ((frameAt w.miso w.nxfer).getD 0 0) then
          if w.clock w.ticks % 2 ^ 32 < endTime then
            readByte.poll endTime fuel { p with buffer := frameAt w.miso w.nxfer }
              (w.refetched p._ss_pin 1)
          else Run.ret { p with buffer := frameAt w.miso w.nxfer } (w.refetched p._ss_pin 1)
        else Run.ret { p with buffer := frameAt w.miso w.nxfer }
          (w.after 34 (readDataEvents p._ss_pin)) := by
  rw [readByte.poll, readData_eq p p.buffer w hlen, ← World.refetched_one]
  rfl

/-- What the loop of `readByte` has done when it stops or is cut. -/
theorem poll_sound (endTime : Nat) (fuel : Nat) :
    ∀ (p : EspSpiProxy) (w : World), p.buffer.length = 32 →
      (∀ p1 w1, readByte.poll endTime fuel p w = Run.ret p1 w1 →
        ∃ j, j < fuel
          ∧ (∀ i, i < j → badIndicator ((frameAt w.miso (w.nxfer + 34 * i)).getD 0 0)
              ∧ w.clock (w.ticks + i) % 2 ^ 32 < endTime)
          ∧ p1 = { p with buffer := frameAt w.miso (w.nxfer + 34 * j) }
          ∧ ((¬ badIndicator ((frameAt w.miso (w.nxfer + 34 * j)).getD 0 0)
                ∧ w1 = (w.refetched p._ss_pin j).after 34 (readDataEvents p._ss_pin))
              ∨ (badIndicator ((frameAt w.miso (w.nxfer + 34 * j)).getD 0 0)
                ∧ ¬ w.clock (w.ticks + j) % 2 ^ 32 < endTime
                ∧ w1 = w.refetched p._ss_pin (j + 1))))
      ∧ (∀ w1, readByte.poll endTime fuel p w = Run.spin w1 →
          (∀ i, i < fuel → badIndicator ((frameAt w.miso (w.nxfer + 34 * i)).getD 0 0)
              ∧ w.clock (w.ticks + i) % 2 ^ 32 < endTime)
          ∧ w1 = w.refetched p._ss_pin fuel) := by
  induction fuel with
  | zero =>
    intro p w _
    refine ⟨?_, ?_⟩
    · intro p1 w1 h; simp [readByte.poll] at h
    · intro w1 h
      simp only [readByte.poll, Run.spin.injEq] at h
      exact ⟨by intro i hi; omega, by rw [← h, World.refetched_zero]⟩
  | succ fuel ih =>
    intro p w hlen
    rw [poll_succ endTime fuel p w hlen]
    by_cases hb : badIndicator ((frameAt w.miso w.nxfer).getD 0 0)
    · rw [if_pos hb]
      by_cases hc : w.clock w.ticks % 2 ^ 32 < endTime
      · rw [if_pos hc]
        obtain ⟨ih1, ih2⟩ := ih { p with buffer := frameAt w.miso w.nxfer }
          (w.refetched p._ss_pin 1) (frameAt_length _ _)
        have shift : ∀ i, (w.refetched p._ss_pin 1).nxfer + 34 * i = w.nxfer + 34 * (i + 1) := by
          intro i; simp only [World.refetched]; omega
        have tshift : ∀ i, (w.refetched p._ss_pin 1).ticks + i = w.ticks + (i + 1) := by
          intro i; simp only [World.refetched]; omega
        have hm : (w.refetched p._ss_pin 1).miso = w.miso := rfl
        have hk : (w.refetched p._ss_pin 1).clock = w.clock := rfl
        have first : ∀ i, (∀ k, k < i →
            badIndicator ((frameAt w.miso (w.nxfer + 34 * (k + 1))).getD 0 0)
              ∧ w.clock (w.ticks + (k + 1)) % 2 ^ 32 < endTime) →
            ∀ k, k < i + 1 → badIndicator ((frameAt w.miso (w.nxfer + 34 * k)).getD 0 0)
              ∧ w.clock (w.ticks + k) % 2 ^ 32 < endTime := by
          intro i hi k hk1
          cases k with
          | zero => exact ⟨by simpa using hb, by simpa using hc⟩
          | succ k => exact hi k (by omega)
        refine ⟨?_, ?_⟩
        · intro p1 w1 h
          obtain ⟨j, hj, hn, hp, hw⟩ := ih1 p1 w1 h
          simp only [shift, tshift, hm, hk, World.refetched_shift] at hn hp hw
          exact ⟨j + 1, by omega, first j hn, hp, hw⟩
        · intro w1 h
          obtain ⟨hn, hw⟩ := ih2 w1 h
          simp only [shift, tshift, hm, hk, World.refetched_shift] at hn hw
          exact ⟨first fuel hn, hw⟩
      · rw [if_neg hc]
        refine ⟨?_, by intro w1 h; simp at h⟩
        intro p1 w1 h
        simp only [Run.ret.injEq] at h
        refine ⟨0, by omega, by intro i hi; omega, by simpa using h.1.symm, Or.inr ⟨?_, ?_, ?_⟩⟩
        · simpa using hb
        · simpa using hc
        · exact h.2.symm
    · rw [if_neg hb]
      refine ⟨?_, by intro w1 h; simp at h⟩
      intro p1 w1 h
      simp only [Run.ret.injEq] at h
      refine ⟨0, by omega, by intro i hi; omega, by simpa using h.1.symm, Or.inl ⟨?_, ?_⟩⟩
      · simpa using hb
      · rw [World.refetched_zero]; exact h.2.symm

/-- While the frames have a bad indicator and the clock is before `endTime`,
the loop of `readByte` goes on. -/
theorem poll_skip (endTime : Nat) (j : Nat) :
    ∀ (fuel : Nat) (p : EspSpiProxy) (w : World), p.buffer.length = 32 →
      (∀ i, i < j → badIndicator ((frameAt w.miso (w.nxfer + 34 * i)).getD 0 0)
        ∧ w.clock (w.ticks + i) % 2 ^ 32 < endTime) →
      ∃ buf, buf.length = 32
        ∧ readByte.poll endTime (j + fuel) p w
          = readByte.poll endTime fuel { p with buffer := buf } (w.refetched p._ss_pin j) := by
  induction j with
  | zero =>
    intro fuel p w hlen _
    exact ⟨p.buffer, hlen, by simp [World.refetched_zero]⟩
  | succ j ih =>
    intro fuel p w hlen h
    have h0 := h 0 (by omega)
    simp only [Nat.mul_zero, Nat.add_zero] at h0
    obtain ⟨buf, hbuf, e⟩ := ih fuel { p with buffer := frameAt w.miso w.nxfer }
      (w.refetched p._ss_pin 1) (frameAt_length _ _) (by
        intro i hi
        have := h (i + 1) (by omega)
        simp only [World.refetched]
        rw [show w.nxfer + 34 * 1 + 34 * i = w.nxfer + 34 * (i + 1) by omega,
          show w.ticks + 1 + i = w.ticks + (i + 1) by omega]
        exact this)
    refine ⟨buf, hbuf, ?_⟩
    rw [show j + 1 + fuel = (j + fuel) + 1 by omega, poll_succ _ _ _ _ hlen, if_pos h0.1,
      if_pos h0.2, e, World.refetched_shift]

/-- The wait for the receiver uses the pin of the object and nothing else of it. -/
theorem rx_wait_pin (fuel : Nat) (p q : EspSpiProxy) (w : World) (hq : q._ss_pin = p._ss_pin) :
    waitForSlaveRxReady fuel q w = waitForSlaveRxReady fuel p w := by
  simp only [waitForSlaveRxReady]
  generalize ((millis w).1 &&& 0x0fffffff) + SLAVE_RX_READY_TIMEOUT = e
  generalize (millis w).2 = w0
  induction fuel generalizing w0 with
  | zero => rfl
  | succ fuel ih => simp only [waitForSlaveRxReady.loop, readStatus_eq, hq, ih]

/-- `flush` in terms of the wait, for any state. -/
theorem flush_cases (fuel indicator : Nat) (p : EspSpiProxy) (w : World) (h : p.buflen ≠ 0) :
    flush fuel indicator p w
      = match waitForSlaveRxReady fuel p w with
        | Run.spin w1 => Run.spin w1
        | Run.ret st w1 =>
          Run.ret { p with buffer := p.buffer.set 0 (indicator % 256), buflen := 0 }
            (if st = 1 then
              writeData p (p.buffer.set 0 (indicator % 256)) (p.buflen + 1) w1
            else w1) := by
  simp only [flush, if_neg h]
  rw [rx_wait_pin fuel p { p with buffer := p.buffer.set 0 (indicator % 256) } w rfl]
  generalize waitForSlaveRxReady fuel p w = r
  cases r with
  | spin w1 => rfl
  | ret st w1 =>
    simp only [SPISLAVE_RX_READY, writeData_eq]

/-- The state after a `flush` that returns. -/
theorem flush_post (fuel indicator : Nat) (p : EspSpiProxy) (w : World) (p1 : EspSpiProxy)
    (w1 : World) (h : flush fuel indicator p w = Run.ret p1 w1) :
    p1.buflen = 0 ∧ p1.bufpos = p.bufpos ∧ p1.buffer.length = p.buffer.length
      ∧ p1._ss_pin = p._ss_pin := by
  by_cases h0 : p.buflen = 0
  · rw [flush, if_pos h0] at h
    simp only [Run.ret.injEq] at h
    rw [← h.1]
    exact ⟨h0, rfl, rfl, rfl⟩
  · rw [flush_cases fuel indicator p w h0] at h
    cases hw : waitForSlaveRxReady fuel p w with
    | spin w0 => rw [hw] at h; simp at h
    | ret st w0 =>
      rw [hw] at h
      simp only [Run.ret.injEq] at h
      rw [← h.1]
      exact ⟨rfl, rfl, by simp, rfl⟩

/-- The state after a `writeByte` that returns. -/
theorem writeByte_post (fuel b : Nat) (p : EspSpiProxy) (w : World) (p1 : EspSpiProxy)
    (w1 : World) (h : writeByte fuel b p w = Run.ret p1 w1) :
    p1.bufpos = 0 ∧ p1.buffer.length = p.buffer.length ∧ p1._ss_pin = p._ss_pin
      ∧ 1 ≤ p1.buflen ∧ (p.buflen ≤ 31 → p1.buflen ≤ 31)
      ∧ (31 ≤ p.buflen → p1.buflen = 1) := by
  by_cases hf : 31 ≤ p.buflen
  · simp only [writeByte, if_pos hf] at h
    cases hfl : flush fuel MESSAGE_CONTINUES { p with bufpos := 0 } w with
    | spin w0 => rw [hfl] at h; simp at h
    | ret p2 w2 =>
      rw [hfl] at h
      simp only [Run.ret.injEq] at h
      obtain ⟨f1, f2, f3, f4⟩ := flush_post _ _ _ _ _ _ hfl
      rw [← h.1]
      simp only [writeByte.store, f1, f2, f4, List.length_set, f3]
      refine ⟨trivial, trivial, trivial, by norm_num, fun _ => by norm_num, fun _ => by norm_num⟩
  · simp only [writeByte, if_neg hf] at h
    simp only [Run.ret.injEq] at h
    rw [← h.1]
    have hm : (p.buflen + 1) % 256 = p.buflen + 1 := Nat.mod_eq_of_lt (by omega)
    simp only [writeByte.store, List.length_set, hm]
    exact ⟨trivial, trivial, trivial, by omega, fun _ => by omega, fun h31 => absurd h31 hf⟩

/-- `readByte` with the receive cursor at 0: the frame-poll loop, then the
test of the indicator. -/
theorem readByte_at_zero (fuel : Nat) (p : EspSpiProxy) (w : World) (hpos : p.bufpos = 0) :
    readByte fuel p w
      = match readByte.poll ((w.clock w.ticks % 2 ^ 32 + 1000) % 2 ^ 32) fuel
            { p with buflen := 0 } w.tick with
        | Run.spin w1 => Run.spin w1
        | Run.ret p1 w1 =>
          if badIndicator (p1.buffer.getD 0 0) then Run.ret (0, p1) w1
          else Run.ret (p1.buffer.getD 1 0, { p1 with bufpos := 2 }) w1 := by
  rw [readByte]
  simp only [hpos, if_neg (by omega : ¬ 32 ≤ 0)]
  rw [readByte.fetch, if_pos rfl]
  rfl

/-- The loop of `readByte` in terms of its own test.  Let `readByte` be called
with the receive cursor at 0.  (1) If the frames fetched by the first `j + 1`
READDATA transactions all have an indicator that is neither 0xDF nor 0xDC, the
test `millis() < endTime` holds at the first `j` checks and fails at check
`j`, then `readByte` returns the sentinel 0 after exactly `j + 1` READDATA
transactions, with the receive cursor still 0.  (2) Whenever `readByte`
returns, the array holds the last frame fetched and every frame before it had
a bad indicator; if the indicator of that last frame is bad the value returned
is 0 and the cursor is 0, and only if it is valid is a byte of the frame
(byte 1) returned. -/
theorem readByte_exhaustion (fuel : Nat) (p : EspSpiProxy) (w : World)
    (hlen : p.buffer.length = 32) (hpos : p.bufpos = 0) :
    (∀ j, j < fuel →
      (∀ i, i ≤ j → badIndicator ((frameAt w.miso (w.nxfer + 34 * i)).getD 0 0)) →
      (∀ i, i < j → w.clock (w.ticks + 1 + i) % 2 ^ 32
          < (w.clock w.ticks % 2 ^ 32 + 1000) % 2 ^ 32) →
      ¬ w.clock (w.ticks + 1 + j) % 2 ^ 32 < (w.clock w.ticks % 2 ^ 32 + 1000) % 2 ^ 32 →
      ∃ p1 w1, readByte fuel p w = Run.ret (0, p1) w1 ∧ p1.bufpos = 0
        ∧ p1.buffer = frameAt w.miso (w.nxfer + 34 * j)
        ∧ w1.nxfer = w.nxfer + 34 * (j + 1)
        ∧ w1.trace = w.trace ++ (List.replicate (j + 1) (readDataEvents p._ss_pin)).flatten)
    ∧ (∀ v p1 w1, readByte fuel p w = Run.ret (v, p1) w1 →
        ∃ j, w1.nxfer = w.nxfer + 34 * (j + 1)
          ∧ p1.buffer = frameAt w.miso (w.nxfer + 34 * j)
          ∧ (∀ i, i < j → badIndicator ((frameAt w.miso (w.nxfer + 34 * i)).getD 0 0))
          ∧ ((badIndicator (p1.buffer.getD 0 0) ∧ v = 0 ∧ p1.bufpos = 0)
              ∨ (¬ badIndicator (p1.buffer.getD 0 0) ∧ v = p1.buffer.getD 1 0
                  ∧ p1.bufpos = 2))) := by
  refine ⟨?_, ?_⟩
  · intro j hj hbad hin hout
    obtain ⟨f, hf⟩ : ∃ f, fuel = j + (f + 1) := ⟨fuel - j - 1, by omega⟩
    obtain ⟨buf, hbuf, e⟩ := poll_skip ((w.clock w.ticks % 2 ^ 32 + 1000) % 2 ^ 32) j (f + 1)
      { p with buflen := 0 } w.tick hlen (by
        intro i hi
        simp only [World.tick_miso, World.tick_nxfer, World.tick_clock, World.tick_ticks]
        exact ⟨hbad i (by omega), hin i hi⟩)
    have hb : badIndicator ((frameAt (w.tick.refetched p._ss_pin j).miso
        (w.tick.refetched p._ss_pin j).nxfer).getD 0 0) := hbad j (Nat.le_refl j)
    have hc : ¬ (w.tick.refetched p._ss_pin j).clock (w.tick.refetched p._ss_pin j).ticks
        % 2 ^ 32 < (w.clock w.ticks % 2 ^ 32 + 1000) % 2 ^ 32 := hout
    have hb2 : badIndicator ((frameAt w.miso (w.nxfer + 34 * j)).getD 0 0) :=
      hbad j (Nat.le_refl j)
    refine ⟨{ p with buflen := 0, buffer := frameAt w.miso (w.nxfer + 34 * j) },
      (w.tick.refetched p._ss_pin j).refetched p._ss_pin 1, ?_, hpos, rfl, ?_, ?_⟩
    · rw [readByte_at_zero fuel p w hpos, hf, e,
        poll_succ _ f { p with buflen := 0, buffer := buf } _ hbuf, if_pos hb, if_neg hc]
      simp only
      rw [if_pos hb]
      rfl
    · simp only [World.refetched, World.tick]; omega
    · simp [World.refetched, World.tick, List.replicate_succ']
  · intro v p1 w1 h
    rw [readByte_at_zero fuel p w hpos] at h
    cases hp : readByte.poll ((w.clock w.ticks % 2 ^ 32 + 1000) % 2 ^ 32) fuel
        { p with buflen := 0 } w.tick with
    | spin w0 => rw [hp] at h; simp at h
    | ret p2 w2 =>
      rw [hp] at h
      obtain ⟨j, _, hn, hp2, hw⟩ := (poll_sound _ fuel { p with buflen := 0 } w.tick hlen).1 p2 w2 hp
      simp only [World.tick_miso, World.tick_nxfer] at hn hp2 hw
      have hnx : w2.nxfer = w.nxfer + 34 * (j + 1) := by
        rcases hw with ⟨_, e⟩ | ⟨_, _, e⟩
        · rw [e]; simp only [World.refetched, World.after, World.tick]; omega
        · rw [e]; simp only [World.refetched, World.tick]
      dsimp only at h
      have key : w1 = w2 ∧ p1.buffer = p2.buffer
          ∧ ((badIndicator (p1.buffer.getD 0 0) ∧ v = 0 ∧ p1.bufpos = p2.bufpos)
            ∨ (¬ badIndicator (p1.buffer.getD 0 0) ∧ v = p1.buffer.getD 1 0
                ∧ p1.bufpos = 2)) := by
        by_cases hb : badIndicator (p2.buffer.getD 0 0)
        · rw [if_pos hb] at h
          simp only [Run.ret.injEq, Prod.mk.injEq] at h
          rw [← h.1.2, ← h.1.1, ← h.2]
          exact ⟨rfl, rfl, Or.inl ⟨hb, rfl, rfl⟩⟩
        · rw [if_neg hb] at h
          simp only [Run.ret.injEq, Prod.mk.injEq] at h
          rw [← h.1.2, ← h.1.1, ← h.2]
          exact ⟨rfl, rfl, Or.inr ⟨hb, rfl, rfl⟩⟩
      obtain ⟨k1, k2, k3⟩ := key
      refine ⟨j, by rw [k1]; exact hnx, by rw [k2, hp2], fun i hi => (hn i hi).1, ?_⟩
      rcases k3 with ⟨a, b, c⟩ | ⟨a, b, c⟩
      · exact Or.inl ⟨a, b, by rw [c, hp2]; exact hpos⟩
      · exact Or.inr ⟨a, b, c⟩

/-- The loop of `readByte` leaves on a valid frame.  Let `readByte` be called
with the receive cursor at 0 and a budget of more than `j` rounds.  If the
frames of the first `j` READDATA transactions have a bad indicator with the
test `millis() < endTime` true after each, and frame `j` has a valid
indicator, then `readByte` returns byte 1 of frame `j`, the array holds that
frame and the receive cursor is 2. -/
theorem readByte_fetches_valid (fuel : Nat) (p : EspSpiProxy) (w : World)
    (hlen : p.buffer.length = 32) (hpos : p.bufpos = 0) (j : Nat) (hj : j < fuel)
    (hbefore : ∀ i, i < j → badIndicator ((frameAt w.miso (w.nxfer + 34 * i)).getD 0 0)
        ∧ w.clock (w.ticks + 1 + i) % 2 ^ 32 < (w.clock w.ticks % 2 ^ 32 + 1000) % 2 ^ 32)
    (hvalid : ¬ badIndicator ((frameAt w.miso (w.nxfer + 34 * j)).getD 0 0)) :
    readByte fuel p w
      = Run.ret ((frameAt w.miso (w.nxfer + 34 * j)).getD 1 0,
          { p with buflen := 0, buffer := frameAt w.miso (w.nxfer + 34 * j), bufpos := 2 })
          ((w.tick.refetched p._ss_pin j).after 34 (readDataEvents p._ss_pin)) := by
  obtain ⟨f, hf⟩ : ∃ f, fuel = j + (f + 1) := ⟨fuel - j - 1, by omega⟩
  obtain ⟨buf, hbuf, e⟩ := poll_skip ((w.clock w.ticks % 2 ^ 32 + 1000) % 2 ^ 32) j (f + 1)
    { p with buflen := 0 } w.tick hlen (by
      intro i hi
      simp only [World.tick_miso, World.tick_nxfer, World.tick_clock, World.tick_ticks]
      exact hbefore i hi)
  have hb : ¬ badIndicator ((frameAt (w.tick.refetched p._ss_pin j).miso
      (w.tick.refetched p._ss_pin j).nxfer).getD 0 0) := hvalid
  rw [readByte_at_zero fuel p w hpos, hf, e,
    poll_succ _ f { p with buflen := 0, buffer := buf } _ hbuf, if_neg hb]
  simp only
  rw [if_neg hb]
  rfl

/-- C12. Whenever `flush(indicator)` returns, the transmit cursor is 0,
whatever the state, the indicator, the peer and the clock.  It returns at once
when the buffer is empty, and otherwise it returns whenever its wait for the
receiver returns, be it on READY or on a timeout. -/
theorem flush_leaves_cursor_zero (fuel indicator : Nat) (p : EspSpiProxy) (w : World) :
    (∀ p1 w1, flush fuel indicator p w = Run.ret p1 w1 → p1.buflen = 0)
      ∧ (p.buflen = 0 → flush fuel indicator p w = Run.ret p w)
      ∧ (∀ st w1, waitForSlaveRxReady fuel p w = Run.ret st w1 →
          ∃ p1 w2, flush fuel indicator p w = Run.ret p1 w2 ∧ p1.buflen = 0) := by
  refine ⟨fun p1 w1 h => (flush_post fuel indicator p w p1 w1 h).1, ?_, ?_⟩
  · intro h0
    rw [flush, if_pos h0]
  · intro st w1 hw
    by_cases h0 : p.buflen = 0
    · exact ⟨p, w, by rw [flush, if_pos h0], h0⟩
    · rw [flush_cases fuel indicator p w h0, hw]
      exact ⟨_, _, rfl, rfl⟩

/-- A witness of C12: one byte waiting, the peer busy, the wait ends in a timeout. -/
theorem flush_leaves_cursor_zero_witness :
    ∃ p1 w2, flush 1 MESSAGE_FINISHED loadedProxy busyWorld = Run.ret p1 w2 ∧ p1.buflen = 0 :=
  (flush_leaves_cursor_zero 1 MESSAGE_FINISHED loadedProxy busyWorld).2.2 0
    (busyWorld.tick.polled 255 1) rfl

/-- C14. In every state, so in particular in a state with a partially read
frame (receive cursor between 1 and 31), `writeByte(b)` returns at once when
fewer than 31 bytes are waiting, it returns whenever the wait of its flush
returns, and whenever it returns the receive cursor is 0.  The `readByte`
that follows then fetches anew.  (a) Whenever it returns it has made at least
one READDATA transaction and nothing else, the array holds the last frame
fetched, and the value returned is byte 1 of that frame or the sentinel 0.
(b) With a budget of at least one round, whether it has returned or is still
polling, it has made at least one READDATA transaction and nothing else.
(c) It does return a byte of a new frame: if the frames of its first `j`
transactions have a bad indicator with the test `millis() < endTime` true
after each, and frame `j` has a valid indicator, it returns byte 1 of frame
`j` after `j + 1` transactions, with that frame in the array and the cursor
at 2.  (d) It does return the sentinel: if the frames of its first `j + 1`
transactions have a bad indicator and the test `millis() < endTime` first
fails at check `j`, it returns 0 with the cursor at 0.  In no case is a byte
of the old frame returned. -/
theorem writeByte_abandons_frame (fuel b : Nat) (p : EspSpiProxy) (w : World)
    (hlen : p.buffer.length = 32) :
    (p.buflen < 31 → ∃ p1, writeByte fuel b p w = Run.ret p1 w ∧ p1.bufpos = 0)
      ∧ (∀ st w0, waitForSlaveRxReady fuel p w = Run.ret st w0 →
          ∃ p1 w1, writeByte fuel b p w = Run.ret p1 w1 ∧ p1.bufpos = 0)
      ∧ (∀ p1 w1, writeByte fuel b p w = Run.ret p1 w1 →
          p1.bufpos = 0
            ∧ (∀ fuel2 v p2 w2, readByte fuel2 p1 w1 = Run.ret (v, p2) w2 →
                ∃ j, w2.nxfer = w1.nxfer + 34 * (j + 1)
                  ∧ w2.trace = w1.trace
                      ++ (List.replicate (j + 1) (readDataEvents p._ss_pin)).flatten
                  ∧ p2.buffer = frameAt w1.miso (w1.nxfer + 34 * j)
                  ∧ (v = 0 ∨ v = (frameAt w1.miso (w1.nxfer + 34 * j)).getD 1 0))
            ∧ (∀ fuel2, ∃ j,
                (readByte (fuel2 + 1) p1 w1).world.nxfer = w1.nxfer + 34 * (j + 1)
                  ∧ (readByte (fuel2 + 1) p1 w1).world.trace = w1.trace
                      ++ (List.replicate (j + 1) (readDataEvents p._ss_pin)).flatten)
            ∧ (∀ fuel2 j, j < fuel2 →
                (∀ i, i < j → badIndicator ((frameAt w1.miso (w1.nxfer + 34 * i)).getD 0 0)
                  ∧ w1.clock (w1.ticks + 1 + i) % 2 ^ 32
                      < (w1.clock w1.ticks % 2 ^ 32 + 1000) % 2 ^ 32) →
                ¬ badIndicator ((frameAt w1.miso (w1.nxfer + 34 * j)).getD 0 0) →
                ∃ p2 w2, readByte fuel2 p1 w1
                    = Run.ret ((frameAt w1.miso (w1.nxfer + 34 * j)).getD 1 0, p2) w2
                  ∧ p2.bufpos = 2
                  ∧ p2.buffer = frameAt w1.miso (w1.nxfer + 34 * j)
                  ∧ w2.nxfer = w1.nxfer + 34 * (j + 1)
                  ∧ w2.trace = w1.trace
                      ++ (List.replicate (j + 1) (readDataEvents p._ss_pin)).flatten)
            ∧ (∀ fuel2 j, j < fuel2 →
                (∀ i, i ≤ j → badIndicator ((frameAt w1.miso (w1.nxfer + 34 * i)).getD 0 0)) →
                (∀ i, i < j → w1.clock (w1.ticks + 1 + i) % 2 ^ 32
                    < (w1.clock w1.ticks % 2 ^ 32 + 1000) % 2 ^ 32) →
                ¬ w1.clock (w1.ticks + 1 + j) % 2 ^ 32
                    < (w1.clock w1.ticks % 2 ^ 32 + 1000) % 2 ^ 32 →
                ∃ p2 w2, readByte fuel2 p1 w1 = Run.ret (0, p2) w2
                  ∧ p2.bufpos = 0
                  ∧ p2.buffer = frameAt w1.miso (w1.nxfer + 34 * j)
                  ∧ w2.nxfer = w1.nxfer + 34 * (j + 1)
                  ∧ w2.trace = w1.trace
                      ++ (List.replicate (j + 1) (readDataEvents p._ss_pin)).flatten)) := by
  refine ⟨?_, ?_, ?_⟩
  · intro hb
    exact ⟨_, writeByte_room fuel b p w hb, rfl⟩
  · intro st w0 hw
    by_cases hb : p.buflen < 31
    · exact ⟨_, _, writeByte_room fuel b p w hb, rfl⟩
    · have h31 : 31 ≤ p.buflen := by omega
      have hne : ({ p with bufpos := 0 } : EspSpiProxy).buflen ≠ 0 := by
        show p.buflen ≠ 0
        omega
      have hfl := flush_cases fuel MESSAGE_CONTINUES { p with bufpos := 0 } w hne
      rw [rx_wait_pin fuel p { p with bufpos := 0 } w rfl, hw] at hfl
      simp only [writeByte, if_pos h31]
      rw [hfl]
      exact ⟨_, _, rfl, rfl⟩
  · intro p1 w1 h
    obtain ⟨q1, q2, q3, _⟩ := writeByte_post fuel b p w p1 w1 h
    have hl1 : ({ p1 with buflen := 0 } : EspSpiProxy).buffer.length = 32 := by
      show p1.buffer.length = 32
      rw [q2, hlen]
    have polled : ∀ fuel2 p3 w3,
        readByte.poll ((w1.clock w1.ticks % 2 ^ 32 + 1000) % 2 ^ 32) fuel2
          { p1 with buflen := 0 } w1.tick = Run.ret p3 w3 →
        ∃ j, p3.buffer = frameAt w1.miso (w1.nxfer + 34 * j)
          ∧ w3.nxfer = w1.nxfer + 34 * (j + 1)
          ∧ w3.trace = w1.trace
              ++ (List.replicate (j + 1) (readDataEvents p._ss_pin)).flatten := by
      intro fuel2 p3 w3 hp
      obtain ⟨j, _, _, hp3, hw⟩ :=
        (poll_sound _ fuel2 { p1 with buflen := 0 } w1.tick hl1).1 p3 w3 hp
      simp only [World.tick_miso, World.tick_nxfer, q3] at hp3 hw
      refine ⟨j, by rw [hp3], ?_⟩
      rcases hw with ⟨_, e⟩ | ⟨_, _, e⟩
      · rw [e]
        refine ⟨by simp only [World.refetched, World.after, World.tick]; omega, ?_⟩
        simp [World.refetched, World.after, World.tick, List.replicate_succ']
      · rw [e]
        exact ⟨by simp only [World.refetched, World.tick], by simp [World.refetched, World.tick]⟩
    refine ⟨q1, ?_, ?_, ?_, ?_⟩
    · intro fuel2 v p2 w2 hr
      rw [readByte_at_zero fuel2 p1 w1 q1] at hr
      cases hp : readByte.poll ((w1.clock w1.ticks % 2 ^ 32 + 1000) % 2 ^ 32) fuel2
          { p1 with buflen := 0 } w1.tick with
      | spin w0 => rw [hp] at hr; simp at hr
      | ret p3 w3 =>
        rw [hp] at hr
        dsimp only at hr
        obtain ⟨j, hp3, hn3, ht3⟩ := polled fuel2 p3 w3 hp
        by_cases hb : badIndicator (p3.buffer.getD 0 0)
        · rw [if_pos hb] at hr
          simp only [Run.ret.injEq, Prod.mk.injEq] at hr
          rw [← hr.1.2, ← hr.1.1, ← hr.2]
          exact ⟨j, hn3, ht3, hp3, Or.inl rfl⟩
        · rw [if_neg hb] at hr
          simp only [Run.ret.injEq, Prod.mk.injEq] at hr
          rw [← hr.1.2, ← hr.1.1, ← hr.2]
          exact ⟨j, hn3, ht3, hp3, Or.inr (by rw [hp3])⟩
    · intro fuel2
      rw [readByte_at_zero (fuel2 + 1) p1 w1 q1]
      cases hp : readByte.poll ((w1.clock w1.ticks % 2 ^ 32 + 1000) % 2 ^ 32) (fuel2 + 1)
          { p1 with buflen := 0 } w1.tick with
      | spin w0 =>
        obtain ⟨_, e⟩ := (poll_sound _ (fuel2 + 1) { p1 with buflen := 0 } w1.tick hl1).2 w0 hp
        refine ⟨fuel2, ?_, ?_⟩
        · show w0.nxfer = _
          rw [e]
          simp only [World.refetched, World.tick]
        · show w0.trace = _
          rw [e]
          simp [World.refetched, World.tick, q3]
      | ret p3 w3 =>
        obtain ⟨j, _, hn3, ht3⟩ := polled (fuel2 + 1) p3 w3 hp
        dsimp only
        by_cases hb : badIndicator (p3.buffer.getD 0 0)
        · rw [if_pos hb]
          exact ⟨j, hn3, ht3⟩
        · rw [if_neg hb]
          exact ⟨j, hn3, ht3⟩
    · intro fuel2 j hj hbefore hvalid
      refine ⟨_, _, readByte_fetches_valid fuel2 p1 w1 (by rw [q2, hlen]) q1 j hj hbefore hvalid,
        rfl, rfl, ?_, ?_⟩
      · simp only [World.refetched, World.after, World.tick]; omega
      · simp [World.refetched, World.after, World.tick, List.replicate_succ', q3]
    · intro fuel2 j hj hbad hin hout
      obtain ⟨p2, w2, e1, e2, e3, e4, e5⟩ :=
        (readByte_exhaustion fuel2 p1 w1 (by rw [q2, hlen]) q1).1 j hj hbad hin hout
      rw [q3] at e5
      exact ⟨p2, w2, e1, e2, e3, e4, e5⟩

/-- C15. When a frame tagged FINISHED has been used up (receive cursor 32),
`readByte` returns 0 without touching the wire or the clock and leaves the
receive cursor at 32; so do any number of further calls.  A `writeByte` that
returns puts the cursor back to 0. -/
theorem finished_is_sticky (fuel n : Nat) (p : EspSpiProxy) (w : World)
    (hpos : p.bufpos = 32) (hfin : p.buffer.getD 0 0 = MESSAGE_FINISHED) :
    readByte fuel p w = Run.ret (0, { p with buflen := 0 }) w
      ∧ (∃ p1, readBytes fuel n p w = Run.ret (List.replicate n 0, p1) w
          ∧ p1.bufpos = 32 ∧ p1.buffer = p.buffer)
      ∧ (∀ b p1 w1, writeByte fuel b p w = Run.ret p1 w1 → p1.bufpos = 0) := by
  have step : ∀ q : EspSpiProxy, q.bufpos = 32 → q.buffer.getD 0 0 = MESSAGE_FINISHED →
      readByte fuel q w = Run.ret (0, { q with buflen := 0 }) w := by
    intro q hq hf
    rw [readByte]
    simp only [hq, hf, if_pos (Nat.le_refl 32)]
    rfl
  have many : ∀ (k : Nat) (q : EspSpiProxy), q.bufpos = 32 →
      q.buffer.getD 0 0 = MESSAGE_FINISHED →
      ∃ p1, readBytes fuel k q w = Run.ret (List.replicate k 0, p1) w
        ∧ p1.bufpos = 32 ∧ p1.buffer = q.buffer := by
    intro k
    induction k with
    | zero => intro q hq _; exact ⟨q, rfl, hq, rfl⟩
    | succ k ih =>
      intro q hq hf
      obtain ⟨p1, e1, e2, e3⟩ := ih { q with buflen := 0 } hq hf
      refine ⟨p1, ?_, e2, e3⟩
      rw [readBytes_succ, step q hq hf]
      simp only
      rw [e1]
      rfl
  exact ⟨step p hpos hfin, many n p hpos hfin,
    fun b p1 w1 h => (writeByte_post fuel b p w p1 w1 h).1⟩

/-- A witness of C14: the receive cursor is at 2 of a frame whose unread bytes
are all 0x77; a byte is written, and the read that follows fetches the first
frame of `twoFrameWorld` with one READDATA transaction and returns its
byte 1, which is 3. -/
theorem writeByte_abandons_frame_witness :
    writeByte 1 0x41 staleProxy twoFrameWorld
        = Run.ret (writeByte.store 0x41 { staleProxy with bufpos := 0 }) twoFrameWorld
      ∧ staleProxy.bufpos = 2
      ∧ staleProxy.buffer.getD 2 0 = 0x77
      ∧ (frameAt twoFrameWorld.miso (twoFrameWorld.nxfer + 34 * 0)).getD 1 0 = 3
      ∧ ∃ p2 w2, readByte 1 (writeByte.store 0x41 { staleProxy with bufpos := 0 }) twoFrameWorld
            = Run.ret ((frameAt twoFrameWorld.miso (twoFrameWorld.nxfer + 34 * 0)).getD 1 0, p2)
                w2
          ∧ p2.bufpos = 2
          ∧ p2.buffer = frameAt twoFrameWorld.miso (twoFrameWorld.nxfer + 34 * 0)
          ∧ w2.nxfer = twoFrameWorld.nxfer + 34 * (0 + 1)
          ∧ w2.trace = twoFrameWorld.trace
              ++ (List.replicate (0 + 1) (readDataEvents staleProxy._ss_pin)).flatten :=
  ⟨rfl, rfl, rfl, by decide,
    ((writeByte_abandons_frame 1 0x41 staleProxy twoFrameWorld (by decide)).2.2
      (writeByte.store 0x41 { staleProxy with bufpos := 0 }) twoFrameWorld rfl).2.2.2.1
      1 0 (by decide) (by intro i hi; omega) (by decide)⟩

/-- A witness of C15: three reads after the end of a message. -/
theorem finished_is_sticky_witness :
    ∃ p1, readBytes 0 3 doneProxy busyWorld = Run.ret (List.replicate 3 0, p1) busyWorld
      ∧ p1.bufpos = 32 ∧ p1.buffer = doneProxy.buffer :=
  (finished_is_sticky 0 3 doneProxy busyWorld rfl rfl).2.1

theorem frameAt_head (miso : Nat → Nat) (n : Nat) :
    (frameAt miso n).getD 0 0 = miso (n + 2) % 256 := by
  simp [frameAt, List.getD_eq_getElem?_getD, List.getElem?_map, List.getElem?_range]

/-- As long as the frames have a bad indicator and the clock is before
`endTime`, the loop of `readByte` is still polling. -/
theorem poll_spin (endTime j : Nat) (p : EspSpiProxy) (w : World)
    (hlen : p.buffer.length = 32)
    (h : ∀ i, i < j → badIndicator ((frameAt w.miso (w.nxfer + 34 * i)).getD 0 0)
        ∧ w.clock (w.ticks + i) % 2 ^ 32 < endTime) :
    readByte.poll endTime j p w = Run.spin (w.refetched p._ss_pin j) := by
  obtain ⟨buf, _, e⟩ := poll_skip endTime j 0 p w hlen h
  rw [Nat.add_zero] at e
  rw [e, readByte.poll]

theorem lateWorld_before_deadline (i : Nat) (hi : i < 400) :
    lateWorld.tick.clock (lateWorld.tick.ticks + i) % 2 ^ 32
      < (lateWorld.clock lateWorld.ticks % 2 ^ 32 + 1000) % 2 ^ 32 := by
  have hd : (lateWorld.clock lateWorld.ticks % 2 ^ 32 + 1000) % 2 ^ 32 = 4294967295 := by
    decide
  have hc : lateWorld.tick.clock (lateWorld.tick.ticks + i) = 4294966298 + 3 * i := by
    show 0xFFFFFC17 + 3 * (0 + 1 + i) = 4294966298 + 3 * i
    omega
  rw [hd, hc]
  rcases Nat.lt_or_ge i 333 with h | h
  · rw [Nat.mod_eq_of_lt (by omega)]
    omega
  · rw [show 4294966298 + 3 * i = 2 ^ 32 + (3 * i - 998) by omega, Nat.add_mod_left,
      Nat.mod_eq_of_lt (by omega)]
    omega

/-- In `lateWorld` the loop of `readByte` is still polling after any number
of rounds up to 400. -/
theorem late_poll_spins (n : Nat) (hn : n ≤ 400) :
    readByte n EspSpiProxy.ctor lateWorld = Run.spin (lateWorld.tick.refetched 255 n) := by
  rw [readByte_at_zero n EspSpiProxy.ctor lateWorld rfl,
    poll_spin _ n { EspSpiProxy.ctor with buflen := 0 } lateWorld.tick (by decide) (by
      intro i hi
      refine ⟨?_, lateWorld_before_deadline i (by omega)⟩
      rw [frameAt_head]
      exact (by decide : badIndicator (0 % 256)))]
  rfl

/-- C16, where the code departs from the claim.  The clock reads
0xFFFFFC17 = 2^32 - 1001 when the deadline is computed, so that `endTime` is
2^32 - 1 without overflow, and it advances by 3 ms per reading; the peer sends
no valid indicator.  The 333rd check is made 999 ms after the deadline was
computed and the 334th is made 1002 ms after it, when the 32-bit reading has
wrapped to 1, which is below `endTime`: the loop goes on, and after 400 rounds
(400 READDATA transactions) it is still polling. -/
theorem poll_outlives_budget_near_wrap :
    readByte 400 EspSpiProxy.ctor lateWorld = Run.spin (lateWorld.tick.refetched 255 400)
      ∧ (lateWorld.tick.refetched 255 400).nxfer = 13600
      ∧ lateWorld.clock 333 = lateWorld.clock 0 + 999
      ∧ lateWorld.clock 334 = lateWorld.clock 0 + 1002 :=
  ⟨late_poll_spins 400 (by decide), rfl, by decide, by decide⟩

/-- In `lateFrameWorld` the first 350 frames have a bad indicator. -/
theorem lateFrame_bad (i : Nat) (hi : i < 350) :
    badIndicator ((frameAt lateFrameWorld.miso (lateFrameWorld.nxfer + 34 * i)).getD 0 0) := by
  rw [frameAt_head]
  show badIndicator ((if 0 + 34 * i + 2 = 11902 then 0xDF
    else if 0 + 34 * i + 2 = 11903 then 0x55 else 0) % 256)
  rw [if_neg (by omega), if_neg (by omega)]
  decide

/-- In `lateFrameWorld`, `readByte` with a budget of more than 350 rounds
returns byte 1 of the frame fetched by READDATA transaction 350. -/
theorem lateFrame_fetched (fuel : Nat) (h : 350 < fuel) :
    readByte fuel EspSpiProxy.ctor lateFrameWorld
      = Run.ret ((frameAt lateFrameWorld.miso (lateFrameWorld.nxfer + 34 * 350)).getD 1 0,
          { EspSpiProxy.ctor with
            buflen := 0, buffer := frameAt lateFrameWorld.miso (lateFrameWorld.nxfer + 34 * 350),
            bufpos := 2 })
          ((lateFrameWorld.tick.refetched EspSpiProxy.ctor._ss_pin 350).after 34
            (readDataEvents EspSpiProxy.ctor._ss_pin)) :=
  readByte_fetches_valid fuel EspSpiProxy.ctor lateFrameWorld (by decide) rfl 350 h
    (fun i hi => ⟨lateFrame_bad i hi, lateWorld_before_deadline i (by omega)⟩)
    (by decide)

/-- C11, where the code departs from the claim.  The clock reads
0xFFFFFC17 = 2^32 - 1001 when the deadline is computed and advances by 3 ms
per reading, so that READDATA transaction `i` (counted from 0) is made between
`3 * i` ms and `3 * i + 3` ms after the call.  The frames of transactions 0 to
349 have the indicator 0: every frame fetched before the 1000 ms had elapsed
(transactions 0 to 333), and every frame up to 1050 ms, is bad.  The frame of
transaction 350 is tagged FINISHED with 0x55 as byte 1.  The test
`millis() < endTime` is still true at 1002 ms, when the 32-bit reading has
wrapped to 1, and at every later check, so the loop goes on past the budget:
with any budget of at least 351 rounds `readByte` returns the data byte 0x55
with the receive cursor at 2, after 351 READDATA transactions, where the claim
has the sentinel 0 with the cursor at 0. -/
theorem late_frame_returned_after_budget :
    (∃ p1 w1,
        (∀ k, readByte (351 + k) EspSpiProxy.ctor lateFrameWorld = Run.ret (0x55, p1) w1)
          ∧ p1.bufpos = 2
          ∧ p1.buffer = frameAt lateFrameWorld.miso (34 * 350)
          ∧ w1.nxfer = 34 * 351)
      ∧ EspSpiProxy.ctor.bufpos = 0
      ∧ (∀ i : Fin 350, badIndicator ((frameAt lateFrameWorld.miso (34 * i.val)).getD 0 0))
      ∧ lateFrameWorld.clock 333 = lateFrameWorld.clock 0 + 999
      ∧ lateFrameWorld.clock 334 = lateFrameWorld.clock 0 + 1002
      ∧ lateFrameWorld.clock 350 = lateFrameWorld.clock 0 + 1050 := by
  have hv : (frameAt lateFrameWorld.miso (lateFrameWorld.nxfer + 34 * 350)).getD 1 0 = 0x55 := by
    decide
  refine ⟨⟨{ EspSpiProxy.ctor with
      buflen := 0, buffer := frameAt lateFrameWorld.miso (lateFrameWorld.nxfer + 34 * 350),
      bufpos := 2 },
    (lateFrameWorld.tick.refetched EspSpiProxy.ctor._ss_pin 350).after 34
      (readDataEvents EspSpiProxy.ctor._ss_pin), fun k => ?_, rfl, rfl, rfl⟩,
    rfl, ?_, by decide, by decide, by decide⟩
  · rw [lateFrame_fetched (351 + k) (by omega), hv]
  · intro i
    have h := lateFrame_bad i.val i.isLt
    rw [show lateFrameWorld.nxfer + 34 * i.val = 34 * i.val from Nat.zero_add _] at h
    exact h

/-! ## The polling loop of `waitForSlaveTxReady` -/

/-- One round of the loop of `waitForSlaveTxReady`. -/
theorem tx_loop_succ (p : EspSpiProxy) (endTime fuel : Nat) (w : World) :
    waitForSlaveTxReady.loop p endTime (fuel + 1) w
      = if txField (statusAt w.miso w.nxfer) = 1 then
          Run.ret (txField (statusAt w.miso w.nxfer)) (w.after 5 (statusEvents p._ss_pin))
        else if (w.clock w.ticks % 2 ^ 32) &&& 0x0fffffff < endTime then
          waitForSlaveTxReady.loop p endTime fuel (w.polled p._ss_pin 1)
        else Run.ret (txField (statusAt w.miso w.nxfer)) (w.polled p._ss_pin 1) := by
  rw [waitForSlaveTxReady.loop]
  simp only [readStatus_eq, yield_eq, millis_eq, txField, SPISLAVE_TX_READY,
    World.after_clock, World.after_ticks, ← World.polled_succ w p._ss_pin 0, World.polled_zero]

theorem World.polled_shift (w : World) (pin : Nat) (j : Nat) :
    (w.polled pin 1).polled pin j = w.polled pin (j + 1) := by
  simp only [World.polled, List.replicate_succ, List.flatten_cons, List.flatten_nil,
    List.append_nil, List.append_assoc, List.replicate_zero]
  congr 1 <;> omega

/-- While the peer is not transmit-ready and the clock is inside the window,
the loop goes on. -/
theorem tx_loop_skip (p : EspSpiProxy) (endTime : Nat) (j : Nat) :
    ∀ (fuel : Nat) (w : World),
      (∀ i, i < j → txField (statusAt w.miso (w.nxfer + 5 * i)) ≠ 1
        ∧ (w.clock (w.ticks + i) % 2 ^ 32) &&& 0x0fffffff < endTime) →
      waitForSlaveTxReady.loop p endTime (j + fuel) w
        = waitForSlaveTxReady.loop p endTime fuel (w.polled p._ss_pin j) := by
  induction j with
  | zero => intro fuel w _; simp [World.polled_zero]
  | succ j ih =>
    intro fuel w h
    have h0 := h 0 (by omega)
    simp only [Nat.mul_zero, Nat.add_zero] at h0
    rw [show j + 1 + fuel = (j + fuel) + 1 by omega, tx_loop_succ, if_neg h0.1, if_pos h0.2,
      ih, World.polled_shift]
    intro i hi
    have := h (i + 1) (by omega)
    simp only [World.polled] at *
    rw [show w.nxfer + 5 * 1 + 5 * i = w.nxfer + 5 * (i + 1) by omega,
      show w.ticks + 1 + i = w.ticks + (i + 1) by omega]
    exact this

/-- What the loop of `waitForSlaveTxReady` has done when it stops or is cut. -/
theorem tx_loop_sound (p : EspSpiProxy) (endTime : Nat) (fuel : Nat) :
    ∀ (w : World),
      (∀ v w1, waitForSlaveTxReady.loop p endTime fuel w = Run.ret v w1 →
        ∃ j, j < fuel
          ∧ (∀ i, i < j → txField (statusAt w.miso (w.nxfer + 5 * i)) ≠ 1
              ∧ (w.clock (w.ticks + i) % 2 ^ 32) &&& 0x0fffffff < endTime)
          ∧ v = txField (statusAt w.miso (w.nxfer + 5 * j))
          ∧ ((v = 1 ∧ w1 = (w.polled p._ss_pin j).after 5 (statusEvents p._ss_pin))
              ∨ (v ≠ 1 ∧ ¬ (w.clock (w.ticks + j) % 2 ^ 32) &&& 0x0fffffff < endTime
                  ∧ w1 = w.polled p._ss_pin (j + 1))))
      ∧ (∀ w1, waitForSlaveTxReady.loop p endTime fuel w = Run.spin w1 →
          (∀ i, i < fuel → txField (statusAt w.miso (w.nxfer + 5 * i)) ≠ 1
              ∧ (w.clock (w.ticks + i) % 2 ^ 32) &&& 0x0fffffff < endTime)
          ∧ w1 = w.polled p._ss_pin fuel) := by
  induction fuel with
  | zero =>
    intro w
    refine ⟨?_, ?_⟩
    · intro v w1 h; simp [waitForSlaveTxReady.loop] at h
    · intro w1 h
      simp only [waitForSlaveTxReady.loop, Run.spin.injEq] at h
      exact ⟨by intro i hi; omega, by rw [← h, World.polled_zero]⟩
  | succ fuel ih =>
    intro w
    rw [tx_loop_succ]
    by_cases hr : txField (statusAt w.miso w.nxfer) = 1
    · rw [if_pos hr]
      refine ⟨?_, by intro w1 h; simp at h⟩
      intro v w1 h
      simp only [Run.ret.injEq] at h
      refine ⟨0, by omega, by intro i hi; omega, by simpa using h.1.symm, Or.inl ⟨?_, ?_⟩⟩
      · rw [← h.1]; exact hr
      · rw [World.polled_zero]; exact h.2.symm
    · rw [if_neg hr]
      by_cases hc : (w.clock w.ticks % 2 ^ 32) &&& 0x0fffffff < endTime
      · rw [if_pos hc]
        obtain ⟨ih1, ih2⟩ := ih (w.polled p._ss_pin 1)
        have shift : ∀ i, (w.polled p._ss_pin 1).nxfer + 5 * i = w.nxfer + 5 * (i + 1) := by
          intro i; simp only [World.polled]; omega
        have tshift : ∀ i, (w.polled p._ss_pin 1).ticks + i = w.ticks + (i + 1) := by
          intro i; simp only [World.polled]; omega
        have hm : (w.polled p._ss_pin 1).miso = w.miso := rfl
        have hk : (w.polled p._ss_pin 1).clock = w.clock := rfl
        have first : ∀ i, (∀ k, k < i →
            txField (statusAt w.miso (w.nxfer + 5 * (k + 1))) ≠ 1
              ∧ (w.clock (w.ticks + (k + 1)) % 2 ^ 32) &&& 0x0fffffff < endTime) →
            ∀ k, k < i + 1 → txField (statusAt w.miso (w.nxfer + 5 * k)) ≠ 1
              ∧ (w.clock (w.ticks + k) % 2 ^ 32) &&& 0x0fffffff < endTime := by
          intro i hi k hk1
          cases k with
          | zero => exact ⟨by simpa using hr, by simpa using hc⟩
          | succ k => exact hi k (by omega)
        refine ⟨?_, ?_⟩
        · intro v w1 h
          obtain ⟨j, hj, hn, hv, hw⟩ := ih1 v w1 h
          simp only [shift, tshift, hm, hk, World.polled_shift] at hn hv hw
          exact ⟨j + 1, by omega, first j hn, hv, hw⟩
        · intro w1 h
          obtain ⟨hn, hw⟩ := ih2 w1 h
          simp only [shift, tshift, hm, hk, World.polled_shift] at hn hw
          exact ⟨first fuel hn, hw⟩
      · rw [if_neg hc]
        refine ⟨?_, by intro w1 h; simp at h⟩
        intro v w1 h
        simp only [Run.ret.injEq] at h
        refine ⟨0, by omega, by intro i hi; omega, by simpa using h.1.symm,
          Or.inr ⟨?_, ?_, ?_⟩⟩
        · rw [← h.1]; exact hr
        · simpa using hc
        · exact h.2.symm

theorem waitForSlaveTxReady_eq (fuel : Nat) (p : EspSpiProxy) (w : World) :
    waitForSlaveTxReady fuel p w
      = waitForSlaveTxReady.loop p
          (((w.clock w.ticks % 2 ^ 32) &&& 0x0fffffff) + 3000) fuel w.tick := by
  have hlt : ((w.clock w.ticks % 2 ^ 32) &&& 0x0fffffff) + 3000 < 2 ^ 32 := by
    have : (w.clock w.ticks % 2 ^ 32) &&& 0x0fffffff ≤ 0x0fffffff := Nat.and_le_right
    omega
  simp only [waitForSlaveTxReady, millis_eq, SLAVE_RX_READY_TIMEOUT, Nat.mod_eq_of_lt hlt]

/-- The loop of `waitForSlaveTxReady` sees of the peer only the transmit-state
field of the status words it reads. -/
theorem tx_loop_congr (p : EspSpiProxy) (endTime : Nat) (miso2 : Nat → Nat) (fuel : Nat) :
    ∀ (w : World),
      (∀ i, txField (statusAt miso2 (w.nxfer + 5 * i))
          = txField (statusAt w.miso (w.nxfer + 5 * i))) →
      waitForSlaveTxReady.loop p endTime fuel (w.withMiso miso2)
        = (waitForSlaveTxReady.loop p endTime fuel w).mapWorld (fun x => x.withMiso miso2) := by
  induction fuel with
  | zero => intro w _; rfl
  | succ fuel ih =>
    intro w h
    have h0 := h 0
    simp only [Nat.mul_zero, Nat.add_zero] at h0
    have e0 : txField (statusAt (w.withMiso miso2).miso (w.withMiso miso2).nxfer)
        = txField (statusAt w.miso w.nxfer) := h0
    rw [tx_loop_succ, tx_loop_succ, e0]
    by_cases hr : txField (statusAt w.miso w.nxfer) = 1
    · rw [if_pos hr, if_pos hr]; rfl
    · rw [if_neg hr, if_neg hr]
      have ec : (w.withMiso miso2).clock (w.withMiso miso2).ticks = w.clock w.ticks := rfl
      rw [ec]
      by_cases hc : (w.clock w.ticks % 2 ^ 32) &&& 0x0fffffff < endTime
      · rw [if_pos hc, if_pos hc]
        have := ih (w.polled p._ss_pin 1) (by
          intro i
          have := h (i + 1)
          simp only [World.polled]
          rw [show w.nxfer + 5 * 1 + 5 * i = w.nxfer + 5 * (i + 1) by omega]
          exact this)
        rw [← this]; rfl
      · rw [if_neg hc, if_neg hc]; rfl

/-- C17. `waitForSlaveTxReady` looks at bits 27..24 of the status words and
at nothing else of them.  (1) It returns 1 at the first status word whose bits
27..24 are 1, provided the clock was inside the window at the checks before
it.  (2) Whenever it returns, no status word read before the last had bits
27..24 equal to 1, the value returned is bits 27..24 of the last status word
read, and if that value is not 1 (0 and 2 included) the return is a timeout:
the check of the clock after that word failed.  (3) With another peer whose
status words have the same bits 27..24 at every poll, whatever their other
bits, the outcome is the same: same value, same transfers, same readings of the
clock, same events.  (4) The field decoded is `(status / 2^24) mod 16`. -/
theorem tx_wait_decodes_tx_field (fuel : Nat) (p : EspSpiProxy) (w : World) :
    (∀ j, j < fuel →
      (∀ i, i < j → txField (statusAt w.miso (w.nxfer + 5 * i)) ≠ 1
        ∧ (w.clock (w.ticks + 1 + i) % 2 ^ 32) &&& 0x0fffffff
            < ((w.clock w.ticks % 2 ^ 32) &&& 0x0fffffff) + 3000) →
      txField (statusAt w.miso (w.nxfer + 5 * j)) = 1 →
      ∃ w1, waitForSlaveTxReady fuel p w = Run.ret 1 w1 ∧ w1.nxfer = w.nxfer + 5 * (j + 1))
    ∧ (∀ v w1, waitForSlaveTxReady fuel p w = Run.ret v w1 →
        ∃ j, j < fuel
          ∧ (∀ i, i < j → txField (statusAt w.miso (w.nxfer + 5 * i)) ≠ 1)
          ∧ v = txField (statusAt w.miso (w.nxfer + 5 * j))
          ∧ w1.nxfer = w.nxfer + 5 * (j + 1)
          ∧ (v ≠ 1 → ¬ (w.clock (w.ticks + 1 + j) % 2 ^ 32) &&& 0x0fffffff
              < ((w.clock w.ticks % 2 ^ 32) &&& 0x0fffffff) + 3000))
    ∧ (∀ miso2 : Nat → Nat,
        (∀ i, txField (statusAt miso2 (w.nxfer + 5 * i))
            = txField (statusAt w.miso (w.nxfer + 5 * i))) →
        waitForSlaveTxReady fuel p (w.withMiso miso2)
          = (waitForSlaveTxReady fuel p w).mapWorld (fun x => x.withMiso miso2))
    ∧ (∀ status, txField status = (status / 2 ^ 24) % 16) := by
  refine ⟨?_, ?_, ?_, ?_⟩
  · intro j hj hbefore hready
    obtain ⟨f, hf⟩ : ∃ f, fuel = j + (f + 1) := ⟨fuel - j - 1, by omega⟩
    refine ⟨(w.tick.polled p._ss_pin j).after 5 (statusEvents p._ss_pin), ?_, ?_⟩
    · rw [waitForSlaveTxReady_eq, hf, tx_loop_skip p _ j (f + 1) w.tick (by
        intro i hi
        simp only [World.tick_miso, World.tick_nxfer, World.tick_clock, World.tick_ticks]
        exact hbefore i hi)]
      have hr : txField (statusAt (w.tick.polled p._ss_pin j).miso
          (w.tick.polled p._ss_pin j).nxfer) = 1 := hready
      rw [tx_loop_succ, if_pos hr, hr]
    · simp only [World.polled, World.after, World.tick]; omega
  · intro v w1 h
    rw [waitForSlaveTxReady_eq] at h
    obtain ⟨j, hj, hn, hv, hcase⟩ := (tx_loop_sound p _ fuel w.tick).1 v w1 h
    simp only [World.tick_miso, World.tick_nxfer, World.tick_clock, World.tick_ticks]
      at hn hv hcase
    refine ⟨j, hj, fun i hi => (hn i hi).1, hv, ?_, ?_⟩
    · rcases hcase with ⟨_, hw0⟩ | ⟨_, _, hw0⟩
      · rw [hw0]; simp only [World.polled, World.after, World.tick]; omega
      · rw [hw0]; simp only [World.polled, World.tick]
    · intro hv1
      rcases hcase with ⟨hst, _⟩ | ⟨_, hc, _⟩
      · exact absurd hst hv1
      · exact hc
  · intro miso2 h
    rw [waitForSlaveTxReady_eq, waitForSlaveTxReady_eq]
    exact tx_loop_congr p _ miso2 fuel w.tick h
  · intro status
    simp only [txField, Nat.shiftRight_eq_div_pow]
    exact Nat.and_pow_two_sub_one_eq_mod _ 4

/-- A witness of C17: the first status word read is 0x01010101. -/
theorem tx_wait_decodes_tx_field_witness :
    ∃ w1, waitForSlaveTxReady 1 EspSpiProxy.ctor txReadyWorld = Run.ret 1 w1
      ∧ w1.nxfer = txReadyWorld.nxfer + 5 * (0 + 1) :=
  (tx_wait_decodes_tx_field 1 EspSpiProxy.ctor txReadyWorld).1 0 (by decide)
    (by intro i hi; omega) (by decide)

/-! ## States reached by sequences of calls -/

theorem Initial_Inv (p : EspSpiProxy) (h : p.Initial) : p.Inv :=
  ⟨h.1, by rw [h.2.1]; omega, by rw [h.2.2]; omega, Or.inl h.2.1⟩

/-- The state after lines 219-232 of `readByte`. -/
theorem fetch_post (fuel : Nat) (q : EspSpiProxy) (w : World) (v : Nat) (p1 : EspSpiProxy)
    (w1 : World) (hlen : q.buffer.length = 32) (hpos : q.bufpos ≤ 31)
    (h : readByte.fetch fuel q w = Run.ret (v, p1) w1) :
    p1.buffer.length = 32 ∧ p1.buflen = q.buflen ∧ p1.bufpos ≤ 32
      ∧ p1._ss_pin = q._ss_pin := by
  by_cases h0 : q.bufpos = 0
  · rw [readByte.fetch, if_pos h0] at h
    simp only [millis_eq] at h
    cases hp : readByte.poll ((w.clock w.ticks % 2 ^ 32 + 1000) % 2 ^ 32) fuel q w.tick with
    | spin w0 => rw [hp] at h; simp at h
    | ret p3 w3 =>
      rw [hp] at h
      dsimp only at h
      obtain ⟨j, _, _, hp3, _⟩ := (poll_sound _ fuel q w.tick hlen).1 p3 w3 hp
      by_cases hb : badIndicator (p3.buffer.getD 0 0)
      · rw [if_pos hb] at h
        simp only [Run.ret.injEq, Prod.mk.injEq] at h
        rw [← h.1.2, hp3]
        exact ⟨frameAt_length _ _, rfl, by simp only; omega, rfl⟩
      · rw [if_neg hb] at h
        simp only [readByte.next, Run.ret.injEq, Prod.mk.injEq] at h
        rw [← h.1.2, hp3]
        exact ⟨frameAt_length _ _, rfl, by norm_num, rfl⟩
  · rw [readByte.fetch, if_neg h0] at h
    simp only [readByte.next, Run.ret.injEq, Prod.mk.injEq] at h
    rw [← h.1.2]
    have hm : (q.bufpos + 1) % 256 = q.bufpos + 1 := Nat.mod_eq_of_lt (by omega)
    exact ⟨hlen, rfl, by simp only [hm]; omega, rfl⟩

/-- The state after a `readByte` that returns. -/
theorem readByte_post (fuel : Nat) (p : EspSpiProxy) (w : World) (v : Nat) (p1 : EspSpiProxy)
    (w1 : World) (hlen : p.buffer.length = 32) (hpos : p.bufpos ≤ 32)
    (h : readByte fuel p w = Run.ret (v, p1) w1) :
    p1.buffer.length = 32 ∧ p1.buflen = 0 ∧ p1.bufpos ≤ 32 ∧ p1._ss_pin = p._ss_pin := by
  by_cases h32 : 32 ≤ p.bufpos
  · rw [readByte] at h
    simp only [if_pos h32] at h
    by_cases hc : p.buffer.getD 0 0 ≠ MESSAGE_CONTINUES
    · rw [if_pos hc] at h
      simp only [Run.ret.injEq, Prod.mk.injEq] at h
      rw [← h.1.2]
      exact ⟨hlen, rfl, hpos, rfl⟩
    · rw [if_neg hc] at h
      cases hw : waitForSlaveTxReady fuel { p with buflen := 0, bufpos := 0 } w with
      | spin w0 => rw [hw] at h; simp at h
      | ret st w0 =>
        rw [hw] at h
        exact fetch_post fuel { p with buflen := 0, bufpos := 0 } w0 v p1 w1 hlen
          (by simp only; omega) h
  · rw [readByte] at h
    simp only [if_neg h32] at h
    exact fetch_post fuel { p with buflen := 0 } w v p1 w1 hlen (by simp only; omega) h

/-- Every call keeps the invariant of the cursors. -/
theorem runOp_inv (fuel : Nat) (op : Op) (p : EspSpiProxy) (w : World)
    (r : Option Nat × EspSpiProxy) (w1 : World) (hinv : p.Inv)
    (h : runOp fuel op p w = Run.ret r w1) : r.2.Inv := by
  obtain ⟨hlen, hbl, hbp, hex⟩ := hinv
  cases op with
  | writeByte b =>
    simp only [runOp] at h
    cases hw : writeByte fuel b p w with
    | spin w0 => rw [hw] at h; simp at h
    | ret p1 w0 =>
      rw [hw] at h
      simp only [Run.ret.injEq] at h
      obtain ⟨q1, q2, _, _, q5, _⟩ := writeByte_post fuel b p w p1 w0 hw
      rw [← h.1]
      exact ⟨by rw [q2, hlen], q5 hbl, by rw [q1]; omega, Or.inr q1⟩
  | flush indicator =>
    simp only [runOp] at h
    cases hw : flush fuel indicator p w with
    | spin w0 => rw [hw] at h; simp at h
    | ret p1 w0 =>
      rw [hw] at h
      simp only [Run.ret.injEq] at h
      obtain ⟨q1, q2, q3, _⟩ := flush_post fuel indicator p w p1 w0 hw
      rw [← h.1]
      exact ⟨by rw [q3, hlen], by rw [q1]; omega, by rw [q2]; exact hbp, Or.inl q1⟩
  | readByte =>
    simp only [runOp] at h
    cases hw : readByte fuel p w with
    | spin w0 => rw [hw] at h; simp at h
    | ret r0 w0 =>
      rw [hw] at h
      simp only [Run.ret.injEq] at h
      obtain ⟨q1, q2, q3, _⟩ := readByte_post fuel p w r0.1 r0.2 w0 hlen hbp hw
      rw [← h.1]
      exact ⟨q1, by rw [q2]; omega, q3, Or.inl q2⟩

/-- Every state reached from a state with the invariant has the invariant. -/
theorem runCalls_inv (calls : List (Nat × Op)) :
    ∀ (p : EspSpiProxy) (w : World) (vs : List Nat) (p1 : EspSpiProxy) (w1 : World),
      p.Inv → runCalls calls p w = Run.ret (vs, p1) w1 → p1.Inv := by
  induction calls with
  | nil =>
    intro p w vs p1 w1 hinv h
    simp only [runCalls, Run.ret.injEq, Prod.mk.injEq] at h
    rw [← h.1.2]; exact hinv
  | cons c rest ih =>
    intro p w vs p1 w1 hinv h
    simp only [runCalls] at h
    cases hc : runOp c.1 c.2 p w with
    | spin w0 => rw [hc] at h; simp at h
    | ret r w0 =>
      rw [hc] at h
      dsimp only at h
      cases hr : runCalls rest r.2 w0 with
      | spin w2 => rw [hr] at h; simp at h
      | ret rs w2 =>
        rw [hr] at h
        simp only [Run.ret.injEq, Prod.mk.injEq] at h
        have := ih r.2 w0 rs.1 rs.2 w2 (runOp_inv c.1 c.2 p w r w0 hinv hc) hr
        rw [← h.1.2]; exact this

/-- C13. In every state reached from an initial state (both cursors 0) by a
sequence of calls of `writeByte`, `flush` and `readByte`, whatever the peer and
the clock, the transmit cursor is at most 31 and the receive cursor is at most
32.  In a state whose transmit cursor is 31, a `writeByte` that returns has
first made `flush(MESSAGE_CONTINUES)` and then stored its byte, which leaves the
cursor at 1; and it returns whenever the wait of that flush returns. -/
theorem cursors_stay_in_range (calls : List (Nat × Op)) (p0 : EspSpiProxy) (w0 : World)
    (vs : List Nat) (p : EspSpiProxy) (w : World) (h0 : p0.Initial)
    (h : runCalls calls p0 w0 = Run.ret (vs, p) w) :
    p.buflen ≤ 31 ∧ p.bufpos ≤ 32
      ∧ (p.buflen = 31 → ∀ (fuel b : Nat) (w2 : World),
          (∀ p1 w1, writeByte fuel b p w2 = Run.ret p1 w1 →
            p1.buflen = 1
              ∧ ∃ p2, flush fuel MESSAGE_CONTINUES { p with bufpos := 0 } w2 = Run.ret p2 w1
                  ∧ p1 = writeByte.store b p2)
          ∧ (∀ st w3, waitForSlaveRxReady fuel p w2 = Run.ret st w3 →
              ∃ p1 w1, writeByte fuel b p w2 = Run.ret p1 w1 ∧ p1.buflen = 1)) := by
  obtain ⟨_, hbl, hbp, _⟩ := runCalls_inv calls p0 w0 vs p w (Initial_Inv p0 h0) h
  refine ⟨hbl, hbp, ?_⟩
  intro h31 fuel b w2
  refine ⟨?_, ?_⟩
  · intro p1 w1 hw
    refine ⟨(writeByte_post fuel b p w2 p1 w1 hw).2.2.2.2.2 (by omega), ?_⟩
    simp only [writeByte, if_pos (by omega : 31 ≤ p.buflen)] at hw
    cases hf : flush fuel MESSAGE_CONTINUES { p with bufpos := 0 } w2 with
    | spin w3 => rw [hf] at hw; simp at hw
    | ret p2 w3 =>
      rw [hf] at hw
      simp only [Run.ret.injEq] at hw
      exact ⟨p2, by rw [hw.2], hw.1.symm⟩
  · intro st w3 hwait
    have hne : ({ p with bufpos := 0 } : EspSpiProxy).buflen ≠ 0 := by simp only; omega
    have hfl := flush_cases fuel MESSAGE_CONTINUES { p with bufpos := 0 } w2 hne
    rw [rx_wait_pin fuel p { p with bufpos := 0 } w2 rfl, hwait] at hfl
    simp only [writeByte, if_pos (by omega : 31 ≤ p.buflen), hfl]
    exact ⟨_, _, rfl, rfl⟩

/-- A witness of C13: the state after one `writeByte` on a fresh proxy. -/
theorem cursors_stay_in_range_witness : loadedProxy.buflen ≤ 31 ∧ loadedProxy.bufpos ≤ 32 :=
  have h := cursors_stay_in_range [(1, Op.writeByte 0x41)] EspSpiProxy.ctor readyWorld []
    loadedProxy readyWorld (by decide) rfl
  ⟨h.1, h.2.1⟩

/-- C18. In every state reached from an initial state (both cursors 0) by a
sequence of calls of `writeByte`, `flush` and `readByte`, whatever the peer and
the clock, the transmit cursor is 0 or the receive cursor is 0. -/
theorem one_direction_at_a_time (calls : List (Nat × Op)) (p0 : EspSpiProxy) (w0 : World)
    (vs : List Nat) (p : EspSpiProxy) (w : World) (h0 : p0.Initial)
    (h : runCalls calls p0 w0 = Run.ret (vs, p) w) :
    p.buflen = 0 ∨ p.bufpos = 0 :=
  (runCalls_inv calls p0 w0 vs p w (Initial_Inv p0 h0) h).2.2.2

/-- A witness of C18: a `writeByte` and then a `readByte` that polls once in vain. -/
theorem one_direction_at_a_time_witness :
    ∃ p w, runCalls [(1, Op.writeByte 0x41), (1, Op.readByte)] EspSpiProxy.ctor busyWorld
        = Run.ret ([0], p) w
      ∧ (p.buflen = 0 ∨ p.bufpos = 0) :=
  ⟨_, _, rfl, one_direction_at_a_time [(1, Op.writeByte 0x41), (1, Op.readByte)]
    EspSpiProxy.ctor busyWorld [0] _ _ (by decide) rfl⟩

/-! ## Bounds of the indexes -/

theorem flush_indexes_lt (fuel : Nat) (p : EspSpiProxy) (w : World) :
    ∀ i ∈ flush.indexes fuel p w, i < 32 := by
  intro i hi
  simp only [flush.indexes] at hi
  split at hi
  · simp at hi
  · split at hi
    · simp only [List.mem_singleton] at hi; omega
    · split at hi
      · simp only [writeData.indexes, List.mem_cons, List.mem_range] at hi
        omega
      · simp only [List.mem_singleton] at hi; omega

theorem writeByte_indexes_lt (fuel : Nat) (p : EspSpiProxy) (w : World) :
    ∀ i ∈ writeByte.indexes fuel p w, i < 32 := by
  intro i hi
  simp only [writeByte.indexes] at hi
  split at hi
  · rw [List.mem_append] at hi
    rcases hi with hi | hi
    · exact flush_indexes_lt fuel _ w i hi
    · cases hf : flush fuel MESSAGE_CONTINUES { p with bufpos := 0 } w with
      | spin w1 => rw [hf] at hi; simp at hi
      | ret p2 w1 =>
        rw [hf] at hi
        simp only [List.mem_singleton] at hi
        rw [hi, (flush_post _ _ _ _ _ _ hf).1]
        norm_num
  · rename_i hlt
    simp only [List.mem_singleton] at hi
    rw [hi]
    have : p.buflen + 1 < 32 := by omega
    rw [Nat.mod_eq_of_lt (by omega)]
    exact this

theorem poll_indexes_lt (endTime : Nat) (fuel : Nat) :
    ∀ (p : EspSpiProxy) (w : World), ∀ i ∈ readByte.poll.indexes endTime fuel p w, i < 32 := by
  induction fuel with
  | zero => intro p w i hi; simp [readByte.poll.indexes] at hi
  | succ fuel ih =>
    intro p w i hi
    rw [readByte.poll.indexes] at hi
    generalize readData p p.buffer w = r at hi
    rw [List.mem_append, List.mem_cons] at hi
    rcases hi with hi | hi | hi
    · rw [readData.indexes, List.mem_range] at hi
      exact hi
    · omega
    · split at hi
      · dsimp only at hi
        split at hi
        · exact ih _ _ i hi
        · exact absurd hi (List.not_mem_nil i)
      · exact absurd hi (List.not_mem_nil i)

theorem fetch_indexes_lt (fuel : Nat) (p : EspSpiProxy) (w : World) (hpos : p.bufpos < 32) :
    ∀ i ∈ readByte.fetch.indexes fuel p w, i < 32 := by
  intro i hi
  simp only [readByte.fetch.indexes] at hi
  split at hi
  · rw [List.mem_append] at hi
    rcases hi with hi | hi
    · exact poll_indexes_lt _ _ _ _ i hi
    · split at hi
      · simp at hi
      · simp only [List.mem_cons] at hi
        rcases hi with hi | hi
        · omega
        · split at hi
          · simp at hi
          · simp only [List.mem_singleton] at hi; omega
  · simp only [List.mem_singleton] at hi
    omega

theorem readByte_indexes_lt (fuel : Nat) (p : EspSpiProxy) (w : World) :
    ∀ i ∈ readByte.indexes fuel p w, i < 32 := by
  intro i hi
  simp only [readByte.indexes] at hi
  split at hi
  · simp only [List.mem_cons] at hi
    rcases hi with hi | hi
    · omega
    · split at hi
      · simp at hi
      · split at hi
        · simp at hi
        · exact fetch_indexes_lt fuel _ _ (by simp only; omega) i hi
  · rename_i hlt
    exact fetch_indexes_lt fuel _ _ (by simp only; omega) i hi

/-- C20. In every state reached from an initial state (both cursors 0) by a
sequence of calls of `writeByte`, `flush` and `readByte`, whatever the peer and
the clock, the array has 32 elements and every index that the next call uses
on it is below 32, whichever of the three methods is called and in whatever
world: the index of `buffer[++buflen]` and those of the flush in `writeByte`,
`buffer[0]` and the indexes read by `writeData(buffer, buflen+1)` in `flush`,
which are exactly `0 .. buflen`, and in `readByte` the indexes written by
`readData`, `buffer[0]` and the index of `buffer[bufpos++]`. -/
theorem buffer_indexes_in_bounds (calls : List (Nat × Op)) (p0 : EspSpiProxy) (w0 : World)
    (vs : List Nat) (p : EspSpiProxy) (w : World) (h0 : p0.Initial)
    (h : runCalls calls p0 w0 = Run.ret (vs, p) w) :
    p.buffer.length = 32
      ∧ writeData.indexes (p.buflen + 1) = List.range (p.buflen + 1)
      ∧ ∀ (fuel : Nat) (w2 : World),
          (∀ i ∈ writeByte.indexes fuel p w2, i < 32)
            ∧ (∀ i ∈ flush.indexes fuel p w2, i < 32)
            ∧ (∀ i ∈ readByte.indexes fuel p w2, i < 32) := by
  obtain ⟨hlen, hbl, _, _⟩ := runCalls_inv calls p0 w0 vs p w (Initial_Inv p0 h0) h
  refine ⟨hlen, ?_, fun fuel w2 => ⟨writeByte_indexes_lt fuel p w2, flush_indexes_lt fuel p w2,
    readByte_indexes_lt fuel p w2⟩⟩
  rw [writeData.indexes, Nat.min_eq_left (by omega)]

/-- A witness of C20: the state after one `writeByte` on a fresh proxy; the
flush that follows uses the indexes 0 and 0, 1. -/
theorem buffer_indexes_in_bounds_witness :
    flush.indexes 1 loadedProxy readyWorld = [0, 0, 1]
      ∧ ∀ i ∈ flush.indexes 1 loadedProxy readyWorld, i < 32 :=
  ⟨by decide,
    ((buffer_indexes_in_bounds [(1, Op.writeByte 0x41)] EspSpiProxy.ctor readyWorld []
      loadedProxy readyWorld (by decide) rfl).2.2 1 readyWorld).2.1⟩

/-! ## The shared array against the two buffers -/

/-- The wait for the transmitter uses the pin of the object and nothing else of it. -/
theorem tx_wait_pin (fuel : Nat) (p q : EspSpiProxy) (w : World) (hq : q._ss_pin = p._ss_pin) :
    waitForSlaveTxReady fuel q w = waitForSlaveTxReady fuel p w := by
  simp only [waitForSlaveTxReady]
  generalize ((millis w).1 &&& 0x0fffffff) + SLAVE_RX_READY_TIMEOUT = e
  generalize (millis w).2 = w0
  induction fuel generalizing w0 with
  | zero => rfl
  | succ fuel ih => simp only [waitForSlaveTxReady.loop, readStatus_eq, hq, ih]

theorem getD_set_self (l : List Nat) (i x : Nat) (h : i < l.length) :
    (l.set i x).getD i 0 = x := by
  simp [List.getD_eq_getElem?_getD, List.getElem?_set, h]

theorem getD_set_other (l : List Nat) (i j x : Nat) (h : i ≠ j) :
    (l.set i x).getD j 0 = l.getD j 0 := by
  simp [List.getD_eq_getElem?_getD, List.getElem?_set, h]

/-- `flush` on states that agree. -/
theorem sim_flush (fuel indicator : Nat) (p : EspSpiProxy) (q : SplitProxy) (w : World)
    (hs : Sim p q) :
    (∀ w1, flush fuel indicator p w = Run.spin w1 →
        SplitProxy.flush fuel indicator q w = Run.spin w1)
      ∧ (∀ p1 w1, flush fuel indicator p w = Run.ret p1 w1 →
          ∃ q1, SplitProxy.flush fuel indicator q w = Run.ret q1 w1 ∧ Sim p1 q1) := by
  obtain ⟨spin, slen, spos, hl, htx, hrx, h31, hex, hdata, hframe⟩ := hs
  by_cases h0 : p.buflen = 0
  · have hq0 : q.buflen = 0 := by rw [slen, h0]
    rw [flush, if_pos h0, SplitProxy.flush, if_pos hq0]
    refine ⟨by intro w1 h; simp at h, ?_⟩
    intro p1 w1 h
    simp only [Run.ret.injEq] at h
    rw [← h.1, ← h.2]
    exact ⟨q, rfl, spin, slen, spos, hl, htx, hrx, h31, hex, hdata, hframe⟩
  · have hq0 : ¬ q.buflen = 0 := by rw [slen]; exact h0
    have hpos : p.bufpos = 0 := by
      rcases hex with h | h
      · exact absurd h h0
      · exact h
    have hwd : ∀ w1, writeData
          ({ q with txbuf := q.txbuf.set 0 (indicator % 256) } : SplitProxy).link
          (q.txbuf.set 0 (indicator % 256)) (q.buflen + 1) w1
        = writeData p (p.buffer.set 0 (indicator % 256)) (p.buflen + 1) w1 := by
      intro w1
      rw [writeData_eq, writeData_eq]
      simp only [SplitProxy.link, spin, slen]
      congr 3
      apply List.map_congr_left
      intro j hj
      rw [List.mem_range] at hj
      by_cases hj0 : j = 0
      · subst hj0
        rw [getD_set_self _ _ _ (by omega), getD_set_self _ _ _ (by omega)]
      · rw [getD_set_other _ _ _ _ (Ne.symm hj0), getD_set_other _ _ _ _ (Ne.symm hj0),
          hdata j (by omega) (by omega)]
    rw [flush_cases fuel indicator p w h0, SplitProxy.flush, if_neg hq0]
    dsimp only
    rw [rx_wait_pin fuel p ({ q with txbuf := q.txbuf.set 0 (indicator % 256) } : SplitProxy).link
      w spin]
    cases hw : waitForSlaveRxReady fuel p w with
    | spin w0 =>
      refine ⟨?_, by intro p1 w1 h; simp at h⟩
      intro w1 h
      simp only [Run.spin.injEq] at h
      rw [h]
    | ret st w0 =>
      refine ⟨by intro w1 h; simp at h, ?_⟩
      intro p1 w1 h
      simp only [Run.ret.injEq] at h
      refine ⟨{ q with txbuf := q.txbuf.set 0 (indicator % 256), buflen := 0 }, ?_, ?_⟩
      · dsimp only
        rw [hwd w0, ← h.2]
      · rw [← h.1]
        refine ⟨spin, rfl, spos, by simp [hl], by simp [htx], hrx, by norm_num, Or.inl rfl,
          ?_, ?_⟩
        · intro i h1 h2
          simp only at h2
          omega
        · intro hne
          exact absurd hpos hne

/-- The store of `writeByte` on states that agree. -/
theorem sim_store (b : Nat) (p : EspSpiProxy) (q : SplitProxy) (hs : Sim p q)
    (hlt : p.buflen < 31) (hpos : p.bufpos = 0) :
    Sim (writeByte.store b p) (SplitProxy.store b q) := by
  obtain ⟨spin, slen, spos, hl, htx, hrx, _, _, hdata, _⟩ := hs
  have hm : (p.buflen + 1) % 256 = p.buflen + 1 := Nat.mod_eq_of_lt (by omega)
  have hmq : (q.buflen + 1) % 256 = p.buflen + 1 := by rw [slen, hm]
  simp only [writeByte.store, SplitProxy.store, hm, hmq]
  refine ⟨spin, rfl, spos, by simp [hl], by simp [htx], hrx, by simp only; omega,
    Or.inr hpos, ?_, ?_⟩
  · intro i h1 h2
    simp only at h2 ⊢
    by_cases hi : i = p.buflen + 1
    · subst hi
      rw [getD_set_self _ _ _ (by omega), getD_set_self _ _ _ (by omega)]
    · rw [getD_set_other _ _ _ _ (Ne.symm hi), getD_set_other _ _ _ _ (Ne.symm hi)]
      exact hdata i h1 (by omega)
  · intro hne
    exact absurd hpos hne

/-- `writeByte` on states that agree. -/
theorem sim_writeByte (fuel b : Nat) (p : EspSpiProxy) (q : SplitProxy) (w : World)
    (hs : Sim p q) :
    (∀ w1, writeByte fuel b p w = Run.spin w1 → SplitProxy.writeByte fuel b q w = Run.spin w1)
      ∧ (∀ p1 w1, writeByte fuel b p w = Run.ret p1 w1 →
          ∃ q1, SplitProxy.writeByte fuel b q w = Run.ret q1 w1 ∧ Sim p1 q1) := by
  have hs0 : Sim { p with bufpos := 0 } { q with bufpos := 0 } := by
    obtain ⟨spin, slen, _, hl, htx, hrx, h31, _, hdata, _⟩ := hs
    exact ⟨spin, slen, rfl, hl, htx, hrx, h31, Or.inr rfl, hdata, fun hne => absurd rfl hne⟩
  have hlen : q.buflen = p.buflen := hs.2.1
  by_cases hf : 31 ≤ p.buflen
  · have hfq : 31 ≤ q.buflen := by rw [hlen]; exact hf
    obtain ⟨f1, f2⟩ := sim_flush fuel MESSAGE_CONTINUES _ _ w hs0
    simp only [writeByte, SplitProxy.writeByte, if_pos hf, if_pos hfq]
    cases hfl : flush fuel MESSAGE_CONTINUES { p with bufpos := 0 } w with
    | spin w0 =>
      rw [f1 w0 hfl]
      refine ⟨?_, by intro p1 w1 h; simp at h⟩
      intro w1 h
      simp only [Run.spin.injEq] at h
      rw [h]
    | ret p2 w0 =>
      obtain ⟨q2, e2, s2⟩ := f2 p2 w0 hfl
      obtain ⟨g1, g2, _, _⟩ := flush_post _ _ _ _ _ _ hfl
      rw [e2]
      refine ⟨by intro w1 h; simp at h, ?_⟩
      intro p1 w1 h
      simp only [Run.ret.injEq] at h
      rw [← h.1, ← h.2]
      exact ⟨_, rfl, sim_store b p2 q2 s2 (by rw [g1]; norm_num) (by rw [g2])⟩
  · have hfq : ¬ 31 ≤ q.buflen := by rw [hlen]; exact hf
    simp only [writeByte, SplitProxy.writeByte, if_neg hf, if_neg hfq]
    refine ⟨by intro w1 h; simp at h, ?_⟩
    intro p1 w1 h
    simp only [Run.ret.injEq] at h
    rw [← h.1, ← h.2]
    exact ⟨_, rfl, sim_store b _ _ hs0 (by simp only; omega) rfl⟩

/-- One round of the loop of `readByte` over the receive array. -/
theorem split_poll_succ (endTime fuel : Nat) (q : SplitProxy) (w : World)
    (hlen : q.rxbuf.length = 32) :
    SplitProxy.poll endTime (fuel + 1) q w
      = if badIndicator ((frameAt w.miso w.nxfer).getD 0 0) then
          if w.clock w.ticks % 2 ^ 32 < endTime then
            SplitProxy.poll endTime fuel { q with rxbuf := frameAt w.miso w.nxfer }
              (w.refetched q._ss_pin 1)
          else Run.ret { q with rxbuf := frameAt w.miso w.nxfer } (w.refetched q._ss_pin 1)
        else Run.ret { q with rxbuf := frameAt w.miso w.nxfer }
          (w.after 34 (readDataEvents q._ss_pin)) := by
  rw [SplitProxy.poll, readData_eq q.link q.rxbuf w hlen, ← World.refetched_one]
  rfl

/-- The loop of `readByte` on the shared array and on the receive array. -/
theorem sim_poll (endTime : Nat) (fuel : Nat) :
    ∀ (p : EspSpiProxy) (q : SplitProxy) (w : World), q._ss_pin = p._ss_pin →
      p.buffer.length = 32 → q.rxbuf.length = 32 →
      (∀ w1, readByte.poll endTime fuel p w = Run.spin w1 →
          SplitProxy.poll endTime fuel q w = Run.spin w1)
        ∧ (∀ p1 w1, readByte.poll endTime fuel p w = Run.ret p1 w1 →
            SplitProxy.poll endTime fuel q w = Run.ret { q with rxbuf := p1.buffer } w1
              ∧ p1 = { p with buffer := p1.buffer } ∧ p1.buffer.length = 32) := by
  induction fuel with
  | zero =>
    intro p q w _ _ _
    refine ⟨?_, by intro p1 w1 h; simp [readByte.poll] at h⟩
    intro w1 h
    simp only [readByte.poll, Run.spin.injEq] at h
    rw [SplitProxy.poll, h]
  | succ fuel ih =>
    intro p q w hpin hl hr
    obtain ⟨qpin, qtx, qrx, qlen, qpos⟩ := q
    simp only at hpin hr
    subst hpin
    rw [poll_succ endTime fuel p w hl, split_poll_succ endTime fuel _ w hr]
    by_cases hb : badIndicator ((frameAt w.miso w.nxfer).getD 0 0)
    · rw [if_pos hb, if_pos hb]
      by_cases hc : w.clock w.ticks % 2 ^ 32 < endTime
      · rw [if_pos hc, if_pos hc]
        obtain ⟨i1, i2⟩ := ih { p with buffer := frameAt w.miso w.nxfer }
          { _ss_pin := p._ss_pin, txbuf := qtx, rxbuf := frameAt w.miso w.nxfer, buflen := qlen, bufpos := qpos }
          (w.refetched p._ss_pin 1) rfl
          (frameAt_length _ _) (frameAt_length _ _)
        refine ⟨i1, ?_⟩
        intro p1 w1 h
        obtain ⟨j1, j2, j3⟩ := i2 p1 w1 h
        refine ⟨j1, ?_, j3⟩
        rw [j2]
      · rw [if_neg hc, if_neg hc]
        refine ⟨by intro w1 h; simp at h, ?_⟩
        intro p1 w1 h
        simp only [Run.ret.injEq] at h
        rw [← h.1, ← h.2]
        exact ⟨rfl, rfl, frameAt_length _ _⟩
    · rw [if_neg hb, if_neg hb]
      refine ⟨by intro w1 h; simp at h, ?_⟩
      intro p1 w1 h
      simp only [Run.ret.injEq] at h
      rw [← h.1, ← h.2]
      exact ⟨rfl, rfl, frameAt_length _ _⟩

/-- Lines 219-232 of `readByte` on the shared array and on the receive array. -/
theorem sim_fetch (fuel : Nat) (p : EspSpiProxy) (q : SplitProxy) (w : World)
    (hpin : q._ss_pin = p._ss_pin) (hlen : q.buflen = p.buflen) (hpos : q.bufpos = p.bufpos)
    (h0 : p.buflen = 0) (h31 : p.bufpos ≤ 31) (hl : p.buffer.length = 32)
    (htx : q.txbuf.length = 32) (hrx : q.rxbuf.length = 32)
    (hframe : p.bufpos ≠ 0 → q.rxbuf = p.buffer) :
    (∀ w1, readByte.fetch fuel p w = Run.spin w1 → SplitProxy.fetch fuel q w = Run.spin w1)
      ∧ (∀ v p1 w1, readByte.fetch fuel p w = Run.ret (v, p1) w1 →
          ∃ q1, SplitProxy.fetch fuel q w = Run.ret (v, q1) w1 ∧ Sim p1 q1) := by
  obtain ⟨pin, buf, plen, ppos⟩ := p
  obtain ⟨qpin, tx, rx, qlen, qpos⟩ := q
  simp only at hpin hlen hpos h0 h31 hl htx hrx hframe
  subst hpin hlen hpos h0
  by_cases hz : qpos = 0
  · subst hz
    rw [readByte.fetch, if_pos rfl, SplitProxy.fetch, if_pos rfl]
    simp only [millis_eq]
    obtain ⟨s1, s2⟩ := sim_poll ((w.clock w.ticks % 2 ^ 32 + 1000) % 2 ^ 32) fuel
      { _ss_pin := qpin, buffer := buf, buflen := 0, bufpos := 0 }
      { _ss_pin := qpin, txbuf := tx, rxbuf := rx, buflen := 0, bufpos := 0 } w.tick rfl hl hrx
    cases hp : readByte.poll ((w.clock w.ticks % 2 ^ 32 + 1000) % 2 ^ 32) fuel
        { _ss_pin := qpin, buffer := buf, buflen := 0, bufpos := 0 } w.tick with
    | spin w0 =>
      rw [s1 w0 hp]
      refine ⟨?_, by intro v p1 w1 h; simp at h⟩
      intro w1 h
      simp only [Run.spin.injEq] at h
      rw [h]
    | ret p3 w3 =>
      obtain ⟨e1, e2, e3⟩ := s2 p3 w3 hp
      rw [e1]
      refine ⟨?_, ?_⟩
      · intro w1 h
        dsimp only at h
        split at h <;> exact Run.noConfusion h
      intro v p1 w1 h
      dsimp only at h ⊢
      by_cases hb : p3.buffer.getD 0 0 ≠ MESSAGE_FINISHED ∧ p3.buffer.getD 0 0 ≠ MESSAGE_CONTINUES
      · rw [if_pos hb] at h
        rw [if_pos hb]
        simp only [Run.ret.injEq, Prod.mk.injEq] at h
        rw [← h.1.1, ← h.1.2, ← h.2]
        refine ⟨_, rfl, ?_⟩
        rw [e2]
        exact ⟨rfl, rfl, rfl, e3, htx, e3, by norm_num, Or.inl rfl,
          fun i h1 h2 => by simp only at h2; omega, fun hne => absurd rfl hne⟩
      · rw [if_neg hb] at h
        rw [if_neg hb]
        simp only [readByte.next, Run.ret.injEq, Prod.mk.injEq] at h
        rw [← h.1.1, ← h.1.2, ← h.2]
        refine ⟨_, rfl, ?_⟩
        rw [e2]
        exact ⟨rfl, rfl, rfl, e3, htx, e3, by norm_num, Or.inl rfl,
          fun i h1 h2 => by simp only at h2; omega, fun _ => rfl⟩
  · have hrb : rx = buf := hframe hz
    subst hrb
    rw [readByte.fetch, if_neg hz, SplitProxy.fetch, if_neg hz]
    refine ⟨by intro w1 h; simp at h, ?_⟩
    intro v p1 w1 h
    simp only [readByte.next, Run.ret.injEq, Prod.mk.injEq] at h
    rw [← h.1.1, ← h.1.2, ← h.2]
    refine ⟨_, rfl, ?_⟩
    exact ⟨rfl, rfl, rfl, hl, htx, hl, by norm_num, Or.inl rfl,
      fun i h1 h2 => by simp only at h2; omega, fun _ => rfl⟩

/-- `readByte` on states that agree. -/
theorem sim_readByte (fuel : Nat) (p : EspSpiProxy) (q : SplitProxy) (w : World)
    (hs : Sim p q) (h32 : p.bufpos ≤ 32) :
    (∀ w1, readByte fuel p w = Run.spin w1 → SplitProxy.readByte fuel q w = Run.spin w1)
      ∧ (∀ v p1 w1, readByte fuel p w = Run.ret (v, p1) w1 →
          ∃ q1, SplitProxy.readByte fuel q w = Run.ret (v, q1) w1 ∧ Sim p1 q1) := by
  obtain ⟨spin, slen, spos, hl, htx, hrx, _, _, _, hframe⟩ := hs
  obtain ⟨pin, buf, plen, ppos⟩ := p
  obtain ⟨qpin, tx, rx, qlen, qpos⟩ := q
  simp only at spin slen spos hl htx hrx hframe h32
  subst spin slen spos
  by_cases hend : 32 ≤ qpos
  · have hrb : rx = buf := hframe (by omega)
    subst hrb
    rw [readByte, SplitProxy.readByte]
    simp only [if_pos hend]
    by_cases hc : rx.getD 0 0 ≠ MESSAGE_CONTINUES
    · rw [if_pos hc, if_pos hc]
      refine ⟨by intro w1 h; simp at h, ?_⟩
      intro v p1 w1 h
      simp only [Run.ret.injEq, Prod.mk.injEq] at h
      rw [← h.1.1, ← h.1.2, ← h.2]
      refine ⟨_, rfl, ?_⟩
      exact ⟨rfl, rfl, rfl, hl, htx, hl, by norm_num, Or.inl rfl,
        fun i h1 h2 => by simp only at h2; omega, fun _ => rfl⟩
    · rw [if_neg hc, if_neg hc]
      have hwt : waitForSlaveTxReady fuel
            ({ _ss_pin := qpin, txbuf := tx, rxbuf := rx, buflen := 0, bufpos := 0 }
              : SplitProxy).link w
          = waitForSlaveTxReady fuel
              { _ss_pin := qpin, buffer := rx, buflen := 0, bufpos := 0 } w :=
        tx_wait_pin fuel _ _ w rfl
      rw [hwt]
      cases hw : waitForSlaveTxReady fuel
          { _ss_pin := qpin, buffer := rx, buflen := 0, bufpos := 0 } w with
      | spin w0 =>
        refine ⟨?_, by intro v p1 w1 h; simp at h⟩
        intro w1 h
        simp only [Run.spin.injEq] at h
        rw [h]
      | ret st w0 =>
        exact sim_fetch fuel { _ss_pin := qpin, buffer := rx, buflen := 0, bufpos := 0 }
          { _ss_pin := qpin, txbuf := tx, rxbuf := rx, buflen := 0, bufpos := 0 } w0
          rfl rfl rfl rfl (by simp only; omega) hl htx hl (fun _ => rfl)
  · rw [readByte, SplitProxy.readByte]
    simp only [if_neg hend]
    exact sim_fetch fuel { _ss_pin := qpin, buffer := buf, buflen := 0, bufpos := qpos }
      { _ss_pin := qpin, txbuf := tx, rxbuf := rx, buflen := 0, bufpos := qpos } w
      rfl rfl rfl rfl (by simp only; omega) hl htx hrx hframe

/-- One call on states that agree. -/
theorem sim_runOp (fuel : Nat) (op : Op) (p : EspSpiProxy) (q : SplitProxy) (w : World)
    (hs : Sim p q) (h32 : p.bufpos ≤ 32) :
    (∀ w1, runOp fuel op p w = Run.spin w1 → SplitProxy.runOp fuel op q w = Run.spin w1)
      ∧ (∀ r w1, runOp fuel op p w = Run.ret r w1 →
          ∃ q1, SplitProxy.runOp fuel op q w = Run.ret (r.1, q1) w1 ∧ Sim r.2 q1) := by
  cases op with
  | writeByte b =>
    obtain ⟨a1, a2⟩ := sim_writeByte fuel b p q w hs
    simp only [runOp, SplitProxy.runOp]
    cases hw : writeByte fuel b p w with
    | spin w0 =>
      rw [a1 w0 hw]
      exact ⟨fun w1 h => by simp only [Run.spin.injEq] at h; rw [h],
        fun r w1 h => by simp at h⟩
    | ret p1 w0 =>
      obtain ⟨q1, e1, s1⟩ := a2 p1 w0 hw
      rw [e1]
      refine ⟨fun w1 h => by simp at h, ?_⟩
      intro r w1 h
      simp only [Run.ret.injEq] at h
      rw [← h.1, ← h.2]
      exact ⟨q1, rfl, s1⟩
  | flush indicator =>
    obtain ⟨a1, a2⟩ := sim_flush fuel indicator p q w hs
    simp only [runOp, SplitProxy.runOp]
    cases hw : flush fuel indicator p w with
    | spin w0 =>
      rw [a1 w0 hw]
      exact ⟨fun w1 h => by simp only [Run.spin.injEq] at h; rw [h],
        fun r w1 h => by simp at h⟩
    | ret p1 w0 =>
      obtain ⟨q1, e1, s1⟩ := a2 p1 w0 hw
      rw [e1]
      refine ⟨fun w1 h => by simp at h, ?_⟩
      intro r w1 h
      simp only [Run.ret.injEq] at h
      rw [← h.1, ← h.2]
      exact ⟨q1, rfl, s1⟩
  | readByte =>
    obtain ⟨a1, a2⟩ := sim_readByte fuel p q w hs h32
    simp only [runOp, SplitProxy.runOp]
    cases hw : readByte fuel p w with
    | spin w0 =>
      rw [a1 w0 hw]
      exact ⟨fun w1 h => by simp only [Run.spin.injEq] at h; rw [h],
        fun r w1 h => by simp at h⟩
    | ret r0 w0 =>
      obtain ⟨q1, e1, s1⟩ := a2 r0.1 r0.2 w0 hw
      rw [e1]
      refine ⟨fun w1 h => by simp at h, ?_⟩
      intro r w1 h
      simp only [Run.ret.injEq] at h
      rw [← h.1, ← h.2]
      exact ⟨q1, rfl, s1⟩

/-- A sequence of calls on states that agree shows the same. -/
theorem sim_runCalls (calls : List (Nat × Op)) :
    ∀ (p : EspSpiProxy) (q : SplitProxy) (w : World), Sim p q → p.bufpos ≤ 32 →
      (runCalls calls p w).observe = (SplitProxy.runCalls calls q w).observe := by
  induction calls with
  | nil => intro p q w _ _; rfl
  | cons c rest ih =>
    intro p q w hs h32
    obtain ⟨a1, a2⟩ := sim_runOp c.1 c.2 p q w hs h32
    have hinv : p.Inv := ⟨hs.2.2.2.1, hs.2.2.2.2.2.2.1, h32, hs.2.2.2.2.2.2.2.1⟩
    simp only [runCalls, SplitProxy.runCalls]
    cases hc : runOp c.1 c.2 p w with
    | spin w0 => rw [a1 w0 hc]; rfl
    | ret r w0 =>
      obtain ⟨q1, e1, s1⟩ := a2 r w0 hc
      have h32r : r.2.bufpos ≤ 32 := (runOp_inv c.1 c.2 p w r w0 hinv hc).2.2.1
      have := ih r.2 q1 w0 s1 h32r
      rw [e1]
      dsimp only
      cases hr : runCalls rest r.2 w0 with
      | spin w2 =>
        rw [hr] at this
        cases hr2 : SplitProxy.runCalls rest q1 w0 with
        | spin w3 => rw [hr2] at this; exact this
        | ret rs2 w3 => rw [hr2] at this; simp [Run.observe] at this
      | ret rs w2 =>
        rw [hr] at this
        cases hr2 : SplitProxy.runCalls rest q1 w0 with
        | spin w3 => rw [hr2] at this; simp [Run.observe] at this
        | ret rs2 w3 =>
          rw [hr2] at this
          simp only [Run.observe, Run.ret.injEq] at this ⊢
          rw [this.1, this.2]
          exact ⟨rfl, rfl⟩

/-- C19. From initial states with the same pin, for every sequence of calls
of `writeByte`, `flush` and `readByte` and every peer and clock, the code with
its one shared array and the model with a transmit array and a receive array
show the same: both return or both are still polling, the world reached is the
same (same transfers and events in the trace, same number of readings of the
clock) and the bytes returned by the calls of `readByte` are the same. -/
theorem shared_array_matches_two_buffers (calls : List (Nat × Op)) (p0 : EspSpiProxy)
    (q0 : SplitProxy) (w : World) (hp : p0.Initial) (hpin : q0._ss_pin = p0._ss_pin)
    (htx : q0.txbuf.length = 32) (hrx : q0.rxbuf.length = 32) (hlen : q0.buflen = 0)
    (hpos : q0.bufpos = 0) :
    (runCalls calls p0 w).observe = (SplitProxy.runCalls calls q0 w).observe := by
  obtain ⟨h1, h2, h3⟩ := hp
  refine sim_runCalls calls p0 q0 w ⟨hpin, by rw [hlen, h2], by rw [hpos, h3], h1, htx, hrx,
    by rw [h2]; omega, Or.inl h2, ?_, ?_⟩ (by rw [h3]; omega)
  · intro i i1 i2
    rw [h2] at i2
    omega
  · intro hne
    exact absurd h3 hne

/-- A witness of C19: a byte written, a read that drops it and fetches a
frame, a second read inside the frame. -/
theorem shared_array_matches_two_buffers_witness :
    (runCalls [(1, Op.writeByte 0x41), (1, Op.readByte), (1, Op.readByte)] EspSpiProxy.ctor
        twoFrameWorld).observe
      = (SplitProxy.runCalls [(1, Op.writeByte 0x41), (1, Op.readByte), (1, Op.readByte)]
          (SplitProxy.ctor 255) twoFrameWorld).observe :=
  shared_array_matches_two_buffers _ EspSpiProxy.ctor (SplitProxy.ctor 255) twoFrameWorld
    (by decide) rfl (by decide) (by decide) rfl rfl

end WiFiSpi
